import Mathlib

/-!
Black_Myth_Wukong: terrain collider, character collider, state machine, Boss AI,
health component, enemy and Boss states, and movement.

A shallow embedding of `Classes/combat/Collider.cpp` (`TerrainCollider`, with its
mesh resource parser), `Classes/combat/CharacterCollider.h` (`CharacterCollider`),
`Classes/core/StateMachine.h` (`StateMachine`), `Classes/enemy/BossAI.cpp` (`BossAI`),
`Classes/combat/HealthComponent.cpp` (`HealthComponent`), the health callback of
`Classes/enemy/Boss.cpp`, `Classes/enemy/BossStates.cpp` (`BossAttackState`),
`Classes/enemy/EnemyStates.cpp` (the states of a generic enemy) and the movement
functions of `Classes/player/Character.cpp` and `Classes/enemy/Enemy.cpp`.

`float` values are embedded as rationals (exact arithmetic): the literals
`0.00001f` and `0.1f` are the rationals `1/100000` and `1/10`, and `FLT_MAX`
is the rational `(2^24 - 1) * 2^104`.  `int` values are embedded as `Int`;
the casts `(int)x` truncate toward zero.
-/

set_option autoImplicit false

namespace Wukong

/-! ## Vectors, rays, triangles -/

/-- Engine vector `cocos2d::Vec3`: three `float` components. -/
structure Vec3 where
  x : ℚ
  y : ℚ
  z : ℚ
deriving DecidableEq, Repr

namespace Vec3

/-- Modelled from the spec: the engine operator `Vec3::operator-` (engine math
library, not under src): component-wise difference. -/
def sub (a b : Vec3) : Vec3 := ⟨a.x - b.x, a.y - b.y, a.z - b.z⟩

/-- Modelled from the spec: the engine operator `Vec3::operator+`: component-wise sum. -/
def add (a b : Vec3) : Vec3 := ⟨a.x + b.x, a.y + b.y, a.z + b.z⟩

/-- Modelled from the spec: the engine operator `Vec3::operator*(float)`: scaling. -/
def smul (k : ℚ) (a : Vec3) : Vec3 := ⟨k * a.x, k * a.y, k * a.z⟩

/-- Modelled from the spec: the engine function `Vec3::dot`, the scalar product used by
the Möller–Trumbore test. -/
def dot (a b : Vec3) : ℚ := a.x * b.x + a.y * b.y + a.z * b.z

/-- Modelled from the spec: the engine function `Vec3::cross(v1, v2, dst)`, the vector
product `v1 × v2` used by the Möller–Trumbore test. -/
def cross (a b : Vec3) : Vec3 :=
  ⟨a.y * b.z - a.z * b.y, a.z * b.x - a.x * b.z, a.x * b.y - a.y * b.x⟩

/-- The constant `Vec3::ZERO`. -/
def ZERO : Vec3 := ⟨0, 0, 0⟩

end Vec3

/-- The class `CustomRay` of `Collider.h`: origin and (unnormalised) direction. -/
structure CustomRay where
  origin : Vec3
  direction : Vec3
deriving DecidableEq, Repr

/-- The struct `TerrainCollider::Triangle` of `Collider.h`: three corners and the
precomputed XZ extents. -/
structure Triangle where
  v0 : Vec3
  v1 : Vec3
  v2 : Vec3
  minX : ℚ
  maxX : ℚ
  minZ : ℚ
  maxZ : ℚ
deriving DecidableEq, Repr

/-- The literal `0.00001f` of `intersectTriangle`. -/
def EPSILON : ℚ := 1 / 100000

/-- The constant `FLT_MAX` of `<float.h>`: `(2 - 2^-23) * 2^127`. -/
def FLT_MAX : ℚ := (2 ^ 24 - 1) * 2 ^ 104

/-- The function `TerrainCollider::intersectTriangle` (Collider.cpp 226-256).
The result is `some t` when the source returns `true` with out-parameter `t`, and
`none` when it returns `false`. -/
def intersectTriangle (ray : CustomRay) (tri : Triangle) : Option ℚ :=
  let edge1 := Vec3.sub tri.v1 tri.v0
  let edge2 := Vec3.sub tri.v2 tri.v0
  let h := Vec3.cross ray.direction edge2
  let a := Vec3.dot edge1 h
  if a > -EPSILON ∧ a < EPSILON then none
  else
    let f := 1 / a
    let s := Vec3.sub ray.origin tri.v0
    let u := f * Vec3.dot s h
    if u < 0 ∨ u > 1 then none
    else
      let q := Vec3.cross s edge1
      let v := f * Vec3.dot ray.direction q
      if v < 0 ∨ u + v > 1 then none
      else
        let t := f * Vec3.dot edge2 q
        if t > EPSILON then some t else none

/-- The XZ footprint of a triangle: the projections on the XZ plane of the points
`v0 + u (v1 - v0) + v (v2 - v0)` with `0 ≤ u`, `0 ≤ v`, `u + v ≤ 1`. -/
def inFootprint (tri : Triangle) (x z : ℚ) : Prop :=
  ∃ u v : ℚ, 0 ≤ u ∧ 0 ≤ v ∧ u + v ≤ 1 ∧
    x = tri.v0.x + u * (tri.v1.x - tri.v0.x) + v * (tri.v2.x - tri.v0.x) ∧
    z = tri.v0.z + u * (tri.v1.z - tri.v0.z) + v * (tri.v2.z - tri.v0.z)

/-! ## The uniform grid -/

/-- The cast `(int)x` of a `float`: truncation toward zero. -/
def toInt (q : ℚ) : Int := if 0 ≤ q then ⌊q⌋ else ⌈q⌉

/-- The struct `TerrainCollider::Grid` of `Collider.h`.  A cell holds the indices
(values of the loop counter `i`, never negative) of the triangles pushed into it. -/
structure Grid where
  minX : ℚ
  minZ : ℚ
  cellSize : ℚ
  cols : Int
  rows : Int
  cells : List (List Nat)
deriving DecidableEq, Repr

/-- The data members `_triangles` and `_grid` of `TerrainCollider`. -/
structure TerrainCollider where
  triangles : List Triangle
  grid : Grid
deriving DecidableEq, Repr

/-- The accumulators `minX, maxX, minZ, maxZ` of the first loop of `buildGrid`. -/
structure Bounds where
  minX : ℚ
  maxX : ℚ
  minZ : ℚ
  maxZ : ℚ
deriving DecidableEq, Repr

/-- The first loop of `buildGrid` (Collider.cpp 147-154), started from
`FLT_MAX, -FLT_MAX, FLT_MAX, -FLT_MAX`. -/
def terrainBounds (tris : List Triangle) : Bounds :=
  tris.foldl (fun b tri =>
    { minX := min b.minX tri.minX, maxX := max b.maxX tri.maxX,
      minZ := min b.minZ tri.minZ, maxZ := max b.maxZ tri.maxZ })
    { minX := FLT_MAX, maxX := -FLT_MAX, minZ := FLT_MAX, maxZ := -FLT_MAX }

/-- The statement `cells[k].push_back(i)`. -/
def pushAt (cells : List (List Nat)) (k : Nat) (i : Nat) : List (List Nat) :=
  cells.set k (cells.getD k [] ++ [i])

/-- The values taken by the counter of `for (int r = lo; r <= hi; ++r)`. -/
def intRange (lo hi : Int) : List Int :=
  (List.range (hi + 1 - lo).toNat).map (fun (k : Nat) => lo + (k : Int))

/-- First column written for a triangle (Collider.cpp 168). -/
def startCol (g : Grid) (tri : Triangle) : Int :=
  max 0 (toInt ((tri.minX - g.minX) / g.cellSize))

/-- Last column written for a triangle (Collider.cpp 169). -/
def endCol (g : Grid) (tri : Triangle) : Int :=
  min (g.cols - 1) (toInt ((tri.maxX - g.minX) / g.cellSize))

/-- First row written for a triangle (Collider.cpp 170). -/
def startRow (g : Grid) (tri : Triangle) : Int :=
  max 0 (toInt ((tri.minZ - g.minZ) / g.cellSize))

/-- Last row written for a triangle (Collider.cpp 171). -/
def endRow (g : Grid) (tri : Triangle) : Int :=
  min (g.rows - 1) (toInt ((tri.maxZ - g.minZ) / g.cellSize))

/-- The inner loop over the columns of one row (Collider.cpp 174-176). -/
def insertRow (cols : Int) (i : Nat) (sc ec : Int) (cells : List (List Nat)) (r : Int) :
    List (List Nat) :=
  (intRange sc ec).foldl (fun cs c => pushAt cs (r * cols + c).toNat i) cells

/-- The body of the third loop of `buildGrid` for triangle number `i`
(Collider.cpp 166-177). -/
def insertTriangle (g : Grid) (i : Nat) (tri : Triangle) : Grid :=
  let rowStep := insertRow g.cols i (startCol g tri) (endCol g tri)
  { g with cells := (intRange (startRow g tri) (endRow g tri)).foldl rowStep g.cells }

/-- The third loop of `buildGrid`, `for (int i = ...; i < size; ++i)`, from counter
value `i` on. -/
def insertAll (g : Grid) : Nat → List Triangle → Grid
  | _, [] => g
  | i, tri :: rest => insertAll (insertTriangle g i tri) (i + 1) rest

/-- The grid parameters set by step 2 of `buildGrid` (Collider.cpp 157-162), with all
cells empty. -/
def emptyGrid (tris : List Triangle) : Grid :=
  let b := terrainBounds tris
  let cols : Int := 32
  let rows : Int := 32
  { minX := b.minX, minZ := b.minZ, cols := cols, rows := rows,
    cellSize := max ((b.maxX - b.minX) / (cols : ℚ)) ((b.maxZ - b.minZ) / (rows : ℚ)) + 1 / 10,
    cells := List.replicate (cols * rows).toNat [] }

/-- The function `TerrainCollider::buildGrid` (Collider.cpp 143-180). -/
def buildGrid (tc : TerrainCollider) : TerrainCollider :=
  if tc.triangles.isEmpty then tc
  else { tc with grid := insertAll (emptyGrid tc.triangles) 0 tc.triangles }

/-- The 2D reject of `rayIntersects` (Collider.cpp 206): `true` when the triangle is
skipped. -/
def skipByExtent (ray : CustomRay) (tri : Triangle) : Bool :=
  decide (ray.origin.x < tri.minX ∨ ray.origin.x > tri.maxX ∨
    ray.origin.z < tri.minZ ∨ ray.origin.z > tri.maxZ)

/-- One iteration of the loop of `rayIntersects` (Collider.cpp 202-215) on the pair
`(closestDist, hit)`.  The source indexes `_triangles[idx]` unchecked; an index
outside the list is skipped here (a built grid holds none). -/
def rayStep (tris : List Triangle) (ray : CustomRay) (acc : ℚ × Bool) (idx : Nat) :
    ℚ × Bool :=
  match tris[idx]? with
  | none => acc
  | some tri =>
    if skipByExtent ray tri then acc
    else
      match intersectTriangle ray tri with
      | none => acc
      | some t => if t < acc.1 ∧ t > 0 then (t, true) else acc

/-- The function `TerrainCollider::rayIntersects` (Collider.cpp 188-219).  The second
argument pair is the ray and the value held by the reference `hitDist` before the
call; the result is the returned flag and the value of `hitDist` after the call. -/
def rayIntersects (tc : TerrainCollider) (ray : CustomRay) (hitDist : ℚ) : Bool × ℚ :=
  if tc.triangles.isEmpty then (false, hitDist)
  else
    let c := toInt ((ray.origin.x - tc.grid.minX) / tc.grid.cellSize)
    let r := toInt ((ray.origin.z - tc.grid.minZ) / tc.grid.cellSize)
    if c < 0 ∨ c ≥ tc.grid.cols ∨ r < 0 ∨ r ≥ tc.grid.rows then (false, hitDist)
    else
      let cellIndices := tc.grid.cells.getD (r * tc.grid.cols + c).toNat []
      let res := cellIndices.foldl (rayStep tc.triangles ray) (FLT_MAX, false)
      if res.2 then (true, res.1) else (false, hitDist)

/-- The triangle built by `loadFromObj` from three corners (Collider.cpp 104-111):
the XZ extents are the minimum and maximum of the corners. -/
def mkTriangle (a b c : Vec3) : Triangle :=
  { v0 := a, v1 := b, v2 := c,
    minX := min a.x (min b.x c.x), maxX := max a.x (max b.x c.x),
    minZ := min a.z (min b.z c.z), maxZ := max a.z (max b.z c.z) }

/-- The triangle `tri1` of `extractTriangles` (Collider.cpp 134-135). -/
def floorTri1 (mn mx : Vec3) : Triangle :=
  { v0 := ⟨mn.x, mn.y, mn.z⟩, v1 := ⟨mx.x, mn.y, mn.z⟩, v2 := ⟨mx.x, mn.y, mx.z⟩,
    minX := mn.x, maxX := mx.x, minZ := mn.z, maxZ := mx.z }

/-- The triangle `tri2` of `extractTriangles` (Collider.cpp 138-139). -/
def floorTri2 (mn mx : Vec3) : Triangle :=
  { v0 := ⟨mn.x, mn.y, mn.z⟩, v1 := ⟨mx.x, mn.y, mx.z⟩, v2 := ⟨mn.x, mn.y, mx.z⟩,
    minX := mn.x, maxX := mx.x, minZ := mn.z, maxZ := mx.z }

/-- The function `TerrainCollider::extractTriangles` (Collider.cpp 127-141) on the
corners `min`, `max` of the model's bounding box: the two triangles it appends, both at
height `groundY = min.y`. -/
def extractTriangles (mn mx : Vec3) : List Triangle :=
  [floorTri1 mn mx, floorTri2 mn mx]

/-- The function `TerrainCollider::init` (Collider.cpp 30-50) for a non-null model.
`parsed` is the content of `_triangles` after the attempt to load the mesh resource
(empty when there is no path, the file is missing or it yields no triangle, the cases
in which `loaded` is false); `mn`, `mx` are the corners of the model's bounding box;
`g0` is the grid member before the call. -/
def init (parsed : List Triangle) (mn mx : Vec3) (g0 : Grid) : TerrainCollider :=
  let tris := if parsed.isEmpty then parsed ++ extractTriangles mn mx else parsed
  buildGrid { triangles := tris, grid := g0 }

/-- The indices stored in the grid cell of the ray's XZ origin: the list `cellIndices`
of `rayIntersects`, empty when the origin is outside the grid. -/
def cellOfRay (g : Grid) (ray : CustomRay) : List Nat :=
  let c := toInt ((ray.origin.x - g.minX) / g.cellSize)
  let r := toInt ((ray.origin.z - g.minZ) / g.cellSize)
  if c < 0 ∨ c ≥ g.cols ∨ r < 0 ∨ r ≥ g.rows then []
  else g.cells.getD (r * g.cols + c).toNat []

/-- Triangle number `idx` passes the 2D origin-in-extent filter of `rayIntersects` and
is accepted by `intersectTriangle` with parameter `t`. -/
def accepts (tris : List Triangle) (ray : CustomRay) (idx : Nat) (t : ℚ) : Prop :=
  ∃ tri, tris[idx]? = some tri ∧ skipByExtent ray tri = false ∧
    intersectTriangle ray tri = some t

/-- The triangle `(0,0,0), (1,0,0), (0,0,1)` as `loadFromObj` stores it. -/
def unitTriangle : Triangle := mkTriangle ⟨0, 0, 0⟩ ⟨1, 0, 0⟩ ⟨0, 0, 1⟩

/-- A grid member before `buildGrid` has run. -/
def blankGrid : Grid :=
  { minX := 0, minZ := 0, cellSize := 0, cols := 0, rows := 0, cells := [] }

/-- The collider initialised from a mesh resource holding `unitTriangle` alone. -/
def unitCollider : TerrainCollider := init [unitTriangle] ⟨0, 0, 0⟩ ⟨1, 0, 1⟩ blankGrid

/-- The downward ray from the point `(x, y, z)`. -/
def downRay (x y z : ℚ) : CustomRay := ⟨⟨x, y, z⟩, ⟨0, -1, 0⟩⟩

/-- The point `(x, z)` lies in the XZ bounding rectangle of a triangle. -/
def inExtent (tri : Triangle) (x z : ℚ) : Prop :=
  tri.minX ≤ x ∧ x ≤ tri.maxX ∧ tri.minZ ≤ z ∧ z ≤ tri.maxZ

/-- The closed rectangle of cell `(r, c)`,
`[minX + c*cellSize, minX + (c+1)*cellSize] x [minZ + r*cellSize, minZ + (r+1)*cellSize]`,
shares a point with the XZ bounding rectangle of the triangle. -/
def overlapsClosed (g : Grid) (r c : Int) (tri : Triangle) : Prop :=
  ∃ x z : ℚ, inExtent tri x z ∧
    g.minX + c * g.cellSize ≤ x ∧ x ≤ g.minX + (c + 1) * g.cellSize ∧
    g.minZ + r * g.cellSize ≤ z ∧ z ≤ g.minZ + (r + 1) * g.cellSize

/-- The half-open rectangle of cell `(r, c)`,
`[minX + c*cellSize, minX + (c+1)*cellSize) x [minZ + r*cellSize, minZ + (r+1)*cellSize)`,
shares a point with the XZ bounding rectangle of the triangle. -/
def overlapsHalfOpen (g : Grid) (r c : Int) (tri : Triangle) : Prop :=
  ∃ x z : ℚ, inExtent tri x z ∧
    g.minX + c * g.cellSize ≤ x ∧ x < g.minX + (c + 1) * g.cellSize ∧
    g.minZ + r * g.cellSize ≤ z ∧ z < g.minZ + (r + 1) * g.cellSize

/-- The XZ extents of a triangle are the minimum and maximum of its corners, as
`loadFromObj` computes them. -/
def hasTrueExtents (tri : Triangle) : Prop :=
  tri = mkTriangle tri.v0 tri.v1 tri.v2

/-- A long thin triangle, with XZ extents `[0, 144/5] x [0, 1/2]`. -/
def stripTriangle : Triangle := mkTriangle ⟨0, 0, 0⟩ ⟨144/5, 0, 0⟩ ⟨0, 0, 1/2⟩

/-- A triangle with XZ extents `[1, 2] x [0, 1]`. -/
def edgeTriangle : Triangle := mkTriangle ⟨1, 0, 0⟩ ⟨2, 0, 0⟩ ⟨1, 0, 1⟩

/-- The collider built from `stripTriangle` and `edgeTriangle`: its cell size is 1. -/
def stripCollider : TerrainCollider :=
  init [stripTriangle, edgeTriangle] ⟨0, 0, 0⟩ ⟨1, 0, 1⟩ blankGrid

/-! ## The character collider -/

/-- The engine box `cocos2d::AABB`: corners `_min` and `_max`. -/
structure AABB where
  _min : Vec3
  _max : Vec3
deriving DecidableEq, Repr

/-- A well-formed box: `_min <= _max` on each axis. -/
def AABB.wellFormed (b : AABB) : Prop :=
  b._min.x ≤ b._max.x ∧ b._min.y ≤ b._max.y ∧ b._min.z ≤ b._max.z

/-- Modelled from the spec: the engine function `AABB::intersects` (engine library, not
under src), the standard AABB-overlap predicate: per-axis overlap of the intervals
`[_min, _max]` on all three axes, boundary contact included; written as the engine
writes it. -/
def AABB.intersects (a b : AABB) : Bool :=
  decide
    (((a._min.x ≥ b._min.x ∧ a._min.x ≤ b._max.x) ∨ (b._min.x ≥ a._min.x ∧ b._min.x ≤ a._max.x)) ∧
     ((a._min.y ≥ b._min.y ∧ a._min.y ≤ b._max.y) ∨ (b._min.y ≥ a._min.y ∧ b._min.y ≤ a._max.y)) ∧
     ((a._min.z ≥ b._min.z ∧ a._min.z ≤ b._max.z) ∨ (b._min.z ≥ a._min.z ∧ b._min.z ≤ a._max.z)))

/-- The interiors of two boxes overlap: on every axis the intervals overlap with
positive length. -/
def AABB.overlapsStrictly (a b : AABB) : Prop :=
  (a._min.x < b._max.x ∧ b._min.x < a._max.x) ∧
  (a._min.y < b._max.y ∧ b._min.y < a._max.y) ∧
  (a._min.z < b._max.z ∧ b._min.z < a._max.z)

/-- The box moved by a vector, as `applyMovement` moves `nextWorldAABB`
(Character.cpp 257-258): `_min += offset; _max += offset`. -/
def AABB.translate (b : AABB) (v : Vec3) : AABB :=
  { _min := Vec3.add b._min v, _max := Vec3.add b._max v }

/-- The data members of `CharacterCollider` (CharacterCollider.h 17-18). -/
structure CharacterCollider where
  aabb : AABB
  worldAABB : AABB
deriving DecidableEq, Repr

/-- The function `CharacterCollider::checkCollision` (CharacterCollider.h 91-93). -/
def CharacterCollider.checkCollision (self : CharacterCollider) (other : AABB) : Bool :=
  self.worldAABB.intersects other

/-- The source box of `getCollisionOffset`: `sourceAABB ? *sourceAABB : worldAABB`. -/
def CharacterCollider.sourceOf (self : CharacterCollider) (sourceAABB : Option AABB) : AABB :=
  match sourceAABB with
  | some s => s
  | none => self.worldAABB

/-- The function `CharacterCollider::getCollisionOffset` (CharacterCollider.h 101-121);
`sourceAABB = none` is the null pointer. -/
def CharacterCollider.getCollisionOffset (self : CharacterCollider) (other : AABB)
    (sourceAABB : Option AABB) : Vec3 :=
  let src := self.sourceOf sourceAABB
  if !src.intersects other then Vec3.ZERO
  else
    let overlapX1 := src._max.x - other._min.x
    let overlapX2 := other._max.x - src._min.x
    let overlapZ1 := src._max.z - other._min.z
    let overlapZ2 := other._max.z - src._min.z
    let minOverlapX := if overlapX1 < overlapX2 then overlapX1 else -overlapX2
    let minOverlapZ := if overlapZ1 < overlapZ2 then overlapZ1 else -overlapZ2
    if |minOverlapX| < |minOverlapZ| then ⟨-minOverlapX, 0, 0⟩
    else ⟨0, 0, -minOverlapZ⟩

/-- The box `(0,0,0)..(10,10,10)`. -/
def boxA : AABB := ⟨⟨0, 0, 0⟩, ⟨10, 10, 10⟩⟩

/-- The box `(5,0,0)..(15,10,10)`, overlapping `boxA` by 5 on X. -/
def boxB : AABB := ⟨⟨5, 0, 0⟩, ⟨15, 10, 10⟩⟩

/-! ## The mesh resource parser `loadFromObj` -/

/-- The C function `isspace` in the "C" locale, which delimits the tokens read by
`operator>>`. -/
def isSpace (c : Char) : Bool :=
  c = ' ' || c = '\t' || c = '\n' || c = '\x0b' || c = '\x0c' || c = '\r'

/-- The value of a decimal digit character. -/
def digitVal (c : Char) : Nat := c.toNat - '0'.toNat

/-- The decimal value of a string of digits. -/
def decVal (ds : List Char) : Nat :=
  ds.foldl (fun acc c => 10 * acc + digitVal c) 0

/-- The library function `std::stoi(s)` (base 10): leading white space is skipped, an
optional sign is read, then the longest run of digits; `none` stands for the exceptions
`std::invalid_argument` (no digit) and `std::out_of_range` (value outside `int`). -/
def stoi (s : List Char) : Option Int :=
  let s1 := s.dropWhile isSpace
  let signed : Bool × List Char :=
    match s1 with
    | '-' :: r => (true, r)
    | '+' :: r => (false, r)
    | _ => (false, s1)
  let ds := signed.2.takeWhile Char.isDigit
  if ds.isEmpty then none
  else
    let v : Int := if signed.1 then -(decVal ds : Int) else (decVal ds : Int)
    if v < -2147483648 ∨ v > 2147483647 then none else some v

/-- The lambda `parseIdx` of `loadFromObj` (Collider.cpp 89-92): the text before the
first `'/'`, or the whole text when there is none, goes through `std::stoi`. -/
def parseIdx (s : List Char) : Option Int :=
  if '/' ∈ s then stoi (s.takeWhile (fun c => c != '/')) else stoi s

/-- The extraction `stream >> str` of a `std::string`: white space is skipped, then the
characters up to the next white space are read; it fails when none is left.  The result
is the token and the rest of the stream. -/
def readToken (s : List Char) : Option (List Char × List Char) :=
  let s1 := s.dropWhile isSpace
  if s1.isEmpty then none
  else some (s1.takeWhile (fun c => !isSpace c), s1.dropWhile (fun c => !isSpace c))

/-- The extraction `fss >> v1_s >> v2_s >> v3_s` (Collider.cpp 86). -/
def readFace (s : List Char) : Option (List Char × List Char × List Char) :=
  match readToken s with
  | none => none
  | some (a, s1) =>
    match readToken s1 with
    | none => none
    | some (b, s2) =>
      match readToken s2 with
      | none => none
      | some (c, _) => some (a, b, c)

/-- The extraction `vss >> x >> y >> z` (Collider.cpp 77).  `readFloat` is the library
extraction of one `float` from the rest of a stream: the value read and what is left,
or `none` when it fails. -/
def readVertex (readFloat : List Char → Option (ℚ × List Char)) (s : List Char) :
    Option (ℚ × ℚ × ℚ) :=
  match readFloat s with
  | none => none
  | some (x, s1) =>
    match readFloat s1 with
    | none => none
    | some (y, s2) =>
      match readFloat s2 with
      | none => none
      | some (z, _) => some (x, y, z)

/-- The three statements `int i = parseIdx(v_s) - 1` of the `try` block
(Collider.cpp 95-97); `none` when one of them throws.  The indices are unbounded
integers: the only `int` overflow, `INT_MIN - 1`, is rejected by the range check with
or without wrap-around. -/
def faceIndices (a b c : List Char) : Option (Int × Int × Int) :=
  match parseIdx a with
  | none => none
  | some k1 =>
    match parseIdx b with
    | none => none
    | some k2 =>
      match parseIdx c with
      | none => none
      | some k3 => some (k1 - 1, k2 - 1, k3 - 1)

/-- The local `vertices` and the member `_triangles` during `loadFromObj`. -/
structure ObjState where
  vertices : List Vec3
  triangles : List Triangle
deriving DecidableEq, Repr

/-- The vertex pushed for a vertex record (Collider.cpp 79): scale, then translate. -/
def toWorld (scale : ℚ) (pos : Vec3) (p : ℚ × ℚ × ℚ) : Vec3 :=
  ⟨p.1 * scale + pos.x, p.2.1 * scale + pos.y, p.2.2 * scale + pos.z⟩

/-- The vertex contributed by a line, when the line is an accepted vertex record. -/
def vertexOfLine (readFloat : List Char → Option (ℚ × List Char)) (scale : ℚ) (pos : Vec3)
    (line : List Char) : Option Vec3 :=
  match line with
  | 'v' :: ' ' :: rest => (readVertex readFloat rest).map (toWorld scale pos)
  | _ => none

/-- The body of the `while (std::getline(ss, line))` loop of `loadFromObj`
(Collider.cpp 71-118) on one line. -/
def processLine (readFloat : List Char → Option (ℚ × List Char)) (scale : ℚ) (pos : Vec3)
    (st : ObjState) (line : List Char) : ObjState :=
  match line with
  | 'v' :: ' ' :: rest =>
    match readVertex readFloat rest with
    | some p => { st with vertices := st.vertices ++ [toWorld scale pos p] }
    | none => st
  | 'f' :: ' ' :: rest =>
    match readFace rest with
    | none => st
    | some (a, b, c) =>
      match faceIndices a b c with
      | none => st
      | some (i1, i2, i3) =>
        if 0 ≤ i1 ∧ i1 < st.vertices.length ∧ 0 ≤ i2 ∧ i2 < st.vertices.length ∧
            0 ≤ i3 ∧ i3 < st.vertices.length then
          { st with triangles := st.triangles ++
              [mkTriangle (st.vertices.getD i1.toNat Vec3.ZERO)
                (st.vertices.getD i2.toNat Vec3.ZERO) (st.vertices.getD i3.toNat Vec3.ZERO)] }
        else st
  | _ => st

/-- The loop of `loadFromObj` over the lines of the file. -/
def loadLines (readFloat : List Char → Option (ℚ × List Char)) (scale : ℚ) (pos : Vec3)
    (st : ObjState) (lines : List (List Char)) : ObjState :=
  lines.foldl (processLine readFloat scale pos) st

/-- The function `TerrainCollider::loadFromObj` (Collider.cpp 56-121) on the content of
the file, with the model's scale and position and the member `_triangles` before the
call: the returned flag and `_triangles` after the call.  The lines are the pieces
between newlines; the empty piece after a final newline, which `std::getline` does not
produce, is skipped like every line shorter than 2. -/
def loadFromObj (readFloat : List Char → Option (ℚ × List Char)) (scale : ℚ) (pos : Vec3)
    (triangles : List Triangle) (content : List Char) : Bool × List Triangle :=
  if content.isEmpty then (false, triangles)
  else
    let st := loadLines readFloat scale pos ⟨[], triangles⟩ (content.splitOn '\n')
    (!st.triangles.isEmpty, st.triangles)

/-- A decimal numeral: a non-empty string of digits. -/
def isNumeral (ds : List Char) : Prop := ds ≠ [] ∧ ∀ c ∈ ds, c.isDigit = true

/-- The attribute suffix of a face reference: nothing, or `'/'` followed by characters
other than white space. -/
def isAttrs (r : List Char) : Prop :=
  r = [] ∨ ∃ t, r = '/' :: t ∧ ∀ c ∈ t, isSpace c = false

/-- The face record `f a b c` with references `a`, `b`, `c`. -/
def faceRecord (a b c : List Char) : List Char :=
  'f' :: ' ' :: (a ++ ' ' :: (b ++ ' ' :: c))

/-- A token of a line: non-empty, without white space. -/
def isToken (s : List Char) : Prop := s ≠ [] ∧ ∀ c ∈ s, isSpace c = false

/-- The text begins with a decimal integer: an optional sign, then a digit. -/
def startsWithInt (s : List Char) : Bool :=
  match s with
  | [] => false
  | c :: rest =>
    if c = '-' ∨ c = '+' then
      match rest with
      | [] => false
      | e :: _ => e.isDigit
    else c.isDigit

/-- A non-numeric face reference: the text before its first `'/'` does not begin with
a decimal integer. -/
def nonNumeric (s : List Char) : Prop :=
  startsWithInt (s.takeWhile (fun c => c != '/')) = false

/-- A face reference that is not an index of one of the `n` vertices seen so far:
non-numeric, index 0, index beyond `n`, or negative. -/
def badRef (n : Nat) (s : List Char) : Prop :=
  nonNumeric s ∨
  ∃ d r, isNumeral d ∧ isAttrs r ∧
    ((s = d ++ r ∧ (decVal d = 0 ∨ n < decVal d)) ∨ s = '-' :: (d ++ r))

/-- The triangle appended for a face whose references resolve to the 1-based indices
`a`, `b`, `c` of the vertex list: corners and XZ extents. -/
def faceTriangle (verts : List Vec3) (a b c : Nat) : Triangle :=
  { v0 := verts.getD (a - 1) Vec3.ZERO, v1 := verts.getD (b - 1) Vec3.ZERO,
    v2 := verts.getD (c - 1) Vec3.ZERO,
    minX := min (verts.getD (a - 1) Vec3.ZERO).x
      (min (verts.getD (b - 1) Vec3.ZERO).x (verts.getD (c - 1) Vec3.ZERO).x),
    maxX := max (verts.getD (a - 1) Vec3.ZERO).x
      (max (verts.getD (b - 1) Vec3.ZERO).x (verts.getD (c - 1) Vec3.ZERO).x),
    minZ := min (verts.getD (a - 1) Vec3.ZERO).z
      (min (verts.getD (b - 1) Vec3.ZERO).z (verts.getD (c - 1) Vec3.ZERO).z),
    maxZ := max (verts.getD (a - 1) Vec3.ZERO).z
      (max (verts.getD (b - 1) Vec3.ZERO).z (verts.getD (c - 1) Vec3.ZERO).z) }

/-- An example reader for `operator>>(float&)`: it reads a token holding an integer. -/
def intReader (s : List Char) : Option (ℚ × List Char) :=
  match readToken s with
  | none => none
  | some (t, rest) =>
    match stoi t with
    | none => none
    | some v => some ((v : ℚ), rest)

/-- The lines `v 0 0 0`, `v 1 0 0`, `v 0 0 1`. -/
def sampleLines : List (List Char) :=
  [['v', ' ', '0', ' ', '0', ' ', '0'], ['v', ' ', '1', ' ', '0', ' ', '0'],
   ['v', ' ', '0', ' ', '0', ' ', '1']]

/-! ## The local box of a collider and the push-out of `applyMovement` -/

/-- The centre of a box as `calculateBoundingBox` computes it (CharacterCollider.h 56):
`(aabb._min + aabb._max) * 0.5f`. -/
def AABB.center (b : AABB) : Vec3 :=
  ⟨(b._min.x + b._max.x) * (1 / 2), (b._min.y + b._max.y) * (1 / 2),
    (b._min.z + b._max.z) * (1 / 2)⟩

/-- The default box of `calculateBoundingBox` (CharacterCollider.h 50-51), of size
50 x 180 x 50. -/
def defaultBox : AABB := ⟨⟨-25, 0, -25⟩, ⟨25, 180, 25⟩⟩

/-- Modelled from the spec: the engine function `AABB::merge` (engine library, not
under src): the smallest box containing both boxes, component-wise minimum and
maximum of the corners. -/
def AABB.merge (a b : AABB) : AABB :=
  { _min := ⟨min a._min.x b._min.x, min a._min.y b._min.y, min a._min.z b._min.z⟩,
    _max := ⟨max a._max.x b._max.x, max a._max.y b._max.y, max a._max.z b._max.z⟩ }

/-- What `calculateBoundingBox` reads of the engine model `Sprite3D`: the box returned
by `getAABB()` and the boxes of its meshes after `calculateAABB()`. -/
structure Sprite3D where
  aabb : AABB
  meshes : List AABB
deriving DecidableEq, Repr

/-- The loop over the meshes (CharacterCollider.h 34-44): the first mesh box replaces
`aabb`, every later one is merged in; without meshes `aabb` is kept. -/
def mergeMeshes (aabb : AABB) (meshes : List AABB) : AABB :=
  match meshes with
  | [] => aabb
  | m :: rest => rest.foldl AABB.merge m

/-- The shrink step of `calculateBoundingBox` (CharacterCollider.h 55-64): for a factor
strictly between 0 and 1 the X and Z intervals are rebuilt around the centre with the
half extents scaled by the factor; Y is not written. -/
def shrinkXZ (aabb : AABB) (xzShrinkFactor : ℚ) : AABB :=
  if xzShrinkFactor < 1 ∧ xzShrinkFactor > 0 then
    let center := aabb.center
    let halfWidth := (aabb._max.x - aabb._min.x) * (1 / 2) * xzShrinkFactor
    let halfDepth := (aabb._max.z - aabb._min.z) * (1 / 2) * xzShrinkFactor
    { _min := ⟨center.x - halfWidth, aabb._min.y, center.z - halfDepth⟩,
      _max := ⟨center.x + halfWidth, aabb._max.y, center.z + halfDepth⟩ }
  else aabb

/-- The function `CharacterCollider::calculateBoundingBox` (CharacterCollider.h 25-70);
`characterModel = none` is the null pointer. -/
def CharacterCollider.calculateBoundingBox (self : CharacterCollider)
    (characterModel : Option Sprite3D) (xzShrinkFactor : ℚ) : CharacterCollider :=
  match characterModel with
  | none => self
  | some model =>
    let aabb0 := model.aabb
    let aabb1 := if aabb0._min.x ≥ aabb0._max.x then mergeMeshes aabb0 model.meshes else aabb0
    let aabb2 := if aabb1._min.x ≥ aabb1._max.x then defaultBox else aabb1
    { self with aabb := shrinkXZ aabb2 xzShrinkFactor }

/-- Modelled from the spec: the engine function `AABB::transform` (engine library, not
under src) at a transform that is a pure translation to `pos`, as `applyMovement` uses it
for an unrotated, unscaled node (Character.cpp 234-240): the local box moved to `pos`. -/
def worldBoxAt (aabb : AABB) (pos : Vec3) : AABB := aabb.translate pos

/-- One pass of the enemy loop of `Character::applyMovement` (Character.cpp 246-259)
for a live enemy: the corrected `newPos` and `nextWorldAABB`. -/
def pushOutStep (collider : CharacterCollider) (newPos : Vec3) (nextWorldAABB enemyAABB : AABB) :
    Vec3 × AABB :=
  if nextWorldAABB.intersects enemyAABB then
    let offset := collider.getCollisionOffset enemyAABB (some nextWorldAABB)
    if offset ≠ Vec3.ZERO then (newPos.add offset, nextWorldAABB.translate offset)
    else (newPos, nextWorldAABB)
  else (newPos, nextWorldAABB)

/-- A model box that is not degenerate on X: `(-20, 0, -10)..(20, 170, 30)`. -/
def modelBox : AABB := ⟨⟨-20, 0, -10⟩, ⟨20, 170, 30⟩⟩

/-! ## The generic state machine (`core/StateMachine.h`) -/

/-- A call of one of the virtual functions of `BaseState`.  A state object is named by
a number (its address). -/
inductive FsmEvent where
  | onEnter (state : Nat)
  | onExit (state : Nat)
  | onUpdate (state : Nat) (deltaTime : ℚ)
deriving DecidableEq, Repr

/-- The data members `_currentState`, `_previousState` and `_states` of `StateMachine`
(`none` is the null pointer), and the calls made so far on the state objects, oldest
first.  The callbacks are recorded, not run: a callback that calls back into the
machine from `onEnter` or `onUpdate`, the last statement of the function that invokes
it, is the next call of the sequence. -/
structure StateMachine where
  currentState : Option Nat
  previousState : Option Nat
  states : List (String × Nat)
  trace : List FsmEvent
deriving DecidableEq, Repr

/-- The assignment `m[key] = value` of an `unordered_map` with string keys: the entry
of the key is replaced, or added. -/
def mapSet {β : Type} (m : List (String × β)) (key : String) (value : β) :
    List (String × β) :=
  match m with
  | [] => [(key, value)]
  | (k, v) :: rest => if k = key then (k, value) :: rest else (k, v) :: mapSet rest key value

namespace StateMachine

/-- The constructor `StateMachine(T* owner)` (StateMachine.h 21). -/
def new : StateMachine :=
  { currentState := none, previousState := none, states := [], trace := [] }

/-- The function `StateMachine::init` (StateMachine.h 34-39). -/
def init (sm : StateMachine) (initialState : Option Nat) : StateMachine :=
  match initialState with
  | some s => { sm with currentState := some s, trace := sm.trace ++ [FsmEvent.onEnter s] }
  | none => { sm with currentState := none }

/-- The function `StateMachine::update` (StateMachine.h 45-49). -/
def update (sm : StateMachine) (deltaTime : ℚ) : StateMachine :=
  match sm.currentState with
  | some s => { sm with trace := sm.trace ++ [FsmEvent.onUpdate s deltaTime] }
  | none => sm

/-- The function `StateMachine::registerState` (StateMachine.h 55-59); `nameOf` gives
the result of `getStateName()` of each state object. -/
def registerState (nameOf : Nat → String) (sm : StateMachine) (state : Option Nat) :
    StateMachine :=
  match state with
  | some s => { sm with states := mapSet sm.states (nameOf s) s }
  | none => sm

/-- The overload `StateMachine::changeState(BaseState<T>*)` (StateMachine.h 78-92). -/
def changeStatePtr (sm : StateMachine) (newState : Option Nat) : StateMachine :=
  match newState with
  | none => sm
  | some n =>
    if some n = sm.currentState then sm
    else
      match sm.currentState with
      | some c =>
        { sm with previousState := some c, currentState := some n,
                  trace := sm.trace ++ [FsmEvent.onExit c, FsmEvent.onEnter n] }
      | none =>
        { sm with currentState := some n, trace := sm.trace ++ [FsmEvent.onEnter n] }

/-- The overload `StateMachine::changeState(const std::string&)`
(StateMachine.h 65-72). -/
def changeState (sm : StateMachine) (stateName : String) : StateMachine :=
  match sm.states.lookup stateName with
  | none => sm
  | some s => changeStatePtr sm (some s)

/-- The function `StateMachine::revertToPreviousState` (StateMachine.h 97-101). -/
def revertToPreviousState (sm : StateMachine) : StateMachine :=
  match sm.previousState with
  | some p => changeStatePtr sm (some p)
  | none => sm

end StateMachine

/-- A call on a state machine that already has its initial state. -/
inductive FsmCall where
  | registerState (state : Option Nat)
  | changeState (stateName : String)
  | changeStatePtr (newState : Option Nat)
  | revertToPreviousState
  | update (deltaTime : ℚ)
deriving DecidableEq, Repr

/-- The effect of one call. -/
def FsmCall.apply (nameOf : Nat → String) (sm : StateMachine) : FsmCall → StateMachine
  | FsmCall.registerState s => StateMachine.registerState nameOf sm s
  | FsmCall.changeState n => StateMachine.changeState sm n
  | FsmCall.changeStatePtr p => StateMachine.changeStatePtr sm p
  | FsmCall.revertToPreviousState => StateMachine.revertToPreviousState sm
  | FsmCall.update dt => StateMachine.update sm dt

/-- The effect of a sequence of calls. -/
def runCalls (nameOf : Nat → String) (sm : StateMachine) (calls : List FsmCall) :
    StateMachine :=
  calls.foldl (FsmCall.apply nameOf) sm

/-- The state left active by a trace read from the start, when the trace is well
bracketed: `onEnter s` only with no state active, `onExit s` and `onUpdate s` only with
`s` active.  The outer `none` marks a trace that is not well bracketed. -/
def traceActive : Option Nat → List FsmEvent → Option (Option Nat)
  | active, [] => some active
  | active, FsmEvent.onEnter s :: rest =>
    if active = none then traceActive (some s) rest else none
  | active, FsmEvent.onExit s :: rest =>
    if active = some s then traceActive none rest else none
  | active, FsmEvent.onUpdate s _ :: rest =>
    if active = some s then traceActive active rest else none

/-- The number of calls `onEnter(s)` in a trace. -/
def countEnter (s : Nat) (tr : List FsmEvent) : Nat :=
  tr.count (FsmEvent.onEnter s)

/-- The invariant of a started machine: a state is current, the previous state is
another one (or null), and the trace is well bracketed and leaves the current state
active. -/
def fsmInvariant (sm : StateMachine) : Prop :=
  sm.currentState ≠ none ∧ sm.previousState ≠ sm.currentState ∧
  traceActive none sm.trace = some sm.currentState

/-! ## The Boss skill selector (`enemy/BossAI.cpp`) -/

/-- The struct `BossAISkill` of `BossAI.h`. -/
structure BossAISkill where
  name : String
  rangeMin : ℚ
  rangeMax : ℚ
  cd : ℚ
  weight : ℚ
  phaseMask : Int
deriving DecidableEq, Repr

/-- The helper `M` of `BossAI.cpp`: metres to world units. -/
def M (meters : ℚ) : ℚ := meters * 100

/-- The function `BossAI::initSkills` (BossAI.cpp 25-45): the four skills pushed, then
the loop that makes the three phase-1 skills available in both phases. -/
def initSkills : List BossAISkill :=
  let pushed : List BossAISkill :=
    [⟨"Combo3", 0, M (1/2), 2, 1, 1⟩, ⟨"DashSlash", M (5/2), M 3, 4, 9/10, 1⟩,
     ⟨"GroundSlam", 0, M 1, 6, 7/10, 1⟩, ⟨"LeapSlam", M (5/2), M 5, 10, 6/5, 2⟩]
  pushed.map (fun s =>
    if s.name = "Combo3" ∨ s.name = "DashSlash" ∨ s.name = "GroundSlam" then
      { s with phaseMask := 3 }
    else s)

/-- The read `m[key]` of an `unordered_map<std::string, float>` as a value: the entry
of the key, or `0.f` when there is none. -/
def mapGet (m : List (String × ℚ)) (key : String) : ℚ :=
  (m.lookup key).getD 0

/-- The side effect of the read `m[key]`: a missing key is inserted with `0.f`. -/
def mapTouch (m : List (String × ℚ)) (key : String) : List (String × ℚ) :=
  match m.lookup key with
  | some _ => m
  | none => mapSet m key 0

/-- The data members of `BossAI` (BossAI.h 48-60), the pointer `_boss` apart. -/
structure BossAI where
  enabled : Bool
  thinkTimer : ℚ
  thinkInterval : ℚ
  skills : List BossAISkill
  cdLeft : List (String × ℚ)
deriving DecidableEq, Repr

/-- The constructor `BossAI::BossAI` (BossAI.cpp 17-21) with the member initialisers of
`BossAI.h`. -/
def BossAI.new : BossAI :=
  { enabled := true, thinkTimer := 0, thinkInterval := 1 / 10, skills := initSkills,
    cdLeft := initSkills.foldl (fun m s => mapSet m s.name 0) [] }

/-- What `BossAI::update` reads and writes of the Boss: `_phase`, `_busy`,
`_pendingSkill` (Boss.h), the results of `isDead()` and `getHealthRatio()`, and the
distance to the target when there is one. -/
structure Boss where
  phase : Int
  busy : Bool
  dead : Bool
  healthRatio : ℚ
  targetDistance : Option ℚ
  pendingSkill : String
deriving DecidableEq, Repr

/-- The function `Boss::isBusy` (Boss.h 58). -/
def Boss.isBusy (b : Boss) : Bool := b.busy || b.dead

/-- The function `Boss::setPhase` (Boss.h 41). -/
def Boss.setPhase (b : Boss) (p : Int) : Boss := { b with phase := p }

/-- The function `Boss::setPendingSkill` (Boss.h 64). -/
def Boss.setPendingSkill (b : Boss) (s : String) : Boss := { b with pendingSkill := s }

/-- The function `Boss::distanceToPlayer` (Boss.cpp 123-126): `1e9f` without a target,
else the length of the difference of the world positions, given by `targetDistance`. -/
def Boss.distanceToPlayer (b : Boss) : ℚ :=
  match b.targetDistance with
  | none => 1000000000
  | some d => d

/-- The sum `sum` of `pickByWeight` (BossAI.cpp 53-54). -/
def weightSum (cands : List BossAISkill) : ℚ :=
  cands.foldl (fun sum s => sum + max 0 s.weight) 0

/-- The second loop of `pickByWeight` (BossAI.cpp 59-62), from candidate number `i` on
with running value `r`: the number of the candidate returned, or `none` when the loop
ends without a return. -/
def pickLoop : List BossAISkill → ℚ → Nat → Option Nat
  | [], _, _ => none
  | s :: rest, r, i =>
    if r - max 0 s.weight ≤ 0 then some i else pickLoop rest (r - max 0 s.weight) (i + 1)

/-- The function `BossAI::pickByWeight` (BossAI.cpp 51-64) on a non-empty list: the
position in `cands` of the pointer returned.  `draw sum` is the value returned by
`RandomHelper::random_real(0.f, sum)`. -/
def pickIndex (draw : ℚ → ℚ) (cands : List BossAISkill) : Nat :=
  if weightSum cands ≤ 0 then 0
  else
    match pickLoop cands (draw (weightSum cands)) 0 with
    | some i => i
    | none => cands.length - 1

/-- The skill returned by `BossAI::pickByWeight`; `none` on the empty list, where the
source reads `cands.front()` of an empty vector. -/
def pickByWeight (draw : ℚ → ℚ) (cands : List BossAISkill) : Option BossAISkill :=
  cands[pickIndex draw cands]?

/-- One iteration of the candidate loop of `BossAI::update` (BossAI.cpp 101-110) on the
pair of `cands` and `_cdLeft`. -/
def collectStep (phase : Int) (dist : ℚ) (acc : List BossAISkill × List (String × ℚ))
    (s : BossAISkill) : List BossAISkill × List (String × ℚ) :=
  if Int.land s.phaseMask phase = 0 then acc
  else if dist < s.rangeMin ∨ dist > s.rangeMax then acc
  else if mapGet acc.2 s.name > 0 then (acc.1, mapTouch acc.2 s.name)
  else (acc.1 ++ [s], mapTouch acc.2 s.name)

/-- The candidate loop of `BossAI::update` (BossAI.cpp 98-110). -/
def collectCandidates (skills : List BossAISkill) (phase : Int) (dist : ℚ)
    (cdLeft : List (String × ℚ)) : List BossAISkill × List (String × ℚ) :=
  skills.foldl (collectStep phase dist) ([], cdLeft)

/-- The result of one call of `BossAI::update`: the AI and the Boss after the call, and
the names passed to `changeState` of the Boss state machine, in order.  The changes of
state are recorded, not run. -/
structure TickResult where
  ai : BossAI
  boss : Boss
  requests : List String
deriving DecidableEq, Repr

/-- The cooldown loop of `BossAI::update` (BossAI.cpp 73-75). -/
def decrementCooldowns (cdLeft : List (String × ℚ)) (dt : ℚ) : List (String × ℚ) :=
  cdLeft.map (fun kv => (kv.1, max 0 (kv.2 - dt)))

/-- Steps 5 to 9 of `BossAI::update` (BossAI.cpp 93-136): skill selection. -/
def selectSkill (ai : BossAI) (boss : Boss) (draw : ℚ → ℚ) : TickResult :=
  let dist := boss.distanceToPlayer
  let phase := boss.phase
  let collected := collectCandidates ai.skills phase dist ai.cdLeft
  let cands := collected.1
  let ai1 : BossAI := { ai with cdLeft := collected.2 }
  let leap : Option BossAISkill :=
    if phase = 2 ∧ dist > M 6 then cands.find? (fun s => s.name = "LeapSlam") else none
  match leap with
  | some s =>
    { ai := { ai1 with cdLeft := mapSet ai1.cdLeft "LeapSlam" s.cd },
      boss := boss.setPendingSkill "LeapSlam", requests := ["Attack"] }
  | none =>
    match pickByWeight draw cands with
    | some pick =>
      { ai := { ai1 with cdLeft := mapSet ai1.cdLeft pick.name pick.cd },
        boss := boss.setPendingSkill pick.name, requests := ["Attack"] }
    | none => { ai := ai1, boss := boss, requests := ["Chase"] }

/-- The function `BossAI::update` (BossAI.cpp 69-136) with a non-null `_boss`. -/
def BossAI.update (ai : BossAI) (boss : Boss) (dt : ℚ) (draw : ℚ → ℚ) : TickResult :=
  if !ai.enabled then { ai := ai, boss := boss, requests := [] }
  else
    let ai1 : BossAI := { ai with cdLeft := decrementCooldowns ai.cdLeft dt }
    if boss.dead then { ai := ai1, boss := boss, requests := [] }
    else if boss.isBusy then { ai := ai1, boss := boss, requests := [] }
    else if ai1.thinkTimer + dt < ai1.thinkInterval then
      { ai := { ai1 with thinkTimer := ai1.thinkTimer + dt }, boss := boss, requests := [] }
    else
      let ai2 : BossAI := { ai1 with thinkTimer := 0 }
      if boss.phase = 1 ∧ boss.healthRatio ≤ 1 / 2 then
        { ai := ai2, boss := boss.setPhase 2, requests := ["PhaseChange"] }
      else selectSkill ai2 boss draw

/-- A Boss in phase 1 at full health, idle, with its target at the given distance. -/
def sampleBoss (dist : ℚ) : Boss :=
  { phase := 1, busy := false, dead := false, healthRatio := 1, targetDistance := some dist,
    pendingSkill := "" }

/-- The clamped weights of the first `k` candidates, summed. -/
def prefixWeight (cands : List BossAISkill) (k : Nat) : ℚ :=
  ((cands.take k).map (fun s => max 0 s.weight)).sum

/-- The eligibility test of the candidate loop on the cooldown map `cdLeft`: phase
mask, distance band and elapsed cooldown. -/
def eligible (phase : Int) (dist : ℚ) (cdLeft : List (String × ℚ)) (s : BossAISkill) : Bool :=
  decide (Int.land s.phaseMask phase ≠ 0 ∧ s.rangeMin ≤ dist ∧ dist ≤ s.rangeMax ∧
    mapGet cdLeft s.name = 0)

/-- Three candidates with weights 1, 1, 2. -/
def weighted112 : List BossAISkill :=
  [⟨"A", 0, 0, 0, 1, 1⟩, ⟨"B", 0, 0, 0, 1, 1⟩, ⟨"C", 0, 0, 0, 2, 1⟩]

/-- One call of `update` in a run of the game: the value given to `setEnabled` before
the call, the Boss as the call finds it, the frame time and the random source. -/
structure Tick where
  enabled : Bool
  boss : Boss
  dt : ℚ
  draw : ℚ → ℚ

/-- The AI after a sequence of calls of `update`. -/
def runTicks (ai : BossAI) : List Tick → BossAI
  | [] => ai
  | t :: rest => runTicks (({ ai with enabled := t.enabled }).update t.boss t.dt t.draw).ai rest

/-- The skill table: cooldown durations are not negative and names are unique. -/
def tableOK (skills : List BossAISkill) : Prop :=
  (∀ s ∈ skills, 0 ≤ s.cd) ∧ ∀ s ∈ skills, ∀ t ∈ skills, s.name = t.name → s = t

/-- The AI after a first tick that selects `Combo3` (target at distance 30, draw at
half the sum): the cooldown of `Combo3` is 2. -/
def aiAfterCombo : BossAI :=
  (BossAI.new.update (sampleBoss 30) (1 / 10) (fun s => s / 2)).ai

/-! ## Runs of the Boss skill selector -/

/-- One call of `update` in a run: `setEnabled(t.enabled)`, then `update(t.dt)` with the
Boss as the call finds it. -/
def tickRun (ai : BossAI) (t : Tick) : TickResult :=
  ({ ai with enabled := t.enabled }).update t.boss t.dt t.draw

/-- The frame times of a sequence of calls, summed. -/
def dtSum (ticks : List Tick) : ℚ := (ticks.map (fun t => t.dt)).sum

/-- The frame times of the calls that reach the think timer (AI enabled, Boss alive and
not busy), summed. -/
def thinkTime (ticks : List Tick) : ℚ :=
  ((ticks.filter (fun t => t.enabled && !t.boss.dead && !t.boss.busy)).map (fun t => t.dt)).sum

/-- The frame times of the calls on which the Boss is alive and not busy, the AI
enabled or not, summed. -/
def livingTime (ticks : List Tick) : ℚ :=
  ((ticks.filter (fun t => !t.boss.dead && !t.boss.busy)).map (fun t => t.dt)).sum

/-- What the Boss holds of its target `_target` (a `Wukong`): whether the target is
dead, and the distance between the world positions. -/
structure Target where
  dead : Bool
  distance : ℚ
deriving DecidableEq, Repr

/-- The Boss with the target pointer set (`Enemy::setTarget`), `none` for the null
pointer.  `Boss::distanceToPlayer` (Boss.cpp 123-126) tests the pointer only and does
not read `isDead()` of the target. -/
def Boss.withTarget (b : Boss) (target : Option Target) : Boss :=
  { b with targetDistance := target.map (fun t => t.distance) }

/-- The tick of the built-in AI with target at distance 30 and the draw at half the
sum, with the given frame time. -/
def comboTick (dt : ℚ) : Tick :=
  { enabled := true, boss := sampleBoss 30, dt := dt, draw := fun s => s / 2 }

/-! ## Reference scan for `rayIntersects` -/

/-- The parameters `t` of the triangles of the collider accepted by `intersectTriangle`
for the ray, in the order of `_triangles`. -/
def acceptedParams (tc : TerrainCollider) (ray : CustomRay) : List ℚ :=
  tc.triangles.filterMap (intersectTriangle ray)

/-- Reference scan of the refinement claim (written from the claim, not from the
source): `intersectTriangle` is applied to every triangle of the collider and the
smallest accepted `t` is kept; without an accepted triangle the flag is false and
`hitDist` keeps its value. -/
def bruteForceScan (tc : TerrainCollider) (ray : CustomRay) (hitDist : ℚ) : Bool × ℚ :=
  match (acceptedParams tc ray).minimum with
  | none => (false, hitDist)
  | some t => (true, t)

/-- Reference scan with a starting value: as `bruteForceScan`, but only parameters
below `limit` (the initial `closestDist`) are kept. -/
def bruteForceBelow (limit : ℚ) (tc : TerrainCollider) (ray : CustomRay) (hitDist : ℚ) :
    Bool × ℚ :=
  match ((acceptedParams tc ray).filter (fun t => decide (t < limit))).minimum with
  | none => (false, hitDist)
  | some t => (true, t)

/-! ## The health component (`combat/HealthComponent.cpp`) and the Boss health hook -/

/-- The data members of `HealthComponent` (HealthComponent.h 135-138), the callbacks
apart. -/
structure HealthComponent where
  _maxHealth : ℚ
  _currentHealth : ℚ
  _isInvincible : Bool
  _isDead : Bool
deriving DecidableEq, Repr

/-- A call of one of the callbacks of `HealthComponent`, with its arguments (the
attacker pointer apart). -/
inductive HealthEvent where
  | onHurt (actualDamage : ℚ)
  | onDead
  | onHealthChange (first second : ℚ)
deriving DecidableEq, Repr

namespace HealthComponent

/-- The constructor `HealthComponent::HealthComponent` (HealthComponent.cpp 13-20). -/
def new : HealthComponent :=
  { _maxHealth := 0, _currentHealth := 0, _isInvincible := false, _isDead := false }

/-- The function `HealthComponent::init` (HealthComponent.cpp 60-74): the returned flag
and the component after the call. -/
def init (h : HealthComponent) (maxHealth : ℚ) : Bool × HealthComponent :=
  if maxHealth ≤ 0 then (false, h)
  else (true, { _maxHealth := maxHealth, _currentHealth := maxHealth, _isInvincible := false,
                _isDead := false })

/-- The function `HealthComponent::takeDamage` (HealthComponent.cpp 92-138): the
component after the call and the callbacks invoked, in order (each one when it is
set). The callbacks are recorded, not run. -/
def takeDamage (h : HealthComponent) (damage : ℚ) : HealthComponent × List HealthEvent :=
  if h._isInvincible then (h, [])
  else if h._isDead then (h, [])
  else
    let actualDamage := max damage 0
    let oldHealth := h._currentHealth
    let h1 : HealthComponent :=
      { h with _currentHealth := max (h._currentHealth - actualDamage) 0 }
    if h1._currentHealth ≤ 0 ∧ !h1._isDead then
      ({ h1 with _isDead := true },
        [HealthEvent.onHurt actualDamage, HealthEvent.onDead,
          HealthEvent.onHealthChange h1._currentHealth oldHealth])
    else
      (h1, [HealthEvent.onHurt actualDamage,
        HealthEvent.onHealthChange h1._currentHealth oldHealth])

/-- The function `HealthComponent::heal` (HealthComponent.cpp 152-176). -/
def heal (h : HealthComponent) (amount : ℚ) : HealthComponent × List HealthEvent :=
  if h._isDead then (h, [])
  else
    let actualHeal := max amount 0
    let oldHealth := h._currentHealth
    let h1 : HealthComponent :=
      { h with _currentHealth := min (h._currentHealth + actualHeal) h._maxHealth }
    (h1, [HealthEvent.onHealthChange h1._currentHealth oldHealth])

/-- The function `HealthComponent::setMaxHealth` (HealthComponent.cpp 185-204). -/
def setMaxHealth (h : HealthComponent) (maxHealth : ℚ) : HealthComponent × List HealthEvent :=
  if maxHealth ≤ 0 then (h, [])
  else
    let oldHealth := h._currentHealth
    let h1 : HealthComponent :=
      { h with _maxHealth := maxHealth, _currentHealth := min h._currentHealth maxHealth }
    (h1, [HealthEvent.onHealthChange h1._currentHealth oldHealth])

/-- The function `HealthComponent::getHealthPercentage` (HealthComponent.cpp 226-231). -/
def getHealthPercentage (h : HealthComponent) : ℚ :=
  if h._maxHealth ≤ 0 then 0 else h._currentHealth / h._maxHealth

/-- The function `HealthComponent::isDead` (HealthComponent.cpp 237-239). -/
def isDead (h : HealthComponent) : Bool := h._isDead

/-- The function `HealthComponent::reset` (HealthComponent.cpp 264-273). -/
def reset (h : HealthComponent) : HealthComponent × List HealthEvent :=
  ({ h with _currentHealth := h._maxHealth, _isDead := false },
    [HealthEvent.onHealthChange h._maxHealth 0])

/-- The function `HealthComponent::fullHeal` (HealthComponent.cpp 279-287). -/
def fullHeal (h : HealthComponent) : HealthComponent × List HealthEvent :=
  let oldHealth := h._currentHealth
  let h1 : HealthComponent := { h with _currentHealth := h._maxHealth }
  if oldHealth ≠ h1._currentHealth then
    (h1, [HealthEvent.onHealthChange h1._currentHealth (h1._currentHealth - oldHealth)])
  else (h1, [])

/-- The function `HealthComponent::setCurrentHealth` (HealthComponent.cpp 289-300). -/
def setCurrentHealth (h : HealthComponent) (health : ℚ) : HealthComponent × List HealthEvent :=
  let oldHealth := h._currentHealth
  let cur := max 0 (min health h._maxHealth)
  let h1 : HealthComponent :=
    { h with _currentHealth := cur, _isDead := if cur > 0 then false else h._isDead }
  (h1, [HealthEvent.onHealthChange h1._currentHealth oldHealth])

end HealthComponent

/-- A call of one of the health-changing functions named by the invariant claim. -/
inductive HealthOp where
  | takeDamage (damage : ℚ)
  | heal (amount : ℚ)
  | fullHeal
  | setMaxHealth (maxHealth : ℚ)
deriving DecidableEq, Repr

/-- The component after one call. -/
def HealthOp.apply (h : HealthComponent) : HealthOp → HealthComponent
  | HealthOp.takeDamage d => (h.takeDamage d).1
  | HealthOp.heal a => (h.heal a).1
  | HealthOp.fullHeal => h.fullHeal.1
  | HealthOp.setMaxHealth m => (h.setMaxHealth m).1

/-- The component after a sequence of calls. -/
def runHealthOps (h : HealthComponent) (ops : List HealthOp) : HealthComponent :=
  ops.foldl HealthOp.apply h

/-- The test `percent <= 0.5f` of the Boss health callback on `percent = current / max`
(Boss.cpp 59, 63), a `float` division: with a zero divisor the quotient is `+inf`,
`-inf` or NaN, and only `-inf` (a negative dividend) passes the test. -/
def percentAtMostHalf (current max : ℚ) : Bool :=
  if max = 0 then decide (current < 0) else decide (current / max ≤ 1 / 2)

/-- What the health callbacks of a Boss read and write: the health component
(`_health`), `_hasHealed` and `_phase` (Boss.h), `_canMove` and `_canAttack` (Enemy.h),
and the names passed to `changeState` of its state machine, in order. -/
structure BossBody where
  health : HealthComponent
  hasHealed : Bool
  phase : Int
  canMove : Bool
  canAttack : Bool
  requests : List String
deriving DecidableEq, Repr

/-- The function `Enemy::isDead` (Enemy.cpp 195-198) with a health component. -/
def BossBody.isDead (b : BossBody) : Bool := b.health.isDead

/-- The health-change callback installed by `Boss::initBoss` (Boss.cpp 58-73), called
with the two arguments the component passes.  The call of `fullHeal` invokes the
callback again, from inside; `fuel` bounds the depth of that recursion (depth 2 is
never exceeded, since `_hasHealed` is set before the inner call).  The call to the HUD
(`updateBossHP`) is not part of the model. -/
def bossHealthCallback : Nat → BossBody → ℚ → ℚ → BossBody
  | 0, b, _, _ => b
  | fuel + 1, b, current, max =>
    if !b.hasHealed ∧ percentAtMostHalf current max ∧ !b.isDead then
      let b1 : BossBody := { b with hasHealed := true, phase := 2 }
      let healed := b1.health.fullHeal
      let b2 : BossBody := { b1 with health := healed.1 }
      let b3 := healed.2.foldl (fun acc ev =>
        match ev with
        | HealthEvent.onHealthChange x y => bossHealthCallback fuel acc x y
        | _ => acc) b2
      { b3 with requests := b3.requests ++ ["PhaseChange"] }
    else b

/-- The function `Enemy::onHurtCallback` (Enemy.cpp 319-353) for an enemy of type
`BOSS` with a state machine: `Hit` is requested unless the enemy is dead; for a dead
Boss the function falls through to the generic path, which disables movement and
attack and requests `Hit` (the delayed action that restores them is not part of the
model). -/
def BossBody.onHurtCallback (b : BossBody) : BossBody :=
  if !b.isDead then { b with requests := b.requests ++ ["Hit"] }
  else { b with canMove := false, canAttack := false, requests := b.requests ++ ["Hit"] }

/-- The function `Enemy::onDeadCallback` (Enemy.cpp 357-370) with a state machine. -/
def BossBody.onDeadCallback (b : BossBody) : BossBody :=
  { b with canMove := false, canAttack := false, requests := b.requests ++ ["Dead"] }

/-- A call `takeDamage(damage)` on the health component of a Boss
(HealthComponent.cpp 92-138) with the three callbacks of the Boss run where the
component invokes them: `Enemy::onHurtCallback` before the death test,
`Enemy::onDeadCallback` inside it, the health-change callback of `Boss::initBoss` last,
with the arguments `(_currentHealth, oldHealth)`. -/
def BossBody.takeDamage (b : BossBody) (damage : ℚ) : BossBody :=
  if b.health._isInvincible then b
  else if b.health._isDead then b
  else
    let actualDamage := max damage 0
    let oldHealth := b.health._currentHealth
    let b1 : BossBody :=
      { b with health :=
          { b.health with _currentHealth := max (b.health._currentHealth - actualDamage) 0 } }
    let b2 := b1.onHurtCallback
    let b3 : BossBody :=
      if b2.health._currentHealth ≤ 0 ∧ !b2.health._isDead then
        ({ b2 with health := { b2.health with _isDead := true } } : BossBody).onDeadCallback
      else b2
    bossHealthCallback 2 b3 b3.health._currentHealth oldHealth

/-- The Boss after `initBoss`: the health component of `Enemy::initHealthComponent`
(maximum 100), phase 1, heal not used. -/
def BossBody.new : BossBody :=
  { health := (HealthComponent.new.init 100).2, hasHealed := false, phase := 1,
    canMove := true, canAttack := true, requests := [] }

/-! ## The Boss attack state (`enemy/BossStates.cpp`) -/

/-- The struct `BossSkillConfig` of `BossStates.h`. -/
structure BossSkillConfig where
  skill : String
  anim : String
  windup : ℚ
  moveTime : ℚ
  active : ℚ
  recovery : ℚ
  dashDistance : ℚ
  hitRadius : ℚ
  damage : ℚ
  lockTarget : Bool
deriving DecidableEq, Repr

/-- The function `getCfg` of `BossStates.cpp` (50-88); an unknown name gets the
configuration of `Combo3`. -/
def getCfg (skill : String) : BossSkillConfig :=
  if skill = "Combo3" then
    ⟨"Combo3", "combo3", 35/100, 0, 50/100, 65/100, 0, M (12/10), 12, false⟩
  else if skill = "DashSlash" then
    ⟨"DashSlash", "rush", 30/100, 25/100, 15/100, 50/100, M 2, M (14/10), 16, true⟩
  else if skill = "GroundSlam" then
    ⟨"GroundSlam", "groundslam", 60/100, 0, 20/100, 80/100, 0, M (17/10), 20, false⟩
  else if skill = "Roar" then
    ⟨"Roar", "roar", 1, 0, 0, 0, 0, 0, 0, false⟩
  else if skill = "LeapSlam" then
    ⟨"LeapSlam", "rush", 35/100, 35/100, 15/100, 130/100, M 2, M 3, 26, true⟩
  else
    ⟨"Combo3", "combo3", 35/100, 0, 50/100, 65/100, 0, M (12/10), 12, false⟩

/-- The enumeration `BossAttackState::Stage` (BossStates.h 100). -/
inductive Stage where
  | Windup
  | Move
  | Active
  | Recovery
deriving DecidableEq, Repr

/-- The position of a stage in the order `Windup, Move, Active, Recovery`. -/
def Stage.rank : Stage → Nat
  | Stage.Windup => 0
  | Stage.Move => 1
  | Stage.Active => 2
  | Stage.Recovery => 3

/-- The data members `_stage`, `_timer`, `_didHit`, `_cfg` of `BossAttackState`
(BossStates.h 101-106).  The positions `_startW`, `_targetW` only steer the motion of
the Move stage and are not part of the model. -/
structure BossAttackState where
  stage : Stage
  timer : ℚ
  didHit : Bool
  cfg : BossSkillConfig
deriving DecidableEq, Repr

/-- What a callback of `BossAttackState` does to the Boss and the world, in order. -/
inductive AttackEvent where
  | setBusy (b : Bool)
  | playAnim (name : String)
  | setPosition (t01 : ℚ)
  | applyHitOnce
  | changeState (name : String)
deriving DecidableEq, Repr

/-- The function `BossAttackState::onEnter` (BossStates.cpp 237-266) for a non-null
Boss with the given pending skill (the empty string when there is none). -/
def BossAttackState.onEnter (pendingSkill : String) : BossAttackState × List AttackEvent :=
  let skill := if pendingSkill ≠ "" then pendingSkill else "Combo3"
  let cfg := getCfg skill
  ({ stage := Stage.Windup, timer := 0, didHit := false, cfg := cfg },
    [AttackEvent.setBusy true, AttackEvent.playAnim cfg.anim])

/-- The lambda `gotoStage` of `BossAttackState::onUpdate` (BossStates.cpp 284-288). -/
def BossAttackState.gotoStage (st : BossAttackState) (s : Stage) : BossAttackState :=
  { st with stage := s, timer := 0, didHit := if s = Stage.Active then false else st.didHit }

/-- The function `BossAttackState::onUpdate` (BossStates.cpp 271-343) for a non-null
Boss; `dead` is the result of `enemy->isDead()`. -/
def BossAttackState.onUpdate (st : BossAttackState) (dead : Bool) (dt : ℚ) :
    BossAttackState × List AttackEvent :=
  if dead then (st, [AttackEvent.changeState "Dead"])
  else
    let st1 : BossAttackState := { st with timer := st.timer + dt }
    match st1.stage with
    | Stage.Windup =>
      if st1.timer ≥ st1.cfg.windup then
        if st1.cfg.moveTime > 0 then (st1.gotoStage Stage.Move, [])
        else (st1.gotoStage Stage.Active, [])
      else (st1, [])
    | Stage.Move =>
      let denom := max (1 / 10000) st1.cfg.moveTime
      let t01 := min 1 (st1.timer / denom)
      if st1.timer ≥ st1.cfg.moveTime then
        (st1.gotoStage Stage.Active, [AttackEvent.setPosition t01])
      else (st1, [AttackEvent.setPosition t01])
    | Stage.Active =>
      let hitEvents := if !st1.didHit then [AttackEvent.applyHitOnce] else []
      let st2 : BossAttackState := { st1 with didHit := true }
      if st2.timer ≥ st2.cfg.active then
        (st2.gotoStage Stage.Recovery,
          hitEvents ++ (if st2.cfg.skill = "LeapSlam" then [AttackEvent.playAnim "groundslam"]
            else []))
      else (st2, hitEvents)
    | Stage.Recovery =>
      if st1.timer ≥ st1.cfg.recovery then
        (st1, [AttackEvent.setBusy false, AttackEvent.changeState "Chase"])
      else (st1, [])

/-- One frame of an activation: the result of `isDead()` and the frame time. -/
structure AttackFrame where
  dead : Bool
  dt : ℚ
deriving DecidableEq, Repr

/-- The state after a sequence of calls of `onUpdate`, with the events of all the calls
in order. -/
def runAttack (st : BossAttackState) : List AttackFrame → BossAttackState × List AttackEvent
  | [] => (st, [])
  | f :: rest =>
    let r := st.onUpdate f.dead f.dt
    let r2 := runAttack r.1 rest
    (r2.1, r.2 ++ r2.2)

/-- The frame times of the frames on which the Boss is alive, summed: the frames on
which `_timer` advances. -/
def aliveTime (frames : List AttackFrame) : ℚ :=
  ((frames.filter (fun f => !f.dead)).map (fun f => f.dt)).sum

/-- The time a stage runs before `onUpdate` leaves it. -/
def Stage.duration (cfg : BossSkillConfig) : Stage → ℚ
  | Stage.Windup => cfg.windup
  | Stage.Move => cfg.moveTime
  | Stage.Active => cfg.active
  | Stage.Recovery => cfg.recovery

/-- The number of damage checks still possible in an activation: none in Recovery or
once `_didHit` is set in the Active stage, one otherwise. -/
def hitsLeft (st : BossAttackState) : Nat :=
  if st.stage = Stage.Recovery ∨ (st.stage = Stage.Active ∧ st.didHit = true) then 0 else 1

/-! ## The states of a generic enemy (`enemy/EnemyStates.cpp`) -/

/-- The state objects registered by `Enemy::initStateMachine` (Enemy.cpp 275-281), in
the order of registration. -/
inductive EnemyStateId where
  | Idle
  | Patrol
  | Chase
  | Attack
  | Hit
  | Dead
  | Return
deriving DecidableEq, Repr

/-- The number (address) of a state object in the state machine. -/
def EnemyStateId.id : EnemyStateId → Nat
  | EnemyStateId.Idle => 0
  | EnemyStateId.Patrol => 1
  | EnemyStateId.Chase => 2
  | EnemyStateId.Attack => 3
  | EnemyStateId.Hit => 4
  | EnemyStateId.Dead => 5
  | EnemyStateId.Return => 6

/-- The state object with a given number. -/
def EnemyStateId.ofId : Nat → Option EnemyStateId
  | 0 => some EnemyStateId.Idle
  | 1 => some EnemyStateId.Patrol
  | 2 => some EnemyStateId.Chase
  | 3 => some EnemyStateId.Attack
  | 4 => some EnemyStateId.Hit
  | 5 => some EnemyStateId.Dead
  | 6 => some EnemyStateId.Return
  | _ => none

/-- The functions `getStateName` of the enemy states (EnemyStates.cpp). -/
def EnemyStateId.getStateName : EnemyStateId → String
  | EnemyStateId.Idle => "Idle"
  | EnemyStateId.Patrol => "Patrol"
  | EnemyStateId.Chase => "Chase"
  | EnemyStateId.Attack => "Attack"
  | EnemyStateId.Hit => "Hit"
  | EnemyStateId.Dead => "Dead"
  | EnemyStateId.Return => "Return"

/-- The result of `getStateName()` of the state object with a given number. -/
def enemyStateName (n : Nat) : String :=
  match EnemyStateId.ofId n with
  | some s => s.getStateName
  | none => ""

/-- What the callbacks of the enemy states read of the enemy and the world in a
frame: `isDead()`, `HasTarget(enemy)`, the distance between the world positions of
enemy and player, `getViewRange()`, `canMove()`, `canAttack()`, the distance from the
birth point, `getMaxChaseRange()`, the distance to the patrol target and to the return
target, and the values returned by `RandomHelper::random_real` in `onEnter`. -/
structure EnemyPercept where
  isDead : Bool
  hasTarget : Bool
  distanceToPlayer : ℚ
  viewRange : ℚ
  canMove : Bool
  canAttack : Bool
  distanceFromBirth : ℚ
  maxChaseRange : ℚ
  patrolDistance : ℚ
  returnDistance : ℚ
  randomIdleTime : ℚ
  randomPatrolTime : ℚ
deriving DecidableEq, Repr

/-- The data members of the seven state objects (EnemyStates.h), the positions
apart. -/
structure EnemyStateVars where
  idleTimer : ℚ
  maxIdleTime : ℚ
  patrolTimer : ℚ
  maxPatrolTime : ℚ
  chaseTimer : ℚ
  attackTimer : ℚ
  attackCooldown : ℚ
  attacked : Bool
  hitTimer : ℚ
  hitDuration : ℚ
  isDeadProcessed : Bool
deriving DecidableEq, Repr

/-- The constructors of the state objects (EnemyStates.cpp 65-68, 137-141, 238-240,
369-372, 466-469, 538-540).  The member `_attacked` is not initialised by its
constructor; `onEnter` sets it before `onUpdate` reads it. -/
def EnemyStateVars.new : EnemyStateVars :=
  { idleTimer := 0, maxIdleTime := 2, patrolTimer := 0, maxPatrolTime := 5, chaseTimer := 0,
    attackTimer := 0, attackCooldown := 3, attacked := false, hitTimer := 0,
    hitDuration := 1 / 2, isDeadProcessed := false }

/-- The functions `onEnter` of the enemy states, on the data members of the state
objects; animations and the delayed removal of a dead enemy are not part of the
model. -/
def enemyOnEnter (s : EnemyStateId) (v : EnemyStateVars) (p : EnemyPercept) : EnemyStateVars :=
  match s with
  | EnemyStateId.Idle => { v with idleTimer := 0, maxIdleTime := p.randomIdleTime }
  | EnemyStateId.Patrol => { v with patrolTimer := 0, maxPatrolTime := p.randomPatrolTime }
  | EnemyStateId.Chase => { v with chaseTimer := 0 }
  | EnemyStateId.Attack => { v with attackTimer := 0, attacked := false }
  | EnemyStateId.Hit => { v with hitTimer := 0 }
  | EnemyStateId.Dead => { v with isDeadProcessed := false }
  | EnemyStateId.Return => v

/-- The function `EnemyIdleState::onUpdate` (EnemyStates.cpp 92-115): the data
members after the call and the names passed to `changeState`, in order. -/
def idleOnUpdate (v : EnemyStateVars) (p : EnemyPercept) (deltaTime : ℚ) :
    EnemyStateVars × List String :=
  if p.isDead then (v, ["Dead"])
  else
    let v1 := { v with idleTimer := v.idleTimer + deltaTime }
    let r1 := if v1.idleTimer ≥ v1.maxIdleTime then ["Patrol"] else []
    if p.hasTarget ∧ p.distanceToPlayer ≤ p.viewRange then (v1, r1 ++ ["Chase"])
    else (v1, r1)

/-- The function `EnemyPatrolState::onUpdate` (EnemyStates.cpp 175-222). -/
def patrolOnUpdate (v : EnemyStateVars) (p : EnemyPercept) (deltaTime : ℚ) :
    EnemyStateVars × List String :=
  if p.isDead then (v, ["Dead"])
  else
    let v1 := { v with patrolTimer := v.patrolTimer + deltaTime }
    if p.hasTarget ∧ p.distanceToPlayer ≤ p.viewRange then (v1, ["Chase"])
    else
      let r1 := if p.canMove then (if p.patrolDistance > 10 then [] else ["Idle"]) else []
      let r2 := if v1.patrolTimer ≥ v1.maxPatrolTime then ["Idle"] else []
      (v1, r1 ++ r2)

/-- The function `EnemyChaseState::onUpdate` (EnemyStates.cpp 258-352). -/
def chaseOnUpdate (v : EnemyStateVars) (p : EnemyPercept) (deltaTime : ℚ) :
    EnemyStateVars × List String :=
  if p.isDead then (v, ["Dead"])
  else
    let v1 := { v with chaseTimer := v.chaseTimer + deltaTime }
    if !p.hasTarget then (v1, ["Return"])
    else if p.distanceFromBirth > p.maxChaseRange then (v1, ["Return"])
    else if p.distanceToPlayer > p.viewRange then (v1, ["Return"])
    else if p.distanceToPlayer ≤ 80 ∧ p.canAttack then (v1, ["Attack"])
    else (v1, [])

/-- The function `EnemyAttackState::onUpdate` (EnemyStates.cpp 394-449). -/
def attackOnUpdate (v : EnemyStateVars) (p : EnemyPercept) (deltaTime : ℚ) :
    EnemyStateVars × List String :=
  if p.isDead then (v, ["Dead"])
  else
    let v1 := { v with attackTimer := v.attackTimer + deltaTime }
    let v2 := if !v1.attacked ∧ v1.attackTimer ≥ 3 / 10 then { v1 with attacked := true } else v1
    if v2.attackTimer ≥ v2.attackCooldown then
      if !p.hasTarget then (v2, ["Return"])
      else if p.distanceToPlayer ≤ p.viewRange then
        if p.canAttack then ({ v2 with attackTimer := 0, attacked := false }, [])
        else (v2, ["Chase"])
      else (v2, ["Return"])
    else (v2, [])

/-- The function `EnemyHitState::onUpdate` (EnemyStates.cpp 490-521). -/
def hitOnUpdate (v : EnemyStateVars) (p : EnemyPercept) (deltaTime : ℚ) :
    EnemyStateVars × List String :=
  if p.isDead then (v, ["Dead"])
  else
    let v1 := { v with hitTimer := v.hitTimer + deltaTime }
    if v1.hitTimer ≥ v1.hitDuration then
      if !p.hasTarget then (v1, ["Return"])
      else if p.distanceToPlayer ≤ 80 then
        if p.canAttack then (v1, ["Attack"]) else (v1, ["Chase"])
      else if p.distanceToPlayer ≤ p.viewRange then (v1, ["Chase"])
      else (v1, ["Return"])
    else (v1, [])

/-- The function `EnemyDeadState::onUpdate` (EnemyStates.cpp 578-582). -/
def deadOnUpdate (v : EnemyStateVars) (_p : EnemyPercept) (_deltaTime : ℚ) :
    EnemyStateVars × List String :=
  ({ v with isDeadProcessed := true }, [])

/-- The function `ReturnState::onUpdate` (EnemyStates.cpp 621-666). -/
def returnOnUpdate (v : EnemyStateVars) (p : EnemyPercept) (_dt : ℚ) :
    EnemyStateVars × List String :=
  if p.isDead then (v, ["Dead"])
  else
    let distanceToPlayer := if p.hasTarget then p.distanceToPlayer else FLT_MAX
    if distanceToPlayer ≤ p.viewRange then (v, ["Chase"])
    else if !p.canMove then (v, [])
    else if p.returnDistance > 10 then (v, [])
    else (v, ["Patrol"])

/-- The virtual call `onUpdate` on the state object `s`. -/
def enemyOnUpdate (s : EnemyStateId) (v : EnemyStateVars) (p : EnemyPercept) (dt : ℚ) :
    EnemyStateVars × List String :=
  match s with
  | EnemyStateId.Idle => idleOnUpdate v p dt
  | EnemyStateId.Patrol => patrolOnUpdate v p dt
  | EnemyStateId.Chase => chaseOnUpdate v p dt
  | EnemyStateId.Attack => attackOnUpdate v p dt
  | EnemyStateId.Hit => hitOnUpdate v p dt
  | EnemyStateId.Dead => deadOnUpdate v p dt
  | EnemyStateId.Return => returnOnUpdate v p dt

/-- The state machine of an enemy with the data members of its state objects. -/
structure EnemyFsm where
  sm : StateMachine
  vars : EnemyStateVars
deriving DecidableEq, Repr

/-- A call `changeState(name)` on the state machine of an enemy, with the `onEnter` of
the state entered run on the data members. -/
def EnemyFsm.changeState (e : EnemyFsm) (p : EnemyPercept) (name : String) : EnemyFsm :=
  let sm1 := e.sm.changeState name
  if sm1.currentState = e.sm.currentState then { e with sm := sm1 }
  else
    match sm1.currentState.bind EnemyStateId.ofId with
    | some s => { sm := sm1, vars := enemyOnEnter s e.vars p }
    | none => { e with sm := sm1 }

/-- The function `Enemy::initStateMachine` (Enemy.cpp 270-285): the seven states are
registered and `Idle` is entered. -/
def Enemy.initStateMachine (p : EnemyPercept) : EnemyFsm :=
  EnemyFsm.changeState
    { sm := (List.range 7).foldl (fun sm s => sm.registerState enemyStateName (some s))
        StateMachine.new,
      vars := EnemyStateVars.new } p "Idle"

/-- The call `_stateMachine->update(deltaTime)` of `Enemy::update` (Enemy.cpp 89-91):
`onUpdate` of the current state, and the changes of state it requests, in order. -/
def EnemyFsm.update (e : EnemyFsm) (p : EnemyPercept) (deltaTime : ℚ) : EnemyFsm :=
  match e.sm.currentState.bind EnemyStateId.ofId with
  | none => { e with sm := e.sm.update deltaTime }
  | some s =>
    let r := enemyOnUpdate s e.vars p deltaTime
    r.2.foldl (fun acc name => acc.changeState p name)
      { sm := e.sm.update deltaTime, vars := r.1 }

/-- The enemy after a sequence of frames. -/
def runEnemy (e : EnemyFsm) (frames : List (EnemyPercept × ℚ)) : EnemyFsm :=
  frames.foldl (fun acc f => acc.update f.1 f.2) e

/-- A percept of a dead enemy with its target 50 units away. -/
def deadPercept : EnemyPercept :=
  { isDead := true, hasTarget := true, distanceToPlayer := 50, viewRange := 200,
    canMove := false, canAttack := false, distanceFromBirth := 0, maxChaseRange := 1000,
    patrolDistance := 100, returnDistance := 0, randomIdleTime := 2, randomPatrolTime := 5 }

/-! ## Movement of characters and enemies (`Character::applyMovement`,
`Enemy::applyMovement`) -/

/-- What `Character::applyMovement` reads of an enemy of the list `_enemies`:
`isDead()` and the world box of its collider. -/
structure EnemyRef where
  dead : Bool
  worldAABB : AABB
deriving DecidableEq, Repr

/-- The data members of `Character` (Character.h 202-240) that `jump`, `applyGravity`
and `applyMovement` read or write, with the position of the node; `dead` is
`_lifeState == LifeState::Dead`; a null entry of `enemies` is a null pointer. -/
structure Character where
  position : Vec3
  velocity : Vec3
  onGround : Bool
  dead : Bool
  jumpSpeed : ℚ
  gravity : ℚ
  fsm : StateMachine
  collider : CharacterCollider
  terrainCollider : Option TerrainCollider
  enemies : Option (List (Option EnemyRef))
deriving DecidableEq, Repr

/-- The function `Character::isDead` (Character.cpp 190-192). -/
def Character.isDead (c : Character) : Bool := c.dead

/-- The function `Character::jump` (Character.cpp 99-106). -/
def Character.jump (c : Character) : Character :=
  if !c.onGround ∨ c.isDead then c
  else
    { c with velocity := ⟨c.velocity.x, c.jumpSpeed, c.velocity.z⟩, onGround := false,
             fsm := c.fsm.changeState "Jump" }

/-- The function `Character::applyGravity` (Character.cpp 218-225). -/
def Character.applyGravity (c : Character) (dt : ℚ) : Character :=
  if c.onGround ∧ c.terrainCollider.isSome then c
  else { c with velocity := ⟨c.velocity.x, c.velocity.y - c.gravity * dt, c.velocity.z⟩ }

/-- The loop over the enemies of `Character::applyMovement` (Character.cpp 243-260) on
the pair of `newPos` and `nextWorldAABB`. -/
def enemyLoop (collider : CharacterCollider) (enemies : List (Option EnemyRef))
    (newPos : Vec3) (nextWorldAABB : AABB) : Vec3 × AABB :=
  enemies.foldl (fun acc enemy =>
    match enemy with
    | none => acc
    | some e => if e.dead then acc else pushOutStep collider acc.1 acc.2 e.worldAABB)
    (newPos, nextWorldAABB)

/-- The value of `newPos` of `Character::applyMovement` when the ray is cast
(Character.cpp 228-261): `oldPos + _velocity * dt`, corrected by the enemy loop.
`worldBoxOf p` is the box `_collider.aabb` transformed by the node transform with the
position replaced by `p` (engine `AABB::transform`). -/
def Character.pushedPos (c : Character) (worldBoxOf : Vec3 → AABB) (dt : ℚ) : Vec3 :=
  let newPos := Vec3.add c.position (Vec3.smul dt c.velocity)
  match c.enemies with
  | none => newPos
  | some es =>
    if es.isEmpty then newPos
    else (enemyLoop c.collider es newPos (worldBoxOf newPos)).1

/-- The ground height found by the ray of `applyMovement` from 500 units above
`newPos` (Character.cpp 265-269, Enemy.cpp 119-123): `ray.origin.y - hitDist` when
`rayIntersects` returns true.  `hitDist0` is the value of the uninitialised local
`hitDist`. -/
def groundBelow (tc : TerrainCollider) (hitDist0 : ℚ) (newPos : Vec3) : Option ℚ :=
  let ray : CustomRay := ⟨Vec3.add newPos ⟨0, 500, 0⟩, ⟨0, -1, 0⟩⟩
  let r := rayIntersects tc ray hitDist0
  if r.1 then some (ray.origin.y - r.2) else none

/-- The second half of `Character::applyMovement` (Character.cpp 263-312), which
`Enemy::applyMovement` (Enemy.cpp 117-160) repeats statement by statement: the new
position, velocity and on-ground flag. -/
def groundStep (terrain : Option TerrainCollider) (hitDist0 : ℚ) (oldPos newPos velocity : Vec3)
    (onGround : Bool) (dt : ℚ) : Vec3 × Vec3 × Bool :=
  match terrain with
  | some tc =>
    match groundBelow tc hitDist0 newPos with
    | some groundY =>
      if groundY - oldPos.y < 40 then
        if !onGround ∧ velocity.y ≤ 0 then
          (⟨newPos.x, groundY, newPos.z⟩, ⟨velocity.x, 0, velocity.z⟩, true)
        else (⟨newPos.x, groundY, newPos.z⟩, velocity, onGround)
      else
        if oldPos.y + velocity.y * dt ≤ groundY then
          (⟨oldPos.x, groundY, oldPos.z⟩, ⟨velocity.x, 0, velocity.z⟩, true)
        else (⟨oldPos.x, oldPos.y + velocity.y * dt, oldPos.z⟩, velocity, onGround)
    | none => (newPos, velocity, false)
  | none =>
    if newPos.y ≤ 0 then (⟨newPos.x, 0, newPos.z⟩, ⟨velocity.x, 0, velocity.z⟩, true)
    else (newPos, velocity, onGround)

/-- The function `Character::applyMovement` (Character.cpp 227-313). -/
def Character.applyMovement (c : Character) (worldBoxOf : Vec3 → AABB) (hitDist0 : ℚ)
    (dt : ℚ) : Character :=
  let r := groundStep c.terrainCollider hitDist0 c.position (c.pushedPos worldBoxOf dt)
    c.velocity c.onGround dt
  { c with position := r.1, velocity := r.2.1, onGround := r.2.2 }

/-- What the callbacks of the player states (WukongStates.h) do to the character in a
frame: they call `setHorizontalVelocity` and `stopHorizontal` (`horizontal` is the
X and Z velocity they leave, `none` when they make no such call) and `changeState` of
the state machine (`requests`, in order); they write neither the position nor the
vertical velocity nor the on-ground flag. -/
structure FrameInput where
  dt : ℚ
  horizontal : Option (ℚ × ℚ)
  requests : List String
deriving DecidableEq, Repr

/-- The character as `applyMovement` finds it in `Character::update`
(Character.cpp 78-85): after `_fsm.update(dt)` and, for a living character,
`applyGravity(dt)`. -/
def Character.preMove (c : Character) (f : FrameInput) : Character :=
  let c1 : Character :=
    { c with fsm := f.requests.foldl StateMachine.changeState (c.fsm.update f.dt),
             velocity := match f.horizontal with
               | some hv => ⟨hv.1, c.velocity.y, hv.2⟩
               | none => c.velocity }
  if c1.isDead then c1 else c1.applyGravity f.dt

/-- The function `Character::update` (Character.cpp 78-89), the refresh of the world
box of the collider apart. -/
def Character.update (c : Character) (worldBoxOf : Vec3 → AABB) (hitDist0 : ℚ)
    (f : FrameInput) : Character :=
  if (c.preMove f).isDead then c.preMove f
  else (c.preMove f).applyMovement worldBoxOf hitDist0 f.dt

/-- The character after a sequence of frames. -/
def runFrames (c : Character) (worldBoxOf : Vec3 → AABB) (hitDist0 : ℚ)
    (frames : List FrameInput) : Character :=
  frames.foldl (fun acc f => acc.update worldBoxOf hitDist0 f) c

/-- The ground height reported to `applyMovement` in the frame `f`, if any. -/
def Character.groundReport (c : Character) (worldBoxOf : Vec3 → AABB) (hitDist0 : ℚ)
    (f : FrameInput) : Option ℚ :=
  match (c.preMove f).terrainCollider with
  | none => none
  | some tc => groundBelow tc hitDist0 ((c.preMove f).pushedPos worldBoxOf f.dt)

/-- The data members of `Enemy` (Enemy.h) that `Enemy::applyMovement` reads or writes,
with the position of the node. -/
structure EnemyMover where
  position : Vec3
  velocity : Vec3
  onGround : Bool
  terrainCollider : Option TerrainCollider
deriving DecidableEq, Repr

/-- The function `Enemy::applyMovement` (Enemy.cpp 113-161). -/
def EnemyMover.applyMovement (e : EnemyMover) (hitDist0 : ℚ) (dt : ℚ) : EnemyMover :=
  let r := groundStep e.terrainCollider hitDist0 e.position
    (Vec3.add e.position (Vec3.smul dt e.velocity)) e.velocity e.onGround dt
  { e with position := r.1, velocity := r.2.1, onGround := r.2.2 }

/-- A character standing on `unitCollider` (ground height 0) at `(1/4, 0, 1/4)`, with
the jump speed and gravity of `Character.h`. -/
def sampleCharacter : Character :=
  { position := ⟨1/4, 0, 1/4⟩, velocity := ⟨0, 0, 0⟩, onGround := true, dead := false,
    jumpSpeed := 520, gravity := 1400,
    fsm := { currentState := some 0, previousState := none, states := [("Idle", 0), ("Jump", 2)],
             trace := [FsmEvent.onEnter 0] },
    collider := ⟨defaultBox, defaultBox⟩, terrainCollider := some unitCollider, enemies := none }

/-! ## Theorems -/

/-- Whenever `intersectTriangle` accepts with parameter `t`, the parameters it computed
are barycentric coordinates of the point `origin + t * direction`. -/
theorem intersectTriangle_some {ray : CustomRay} {tri : Triangle} {t : ℚ}
    (h : intersectTriangle ray tri = some t) :
    EPSILON < t ∧ ∃ u v : ℚ, 0 ≤ u ∧ u ≤ 1 ∧ 0 ≤ v ∧ u + v ≤ 1 ∧
      Vec3.add ray.origin (Vec3.smul t ray.direction) =
        Vec3.add tri.v0 (Vec3.add (Vec3.smul u (Vec3.sub tri.v1 tri.v0))
          (Vec3.smul v (Vec3.sub tri.v2 tri.v0))) := by
  obtain ⟨⟨ox, oy, oz⟩, ⟨dx, dy, dz⟩⟩ := ray
  obtain ⟨⟨ax, ay, az⟩, ⟨bx, byy, bz⟩, ⟨cx, cy, cz⟩, mnx, mxx, mnz, mxz⟩ := tri
  unfold intersectTriangle at h
  simp only at h
  split_ifs at h with h1 h2 h3 h4
  simp only [Option.some.injEq] at h
  have ha : Vec3.dot (Vec3.sub ⟨bx, byy, bz⟩ ⟨ax, ay, az⟩)
      (Vec3.cross ⟨dx, dy, dz⟩ (Vec3.sub ⟨cx, cy, cz⟩ ⟨ax, ay, az⟩)) ≠ 0 := by
    intro h0
    apply h1
    rw [h0]
    unfold EPSILON
    constructor <;> norm_num
  push_neg at h2 h3
  refine ⟨h ▸ h4, _, _, h2.1, h2.2, h3.1, h3.2, ?_⟩
  subst h
  simp only [Vec3.dot, Vec3.cross, Vec3.sub, Vec3.add, Vec3.smul, Vec3.mk.injEq] at ha ⊢
  have hinv := mul_one_div_cancel ha
  refine ⟨?_, ?_, ?_⟩
  · linear_combination (-(ox - ax)) * hinv
  · linear_combination (-(oy - ay)) * hinv
  · linear_combination (-(oz - az)) * hinv

/-! ### The grid: cells written by `buildGrid` -/

theorem toInt_of_nonneg {q : ℚ} (h : 0 ≤ q) : toInt q = ⌊q⌋ := by
  simp [toInt, h]

theorem mem_intRange {lo hi x : Int} : x ∈ intRange lo hi ↔ lo ≤ x ∧ x ≤ hi := by
  simp only [intRange, List.mem_map, List.mem_range]
  constructor
  · rintro ⟨k, hk, rfl⟩
    have h1 : (k : Int) < ((hi + 1 - lo).toNat : Int) := by exact_mod_cast hk
    have h2 : (0 : Int) ≤ (k : Int) := Int.ofNat_nonneg k
    have h3 : ((hi + 1 - lo).toNat : Int) = max (hi + 1 - lo) 0 := Int.toNat_eq_max _
    rcases le_total (hi + 1 - lo) 0 with h4 | h4
    · rw [max_eq_right h4] at h3
      omega
    · rw [max_eq_left h4] at h3
      omega
  · intro h
    refine ⟨(x - lo).toNat, ?_, ?_⟩
    · have h3 : (0 : Int) ≤ x - lo := by omega
      have h4 : (0 : Int) ≤ hi + 1 - lo := by omega
      have h5 := Int.toNat_of_nonneg h3
      have h6 := Int.toNat_of_nonneg h4
      have : ((x - lo).toNat : Int) < ((hi + 1 - lo).toNat : Int) := by
        rw [h5, h6]; omega
      exact_mod_cast this
    · have h3 : (0 : Int) ≤ x - lo := by omega
      rw [Int.toNat_of_nonneg h3]
      omega

theorem pushAt_length (cells : List (List Nat)) (k i : Nat) :
    (pushAt cells k i).length = cells.length := by
  simp [pushAt]

theorem mem_pushAt_of_mem {cells : List (List Nat)} {k i m j : Nat}
    (h : j ∈ cells.getD m []) : j ∈ (pushAt cells k i).getD m [] := by
  simp only [pushAt, List.getD_eq_getElem?_getD] at *
  by_cases hkm : k = m
  · subst hkm
    by_cases hk : k < cells.length
    · rw [List.getElem?_set_self hk]
      simp only [Option.getD_some, List.mem_append]
      exact Or.inl h
    · rw [List.set_eq_of_length_le (not_lt.mp hk)]
      exact h
  · rw [List.getElem?_set_ne hkm]
    exact h

theorem mem_pushAt_self {cells : List (List Nat)} {k i : Nat} (hk : k < cells.length) :
    i ∈ (pushAt cells k i).getD k [] := by
  simp only [pushAt, List.getD_eq_getElem?_getD]
  rw [List.getElem?_set_self hk]
  simp

theorem foldl_pushAt_length (f : Int → Nat) (i : Nat) (l : List Int)
    (cells : List (List Nat)) :
    (l.foldl (fun cs c => pushAt cs (f c) i) cells).length = cells.length := by
  induction l generalizing cells with
  | nil => rfl
  | cons c cs ih => simp only [List.foldl_cons]; rw [ih, pushAt_length]

theorem foldl_pushAt_mono (f : Int → Nat) (i : Nat) (l : List Int)
    {cells : List (List Nat)} {m j : Nat} (h : j ∈ cells.getD m []) :
    j ∈ (l.foldl (fun cs c => pushAt cs (f c) i) cells).getD m [] := by
  induction l generalizing cells with
  | nil => exact h
  | cons c cs ih => simp only [List.foldl_cons]; exact ih (mem_pushAt_of_mem h)

theorem foldl_pushAt_mem (f : Int → Nat) (i : Nat) (l : List Int)
    {cells : List (List Nat)} {c : Int} (hc : c ∈ l) (hk : f c < cells.length) :
    i ∈ (l.foldl (fun cs c => pushAt cs (f c) i) cells).getD (f c) [] := by
  induction l generalizing cells with
  | nil => cases hc
  | cons d cs ih =>
    simp only [List.foldl_cons]
    rcases List.mem_cons.mp hc with rfl | hin
    · exact foldl_pushAt_mono f i cs (mem_pushAt_self hk)
    · exact ih hin (by rw [pushAt_length]; exact hk)

theorem insertRow_length (cols : Int) (i : Nat) (sc ec : Int) (cells : List (List Nat))
    (r : Int) : (insertRow cols i sc ec cells r).length = cells.length :=
  foldl_pushAt_length _ i _ cells

theorem insertRow_mono {cols : Int} {i : Nat} {sc ec : Int} {cells : List (List Nat)}
    {r : Int} {m j : Nat} (h : j ∈ cells.getD m []) :
    j ∈ (insertRow cols i sc ec cells r).getD m [] :=
  foldl_pushAt_mono _ i _ h

theorem insertRow_mem {cols : Int} {i : Nat} {sc ec : Int} {cells : List (List Nat)}
    {r c : Int} (hc : sc ≤ c ∧ c ≤ ec) (hk : (r * cols + c).toNat < cells.length) :
    i ∈ (insertRow cols i sc ec cells r).getD (r * cols + c).toNat [] :=
  foldl_pushAt_mem (fun c => (r * cols + c).toNat) i _ (mem_intRange.mpr hc) hk

theorem foldl_insertRow_length (cols : Int) (i : Nat) (sc ec : Int) (rs : List Int)
    (cells : List (List Nat)) :
    (rs.foldl (insertRow cols i sc ec) cells).length = cells.length := by
  induction rs generalizing cells with
  | nil => rfl
  | cons r rs ih => simp only [List.foldl_cons]; rw [ih, insertRow_length]

theorem foldl_insertRow_mono (cols : Int) (i : Nat) (sc ec : Int) (rs : List Int)
    {cells : List (List Nat)} {m j : Nat} (h : j ∈ cells.getD m []) :
    j ∈ (rs.foldl (insertRow cols i sc ec) cells).getD m [] := by
  induction rs generalizing cells with
  | nil => exact h
  | cons r rs ih => simp only [List.foldl_cons]; exact ih (insertRow_mono h)

theorem foldl_insertRow_mem (cols : Int) (i : Nat) (sc ec : Int) (rs : List Int)
    {cells : List (List Nat)} {r c : Int} (hr : r ∈ rs) (hc : sc ≤ c ∧ c ≤ ec)
    (hk : (r * cols + c).toNat < cells.length) :
    i ∈ (rs.foldl (insertRow cols i sc ec) cells).getD (r * cols + c).toNat [] := by
  induction rs generalizing cells with
  | nil => cases hr
  | cons d rs ih =>
    simp only [List.foldl_cons]
    rcases List.mem_cons.mp hr with rfl | hin
    · exact foldl_insertRow_mono cols i sc ec rs (insertRow_mem hc hk)
    · exact ih hin (by rw [insertRow_length]; exact hk)

/-- The cells written for triangle `i`: every cell of the rows `startRow..endRow` and
columns `startCol..endCol` that lies in the array receives `i`. -/
theorem insertTriangle_mem {g : Grid} {i : Nat} {tri : Triangle} {r c : Int}
    (hr : startRow g tri ≤ r ∧ r ≤ endRow g tri)
    (hc : startCol g tri ≤ c ∧ c ≤ endCol g tri)
    (hk : (r * g.cols + c).toNat < g.cells.length) :
    i ∈ (insertTriangle g i tri).cells.getD (r * g.cols + c).toNat [] :=
  foldl_insertRow_mem g.cols i _ _ _ (mem_intRange.mpr hr) hc hk

theorem insertTriangle_mono {g : Grid} {i : Nat} {tri : Triangle} {m j : Nat}
    (h : j ∈ g.cells.getD m []) : j ∈ (insertTriangle g i tri).cells.getD m [] :=
  foldl_insertRow_mono g.cols i _ _ _ h

theorem insertTriangle_length (g : Grid) (i : Nat) (tri : Triangle) :
    (insertTriangle g i tri).cells.length = g.cells.length :=
  foldl_insertRow_length g.cols i _ _ _ g.cells

/-- Two grids with the same parameters (everything but the cell contents). -/
theorem insertTriangle_params (g : Grid) (i : Nat) (tri : Triangle) :
    (insertTriangle g i tri).minX = g.minX ∧ (insertTriangle g i tri).minZ = g.minZ ∧
    (insertTriangle g i tri).cellSize = g.cellSize ∧
    (insertTriangle g i tri).cols = g.cols ∧ (insertTriangle g i tri).rows = g.rows :=
  ⟨rfl, rfl, rfl, rfl, rfl⟩

theorem insertAll_params (g : Grid) (i : Nat) (tris : List Triangle) :
    (insertAll g i tris).minX = g.minX ∧ (insertAll g i tris).minZ = g.minZ ∧
    (insertAll g i tris).cellSize = g.cellSize ∧
    (insertAll g i tris).cols = g.cols ∧ (insertAll g i tris).rows = g.rows := by
  induction tris generalizing g i with
  | nil => exact ⟨rfl, rfl, rfl, rfl, rfl⟩
  | cons t ts ih =>
    simp only [insertAll]
    obtain ⟨h1, h2, h3, h4, h5⟩ := ih (insertTriangle g i t) (i + 1)
    obtain ⟨k1, k2, k3, k4, k5⟩ := insertTriangle_params g i t
    exact ⟨h1.trans k1, h2.trans k2, h3.trans k3, h4.trans k4, h5.trans k5⟩

theorem insertAll_length (g : Grid) (i : Nat) (tris : List Triangle) :
    (insertAll g i tris).cells.length = g.cells.length := by
  induction tris generalizing g i with
  | nil => rfl
  | cons t ts ih => simp only [insertAll]; rw [ih, insertTriangle_length]

theorem insertAll_mono (g : Grid) (i : Nat) (tris : List Triangle) {m j : Nat}
    (h : j ∈ g.cells.getD m []) : j ∈ (insertAll g i tris).cells.getD m [] := by
  induction tris generalizing g i with
  | nil => exact h
  | cons t ts ih => simp only [insertAll]; exact ih _ _ (insertTriangle_mono h)

/-- After the third loop of `buildGrid`, triangle number `i + n` is in every cell of
its row and column range that lies in the array. -/
theorem insertAll_mem (g : Grid) (i : Nat) (tris : List Triangle) {n : Nat}
    {tri : Triangle} (hn : tris[n]? = some tri) {r c : Int}
    (hr : startRow g tri ≤ r ∧ r ≤ endRow g tri)
    (hc : startCol g tri ≤ c ∧ c ≤ endCol g tri)
    (hk : (r * g.cols + c).toNat < g.cells.length) :
    (i + n) ∈ (insertAll g i tris).cells.getD (r * g.cols + c).toNat [] := by
  induction tris generalizing g i n with
  | nil => simp at hn
  | cons t ts ih =>
    simp only [insertAll]
    cases n with
    | zero =>
      simp only [List.getElem?_cons_zero, Option.some.injEq] at hn
      subst hn
      exact insertAll_mono _ _ ts (insertTriangle_mem hr hc hk)
    | succ n =>
      simp only [List.getElem?_cons_succ] at hn
      have := ih (insertTriangle g i t) (i + 1) hn hr hc
        (by rw [insertTriangle_length]; exact hk)
      have e : i + (n + 1) = i + 1 + n := by omega
      rw [e]
      exact this

/-! ### The grid: bounds and cell size -/

theorem foldl_bounds_le (tris : List Triangle) (b : Bounds) :
    let res := tris.foldl (fun b tri =>
      ({ minX := min b.minX tri.minX, maxX := max b.maxX tri.maxX,
         minZ := min b.minZ tri.minZ, maxZ := max b.maxZ tri.maxZ } : Bounds)) b
    (res.minX ≤ b.minX ∧ b.maxX ≤ res.maxX ∧ res.minZ ≤ b.minZ ∧ b.maxZ ≤ res.maxZ) ∧
    ∀ tri ∈ tris, res.minX ≤ tri.minX ∧ tri.maxX ≤ res.maxX ∧
      res.minZ ≤ tri.minZ ∧ tri.maxZ ≤ res.maxZ := by
  induction tris generalizing b with
  | nil => simp
  | cons t ts ih =>
    simp only [List.foldl_cons, List.mem_cons, forall_eq_or_imp]
    obtain ⟨⟨h1, h2, h3, h4⟩, hall⟩ := ih
      { minX := min b.minX t.minX, maxX := max b.maxX t.maxX,
        minZ := min b.minZ t.minZ, maxZ := max b.maxZ t.maxZ }
    simp only at h1 h2 h3 h4
    refine ⟨⟨h1.trans (min_le_left _ _), (le_max_left _ _).trans h2,
      h3.trans (min_le_left _ _), (le_max_left _ _).trans h4⟩,
      ⟨h1.trans (min_le_right _ _), (le_max_right _ _).trans h2,
        h3.trans (min_le_right _ _), (le_max_right _ _).trans h4⟩, hall⟩

/-- The terrain bounds computed by `buildGrid` contain the extents of every
triangle. -/
theorem terrainBounds_le {tris : List Triangle} {tri : Triangle} (h : tri ∈ tris) :
    (terrainBounds tris).minX ≤ tri.minX ∧ tri.maxX ≤ (terrainBounds tris).maxX ∧
    (terrainBounds tris).minZ ≤ tri.minZ ∧ tri.maxZ ≤ (terrainBounds tris).maxZ :=
  (foldl_bounds_le tris _).2 tri h

theorem emptyGrid_cols (tris : List Triangle) : (emptyGrid tris).cols = 32 := rfl

theorem emptyGrid_rows (tris : List Triangle) : (emptyGrid tris).rows = 32 := rfl

theorem emptyGrid_length (tris : List Triangle) : (emptyGrid tris).cells.length = 1024 := by
  simp only [emptyGrid, List.length_replicate]
  rfl

theorem emptyGrid_minX (tris : List Triangle) :
    (emptyGrid tris).minX = (terrainBounds tris).minX := rfl

theorem emptyGrid_minZ (tris : List Triangle) :
    (emptyGrid tris).minZ = (terrainBounds tris).minZ := rfl

theorem emptyGrid_cellSize (tris : List Triangle) :
    (emptyGrid tris).cellSize =
      max (((terrainBounds tris).maxX - (terrainBounds tris).minX) / 32)
        (((terrainBounds tris).maxZ - (terrainBounds tris).minZ) / 32) + 1 / 10 := by
  simp only [emptyGrid, Int.cast_ofNat]

/-- The cell size exceeds a 32nd of both terrain extents by `0.1`. -/
theorem emptyGrid_cellSize_ge (tris : List Triangle) :
    ((terrainBounds tris).maxX - (terrainBounds tris).minX) / 32 + 1 / 10
        ≤ (emptyGrid tris).cellSize ∧
    ((terrainBounds tris).maxZ - (terrainBounds tris).minZ) / 32 + 1 / 10
        ≤ (emptyGrid tris).cellSize := by
  rw [emptyGrid_cellSize]
  constructor
  · linarith [le_max_left (((terrainBounds tris).maxX - (terrainBounds tris).minX) / 32)
      (((terrainBounds tris).maxZ - (terrainBounds tris).minZ) / 32)]
  · linarith [le_max_right (((terrainBounds tris).maxX - (terrainBounds tris).minX) / 32)
      (((terrainBounds tris).maxZ - (terrainBounds tris).minZ) / 32)]

/-- A triangle with `minX ≤ maxX` (or `minZ ≤ maxZ`) in the list makes the cell size
positive. -/
theorem emptyGrid_cellSize_pos {tris : List Triangle} {tri : Triangle} (h : tri ∈ tris)
    (hw : tri.minX ≤ tri.maxX ∨ tri.minZ ≤ tri.maxZ) : 1 / 10 ≤ (emptyGrid tris).cellSize := by
  obtain ⟨h1, h2, h3, h4⟩ := terrainBounds_le h
  obtain ⟨k1, k2⟩ := emptyGrid_cellSize_ge tris
  rcases hw with hw | hw
  · have : 0 ≤ ((terrainBounds tris).maxX - (terrainBounds tris).minX) / 32 := by
      apply div_nonneg _ (by norm_num)
      linarith
    linarith
  · have : 0 ≤ ((terrainBounds tris).maxZ - (terrainBounds tris).minZ) / 32 := by
      apply div_nonneg _ (by norm_num)
      linarith
    linarith

/-- Index arithmetic of one axis: for a coordinate `x` in the extent `[a, b]` of a
triangle, with `lo ≤ a` and `(x - lo) / cs < n`, the cell index of `x` lies between the
first and the last index written for the triangle, and in `0 .. n - 1`. -/
theorem cell_index_bounds {lo cs a x b : ℚ} {n : Int} (hcs : 0 < cs) (hlo : lo ≤ a)
    (hax : a ≤ x) (hxb : x ≤ b) (hn : (x - lo) / cs < n) :
    max 0 (toInt ((a - lo) / cs)) ≤ toInt ((x - lo) / cs) ∧
    toInt ((x - lo) / cs) ≤ min (n - 1) (toInt ((b - lo) / cs)) ∧
    0 ≤ toInt ((x - lo) / cs) ∧ toInt ((x - lo) / cs) < n := by
  have ha : 0 ≤ (a - lo) / cs := div_nonneg (by linarith) hcs.le
  have hx : 0 ≤ (x - lo) / cs := div_nonneg (by linarith) hcs.le
  have hb : 0 ≤ (b - lo) / cs := div_nonneg (by linarith) hcs.le
  rw [toInt_of_nonneg ha, toInt_of_nonneg hx, toInt_of_nonneg hb]
  have hax' : (a - lo) / cs ≤ (x - lo) / cs :=
    div_le_div_of_nonneg_right (by linarith) hcs.le
  have hxb' : (x - lo) / cs ≤ (b - lo) / cs :=
    div_le_div_of_nonneg_right (by linarith) hcs.le
  have h0 : 0 ≤ ⌊(x - lo) / cs⌋ := Int.floor_nonneg.mpr hx
  have hlt : ⌊(x - lo) / cs⌋ < n := Int.floor_lt.mpr hn
  refine ⟨max_le h0 (Int.floor_mono hax'), le_min (by omega) (Int.floor_mono hxb'), h0, hlt⟩

/-- The grid built from a triangle list: a point inside the XZ extents of triangle `n`
falls in a cell of the array, and that cell holds `n`. -/
theorem buildGrid_cell_mem {tris : List Triangle} {n : Nat} {tri : Triangle} (g0 : Grid)
    (hn : tris[n]? = some tri) {x z : ℚ}
    (hx : tri.minX ≤ x ∧ x ≤ tri.maxX) (hz : tri.minZ ≤ z ∧ z ≤ tri.maxZ) :
    let g := (buildGrid ⟨tris, g0⟩).grid
    let c := toInt ((x - g.minX) / g.cellSize)
    let r := toInt ((z - g.minZ) / g.cellSize)
    g.cols = 32 ∧ g.rows = 32 ∧ 0 ≤ c ∧ c < 32 ∧ 0 ≤ r ∧ r < 32 ∧
      n ∈ g.cells.getD (r * g.cols + c).toNat [] := by
  have hmem : tri ∈ tris := List.getElem?_mem hn
  have hne : tris.isEmpty = false := by
    cases tris with
    | nil => cases hmem
    | cons _ _ => rfl
  obtain ⟨b1, b2, b3, b4⟩ := terrainBounds_le hmem
  have hcs := emptyGrid_cellSize_pos hmem (Or.inl (hx.1.trans hx.2))
  have hcs0 : 0 < (emptyGrid tris).cellSize := by linarith
  obtain ⟨k1, k2⟩ := emptyGrid_cellSize_ge tris
  have hxn : (x - (emptyGrid tris).minX) / (emptyGrid tris).cellSize < ((32 : Int) : ℚ) := by
    rw [div_lt_iff₀ hcs0, emptyGrid_minX]
    push_cast
    linarith [hx.2]
  have hzn : (z - (emptyGrid tris).minZ) / (emptyGrid tris).cellSize < ((32 : Int) : ℚ) := by
    rw [div_lt_iff₀ hcs0, emptyGrid_minZ]
    push_cast
    linarith [hz.2]
  obtain ⟨c1, c2, c3, c4⟩ := cell_index_bounds hcs0
    (by rw [emptyGrid_minX]; exact b1) hx.1 hx.2 hxn
  obtain ⟨r1, r2, r3, r4⟩ := cell_index_bounds hcs0
    (by rw [emptyGrid_minZ]; exact b3) hz.1 hz.2 hzn
  obtain ⟨p1, p2, p3, p4, p5⟩ := insertAll_params (emptyGrid tris) 0 tris
  simp only [buildGrid, hne, Bool.false_eq_true, if_false]
  rw [p1, p2, p3, p4, p5]
  refine ⟨rfl, rfl, c3, c4, r3, r4, ?_⟩
  have := insertAll_mem (emptyGrid tris) 0 tris hn
    (r := toInt ((z - (emptyGrid tris).minZ) / (emptyGrid tris).cellSize))
    (c := toInt ((x - (emptyGrid tris).minX) / (emptyGrid tris).cellSize))
    ⟨r1, r2⟩ ⟨c1, c2⟩ (by rw [emptyGrid_length, emptyGrid_cols]; omega)
  simpa using this

/-! ### The scan of one cell by `rayIntersects` -/

theorem accepts_pos {tris : List Triangle} {ray : CustomRay} {idx : Nat} {t : ℚ}
    (h : accepts tris ray idx t) : 0 < t := by
  obtain ⟨tri, _, _, h3⟩ := h
  have := (intersectTriangle_some h3).1
  unfold EPSILON at this
  linarith

/-- One iteration of the scan, on an index that is accepted with parameter `t`. -/
theorem rayStep_accepts {tris : List Triangle} {ray : CustomRay} {idx : Nat} {t : ℚ}
    (h : accepts tris ray idx t) (acc : ℚ × Bool) :
    rayStep tris ray acc idx = if t < acc.1 then (t, true) else acc := by
  have hpos := accepts_pos h
  obtain ⟨tri, h1, h2, h3⟩ := h
  unfold rayStep
  rw [h1]
  simp only [h2, h3, Bool.false_eq_true, if_false, gt_iff_lt, hpos, and_true]

/-- One iteration of the scan, on an index that is not accepted. -/
theorem rayStep_rejects {tris : List Triangle} {ray : CustomRay} {idx : Nat}
    (h : ∀ t, ¬ accepts tris ray idx t) (acc : ℚ × Bool) :
    rayStep tris ray acc idx = acc := by
  unfold rayStep
  cases h1 : tris[idx]? with
  | none => rfl
  | some tri =>
    simp only
    cases h2 : skipByExtent ray tri with
    | true => simp
    | false =>
      cases h3 : intersectTriangle ray tri with
      | none => simp
      | some t => exact absurd ⟨tri, h1, h2, h3⟩ (h t)

/-- The invariant of the scan: `seen` are the indices already visited. -/
theorem rayScan_invariant (tris : List Triangle) (ray : CustomRay) (idxs : List Nat)
    (seen : Nat → Prop) (acc : ℚ × Bool)
    (h1 : ∀ idx, seen idx → ∀ t, accepts tris ray idx t → acc.1 ≤ t)
    (h2 : acc.2 = false → acc.1 = FLT_MAX)
    (h3 : acc.2 = true → acc.1 < FLT_MAX ∧ ∃ idx, seen idx ∧ accepts tris ray idx acc.1) :
    let res := idxs.foldl (rayStep tris ray) acc
    (∀ idx, (seen idx ∨ idx ∈ idxs) → ∀ t, accepts tris ray idx t → res.1 ≤ t) ∧
    (res.2 = false → res.1 = FLT_MAX) ∧
    (res.2 = true → res.1 < FLT_MAX ∧
      ∃ idx, (seen idx ∨ idx ∈ idxs) ∧ accepts tris ray idx res.1) := by
  induction idxs generalizing seen acc with
  | nil =>
    simp only [List.foldl_nil, List.not_mem_nil, or_false]
    exact ⟨h1, h2, h3⟩
  | cons i is ih =>
    simp only [List.foldl_cons, List.mem_cons]
    have hle : acc.1 ≤ FLT_MAX := by
      cases hb : acc.2 with
      | false => exact (h2 hb).le
      | true => exact (h3 hb).1.le
    have key := ih (fun idx => seen idx ∨ idx = i) (rayStep tris ray acc i) ?_ ?_ ?_
    · obtain ⟨k1, k2, k3⟩ := key
      refine ⟨fun idx hidx => k1 idx (by tauto), k2, fun hb => ?_⟩
      obtain ⟨k4, idx, hidx, hacc⟩ := k3 hb
      exact ⟨k4, idx, by tauto, hacc⟩
    · intro idx hidx t ht
      by_cases hacc : ∃ t', accepts tris ray i t'
      · obtain ⟨t', ht'⟩ := hacc
        rw [rayStep_accepts ht']
        rcases hidx with hs | rfl
        · have := h1 idx hs t ht
          split_ifs with hlt
          · exact (hlt.le.trans this)
          · exact this
        · have e : t = t' := by
            obtain ⟨tri, a1, _, a3⟩ := ht
            obtain ⟨tri', b1, _, b3⟩ := ht'
            rw [a1] at b1
            cases b1
            rw [a3] at b3
            exact Option.some.inj b3
          subst e
          split_ifs with hlt
          · exact le_refl _
          · exact not_lt.mp hlt
      · push_neg at hacc
        rw [rayStep_rejects hacc]
        rcases hidx with hs | rfl
        · exact h1 idx hs t ht
        · exact absurd ht (hacc t)
    · by_cases hacc : ∃ t', accepts tris ray i t'
      · obtain ⟨t', ht'⟩ := hacc
        rw [rayStep_accepts ht']
        split_ifs with hlt
        · intro hb
          cases hb
        · exact h2
      · push_neg at hacc
        rw [rayStep_rejects hacc]
        exact h2
    · by_cases hacc : ∃ t', accepts tris ray i t'
      · obtain ⟨t', ht'⟩ := hacc
        rw [rayStep_accepts ht']
        split_ifs with hlt
        · intro _
          exact ⟨lt_of_lt_of_le hlt hle, i, Or.inr rfl, ht'⟩
        · intro hb
          obtain ⟨k4, idx, hidx, hacc⟩ := h3 hb
          exact ⟨k4, idx, Or.inl hidx, hacc⟩
      · push_neg at hacc
        rw [rayStep_rejects hacc]
        intro hb
        obtain ⟨k4, idx, hidx, hacc⟩ := h3 hb
        exact ⟨k4, idx, Or.inl hidx, hacc⟩

/-- The scan of a cell from `(FLT_MAX, false)`. -/
theorem rayScan_spec (tris : List Triangle) (ray : CustomRay) (idxs : List Nat) :
    let res := idxs.foldl (rayStep tris ray) (FLT_MAX, false)
    (∀ idx ∈ idxs, ∀ t, accepts tris ray idx t → res.1 ≤ t) ∧
    (res.2 = false → res.1 = FLT_MAX) ∧
    (res.2 = true → res.1 < FLT_MAX ∧ ∃ idx ∈ idxs, accepts tris ray idx res.1) := by
  have := rayScan_invariant tris ray idxs (fun _ => False) (FLT_MAX, false)
    (fun _ h => h.elim) (fun _ => rfl) (fun h => by cases h)
  simpa using this

/-- The result of `rayIntersects` in terms of the scan of the cell of the ray. -/
theorem rayIntersects_eq (tc : TerrainCollider) (ray : CustomRay) (hitDist : ℚ) :
    rayIntersects tc ray hitDist =
      if tc.triangles.isEmpty then (false, hitDist)
      else if ((cellOfRay tc.grid ray).foldl (rayStep tc.triangles ray) (FLT_MAX, false)).2
        then (true,
          ((cellOfRay tc.grid ray).foldl (rayStep tc.triangles ray) (FLT_MAX, false)).1)
        else (false, hitDist) := by
  unfold rayIntersects cellOfRay
  simp only
  split_ifs <;> simp_all

theorem rayIntersects_of_empty {tc : TerrainCollider} (ray : CustomRay) (hitDist : ℚ)
    (h : tc.triangles.isEmpty = true) : rayIntersects tc ray hitDist = (false, hitDist) := by
  rw [rayIntersects_eq, if_pos h]

theorem rayIntersects_of_scan_false {tc : TerrainCollider} {ray : CustomRay} (hitDist : ℚ)
    (h : ((cellOfRay tc.grid ray).foldl (rayStep tc.triangles ray) (FLT_MAX, false)).2
      = false) : rayIntersects tc ray hitDist = (false, hitDist) := by
  rw [rayIntersects_eq]
  split_ifs with h1 h2
  · rfl
  · rw [h] at h2
    cases h2
  · rfl

theorem rayIntersects_of_scan_true {tc : TerrainCollider} {ray : CustomRay} (hitDist : ℚ)
    (he : tc.triangles.isEmpty = false)
    (h : ((cellOfRay tc.grid ray).foldl (rayStep tc.triangles ray) (FLT_MAX, false)).2
      = true) :
    rayIntersects tc ray hitDist =
      (true, ((cellOfRay tc.grid ray).foldl (rayStep tc.triangles ray) (FLT_MAX, false)).1) := by
  rw [rayIntersects_eq, he, h]
  simp

/-- The two outcomes of `rayIntersects`. -/
theorem rayIntersects_cases (tc : TerrainCollider) (ray : CustomRay) (hitDist : ℚ) :
    (rayIntersects tc ray hitDist = (false, hitDist) ∧
      ∀ idx ∈ cellOfRay tc.grid ray, ∀ t, accepts tc.triangles ray idx t → FLT_MAX ≤ t) ∨
    ((rayIntersects tc ray hitDist).1 = true ∧
      (rayIntersects tc ray hitDist).2 < FLT_MAX ∧
      (∃ idx ∈ cellOfRay tc.grid ray,
        accepts tc.triangles ray idx (rayIntersects tc ray hitDist).2) ∧
      ∀ idx ∈ cellOfRay tc.grid ray, ∀ t, accepts tc.triangles ray idx t →
        (rayIntersects tc ray hitDist).2 ≤ t) := by
  obtain ⟨k1, k2, k3⟩ := rayScan_spec tc.triangles ray (cellOfRay tc.grid ray)
  cases he : tc.triangles.isEmpty with
  | true =>
    left
    refine ⟨rayIntersects_of_empty ray hitDist he, ?_⟩
    intro idx _ t hacc
    obtain ⟨tri, a1, _, _⟩ := hacc
    rw [List.isEmpty_iff] at he
    rw [he] at a1
    simp at a1
  | false =>
    cases hs : ((cellOfRay tc.grid ray).foldl (rayStep tc.triangles ray) (FLT_MAX, false)).2 with
    | false =>
      left
      refine ⟨rayIntersects_of_scan_false hitDist hs, ?_⟩
      intro idx hidx t hacc
      rw [← k2 hs]
      exact k1 idx hidx t hacc
    | true =>
      right
      rw [rayIntersects_of_scan_true hitDist he hs]
      exact ⟨rfl, (k3 hs).1, (k3 hs).2, k1⟩

theorem rayIntersects_not_hit {tc : TerrainCollider} {ray : CustomRay} {hitDist : ℚ}
    (h : (rayIntersects tc ray hitDist).1 = false) :
    rayIntersects tc ray hitDist = (false, hitDist) := by
  rcases rayIntersects_cases tc ray hitDist with ⟨h1, _⟩ | ⟨h1, _⟩
  · exact h1
  · rw [h] at h1
    cases h1

/-- A hit comes from a triangle of the cell of the ray that passes the 2D filter and
is accepted by `intersectTriangle`. -/
theorem rayIntersects_hit_elim {tc : TerrainCollider} {ray : CustomRay} {hitDist : ℚ}
    (h : (rayIntersects tc ray hitDist).1 = true) :
    ∃ idx ∈ cellOfRay tc.grid ray,
      accepts tc.triangles ray idx (rayIntersects tc ray hitDist).2 := by
  rcases rayIntersects_cases tc ray hitDist with ⟨h1, _⟩ | ⟨_, _, h3, _⟩
  · rw [h1] at h
    cases h
  · exact h3

theorem mem_cellOfRay {g : Grid} {ray : CustomRay} {idx : Nat}
    (h : idx ∈ cellOfRay g ray) :
    0 ≤ toInt ((ray.origin.x - g.minX) / g.cellSize) ∧
    toInt ((ray.origin.x - g.minX) / g.cellSize) < g.cols ∧
    0 ≤ toInt ((ray.origin.z - g.minZ) / g.cellSize) ∧
    toInt ((ray.origin.z - g.minZ) / g.cellSize) < g.rows := by
  unfold cellOfRay at h
  simp only at h
  split_ifs at h with hc
  · cases h
  · push_neg at hc
    omega

theorem skipByExtent_false {ray : CustomRay} {tri : Triangle}
    (h : skipByExtent ray tri = false) :
    (tri.minX ≤ ray.origin.x ∧ ray.origin.x ≤ tri.maxX) ∧
    (tri.minZ ≤ ray.origin.z ∧ ray.origin.z ≤ tri.maxZ) := by
  unfold skipByExtent at h
  simp only [decide_eq_false_iff_not] at h
  push_neg at h
  exact ⟨⟨h.1, h.2.1⟩, h.2.2.1, h.2.2.2⟩

theorem buildGrid_triangles (tris : List Triangle) (g0 : Grid) :
    (buildGrid ⟨tris, g0⟩).triangles = tris := by
  unfold buildGrid
  split_ifs <;> rfl

theorem buildGrid_params {tris : List Triangle} (g0 : Grid) (hne : tris ≠ []) :
    (buildGrid ⟨tris, g0⟩).grid.minX = (terrainBounds tris).minX ∧
    (buildGrid ⟨tris, g0⟩).grid.minZ = (terrainBounds tris).minZ ∧
    (buildGrid ⟨tris, g0⟩).grid.cellSize = (emptyGrid tris).cellSize ∧
    (buildGrid ⟨tris, g0⟩).grid.cols = 32 ∧ (buildGrid ⟨tris, g0⟩).grid.rows = 32 ∧
    (buildGrid ⟨tris, g0⟩).grid.cells.length = 1024 := by
  have he : tris.isEmpty = false := by
    cases tris with
    | nil => exact absurd rfl hne
    | cons _ _ => rfl
  simp only [buildGrid, he, Bool.false_eq_true, if_false]
  obtain ⟨p1, p2, p3, p4, p5⟩ := insertAll_params (emptyGrid tris) 0 tris
  exact ⟨p1, p2, p3, p4, p5, (insertAll_length _ _ _).trans (emptyGrid_length tris)⟩

/-- In a built grid, a triangle that passes the 2D filter of a ray is stored in the
cell of the ray. -/
theorem buildGrid_mem_cellOfRay {tris : List Triangle} {n : Nat} {tri : Triangle}
    (g0 : Grid) (hn : tris[n]? = some tri) {ray : CustomRay}
    (hs : skipByExtent ray tri = false) :
    n ∈ cellOfRay (buildGrid ⟨tris, g0⟩).grid ray := by
  obtain ⟨hx, hz⟩ := skipByExtent_false hs
  obtain ⟨h1, h2, h3, h4, h5, h6, h7⟩ := buildGrid_cell_mem g0 hn hx hz
  unfold cellOfRay
  simp only
  rw [if_neg]
  · exact h7
  · rw [h1, h2]
    omega

/-- When every triangle of the cell accepted by the scan has parameter `t0`, one of
them exists and `t0 < FLT_MAX`, `rayIntersects` reports a hit at `t0`. -/
theorem rayIntersects_of_common_param {tc : TerrainCollider} {ray : CustomRay} {t0 : ℚ}
    (hitDist : ℚ) (hlt : t0 < FLT_MAX)
    (hex : ∃ idx ∈ cellOfRay tc.grid ray, accepts tc.triangles ray idx t0)
    (hall : ∀ idx ∈ cellOfRay tc.grid ray, ∀ t, accepts tc.triangles ray idx t → t = t0) :
    rayIntersects tc ray hitDist = (true, t0) := by
  rcases rayIntersects_cases tc ray hitDist with ⟨_, h2⟩ | ⟨h1, _, ⟨idx, hidx, hacc⟩, _⟩
  · obtain ⟨idx, hidx, hacc⟩ := hex
    exact absurd (h2 idx hidx t0 hacc) (not_le.mpr hlt)
  · have := hall idx hidx _ hacc
    exact Prod.ext h1 this

/-- Completeness of `intersectTriangle` (exact arithmetic): a ray that is not parallel
to the triangle (`|a| ≥ 1e-5`) and meets it at parameter `t > 1e-5`, at the point with
barycentric coordinates `u`, `v`, is accepted with that `t`. -/
theorem intersectTriangle_complete {ray : CustomRay} {tri : Triangle} {u v t : ℚ}
    (ha : EPSILON ≤ |Vec3.dot (Vec3.sub tri.v1 tri.v0)
      (Vec3.cross ray.direction (Vec3.sub tri.v2 tri.v0))|)
    (hu : 0 ≤ u) (hv : 0 ≤ v) (huv : u + v ≤ 1) (ht : EPSILON < t)
    (hp : Vec3.add ray.origin (Vec3.smul t ray.direction) =
      Vec3.add tri.v0 (Vec3.add (Vec3.smul u (Vec3.sub tri.v1 tri.v0))
        (Vec3.smul v (Vec3.sub tri.v2 tri.v0)))) :
    intersectTriangle ray tri = some t := by
  obtain ⟨⟨ox, oy, oz⟩, ⟨dx, dy, dz⟩⟩ := ray
  obtain ⟨⟨ax, ay, az⟩, ⟨bx, byy, bz⟩, ⟨cx, cy, cz⟩, mnx, mxx, mnz, mxz⟩ := tri
  simp only [Vec3.add, Vec3.smul, Vec3.sub, Vec3.mk.injEq] at hp
  obtain ⟨hpx, hpy, hpz⟩ := hp
  have hox : ox = ax + (u * (bx - ax) + v * (cx - ax)) - t * dx := by linarith
  have hoy : oy = ay + (u * (byy - ay) + v * (cy - ay)) - t * dy := by linarith
  have hoz : oz = az + (u * (bz - az) + v * (cz - az)) - t * dz := by linarith
  subst hox hoy hoz
  have hpos : (0 : ℚ) < EPSILON := by unfold EPSILON; norm_num
  have hne : Vec3.dot (Vec3.sub ⟨bx, byy, bz⟩ ⟨ax, ay, az⟩)
      (Vec3.cross ⟨dx, dy, dz⟩ (Vec3.sub ⟨cx, cy, cz⟩ ⟨ax, ay, az⟩)) ≠ 0 := by
    intro h0
    rw [h0, abs_zero] at ha
    linarith
  have h1 : ¬ (Vec3.dot (Vec3.sub ⟨bx, byy, bz⟩ ⟨ax, ay, az⟩)
      (Vec3.cross ⟨dx, dy, dz⟩ (Vec3.sub ⟨cx, cy, cz⟩ ⟨ax, ay, az⟩)) > -EPSILON ∧
      Vec3.dot (Vec3.sub ⟨bx, byy, bz⟩ ⟨ax, ay, az⟩)
      (Vec3.cross ⟨dx, dy, dz⟩ (Vec3.sub ⟨cx, cy, cz⟩ ⟨ax, ay, az⟩)) < EPSILON) := by
    rintro ⟨k1, k2⟩
    have := abs_lt.mpr ⟨k1, k2⟩
    linarith
  have hinv := mul_one_div_cancel hne
  simp only [Vec3.dot, Vec3.cross, Vec3.sub] at hne h1 hinv
  have eu : 1 / ((bx - ax) * (dy * (cz - az) - dz * (cy - ay)) +
        (byy - ay) * (dz * (cx - ax) - dx * (cz - az)) +
        (bz - az) * (dx * (cy - ay) - dy * (cx - ax))) *
      ((ax + (u * (bx - ax) + v * (cx - ax)) - t * dx - ax) * (dy * (cz - az) - dz * (cy - ay)) +
        (ay + (u * (byy - ay) + v * (cy - ay)) - t * dy - ay) * (dz * (cx - ax) - dx * (cz - az)) +
        (az + (u * (bz - az) + v * (cz - az)) - t * dz - az) * (dx * (cy - ay) - dy * (cx - ax)))
      = u := by
    linear_combination u * hinv
  have ev : 1 / ((bx - ax) * (dy * (cz - az) - dz * (cy - ay)) +
        (byy - ay) * (dz * (cx - ax) - dx * (cz - az)) +
        (bz - az) * (dx * (cy - ay) - dy * (cx - ax))) *
      (dx * ((ay + (u * (byy - ay) + v * (cy - ay)) - t * dy - ay) * (bz - az) -
          (az + (u * (bz - az) + v * (cz - az)) - t * dz - az) * (byy - ay)) +
        dy * ((az + (u * (bz - az) + v * (cz - az)) - t * dz - az) * (bx - ax) -
          (ax + (u * (bx - ax) + v * (cx - ax)) - t * dx - ax) * (bz - az)) +
        dz * ((ax + (u * (bx - ax) + v * (cx - ax)) - t * dx - ax) * (byy - ay) -
          (ay + (u * (byy - ay) + v * (cy - ay)) - t * dy - ay) * (bx - ax)))
      = v := by
    linear_combination v * hinv
  have et : 1 / ((bx - ax) * (dy * (cz - az) - dz * (cy - ay)) +
        (byy - ay) * (dz * (cx - ax) - dx * (cz - az)) +
        (bz - az) * (dx * (cy - ay) - dy * (cx - ax))) *
      ((cx - ax) * ((ay + (u * (byy - ay) + v * (cy - ay)) - t * dy - ay) * (bz - az) -
          (az + (u * (bz - az) + v * (cz - az)) - t * dz - az) * (byy - ay)) +
        (cy - ay) * ((az + (u * (bz - az) + v * (cz - az)) - t * dz - az) * (bx - ax) -
          (ax + (u * (bx - ax) + v * (cx - ax)) - t * dx - ax) * (bz - az)) +
        (cz - az) * ((ax + (u * (bx - ax) + v * (cx - ax)) - t * dx - ax) * (byy - ay) -
          (ay + (u * (byy - ay) + v * (cy - ay)) - t * dy - ay) * (bx - ax)))
      = t := by
    linear_combination t * hinv
  unfold intersectTriangle
  simp only [Vec3.dot, Vec3.cross, Vec3.sub]
  rw [if_neg h1, eu, ev, et]
  have h2 : ¬ (u < 0 ∨ u > 1) := by
    push_neg
    exact ⟨hu, by linarith⟩
  have h3 : ¬ (v < 0 ∨ u + v > 1) := by
    push_neg
    exact ⟨hv, huv⟩
  rw [if_neg h2, if_neg h3, if_pos ht]

/-! ### Claims about `rayIntersects` -/

/-- C1 (as amended): if `rayIntersects` returns true, then `hitDist` is strictly
positive, below `FLT_MAX`, and is the minimum intersection parameter over the triangles
of the grid cell of the ray's XZ origin that pass the 2D filter and are accepted by
`intersectTriangle`; if it returns false, `hitDist` is left unmodified and every such
triangle has parameter at least `FLT_MAX`. -/
theorem C1_rayIntersects_closest_below_sentinel (tc : TerrainCollider) (ray : CustomRay)
    (hitDist : ℚ) :
    ((rayIntersects tc ray hitDist).1 = true →
      0 < (rayIntersects tc ray hitDist).2 ∧ (rayIntersects tc ray hitDist).2 < FLT_MAX ∧
      (∃ idx ∈ cellOfRay tc.grid ray,
        accepts tc.triangles ray idx (rayIntersects tc ray hitDist).2) ∧
      ∀ idx ∈ cellOfRay tc.grid ray, ∀ t, accepts tc.triangles ray idx t →
        (rayIntersects tc ray hitDist).2 ≤ t) ∧
    ((rayIntersects tc ray hitDist).1 = false →
      (rayIntersects tc ray hitDist).2 = hitDist ∧
      ∀ idx ∈ cellOfRay tc.grid ray, ∀ t, accepts tc.triangles ray idx t → FLT_MAX ≤ t) := by
  rcases rayIntersects_cases tc ray hitDist with ⟨h1, h2⟩ | ⟨h1, h2, h3, h4⟩
  · constructor
    · intro h
      rw [h1] at h
      cases h
    · intro _
      rw [h1]
      exact ⟨rfl, h2⟩
  · constructor
    · intro _
      obtain ⟨idx, hidx, hacc⟩ := h3
      exact ⟨accepts_pos hacc, h2, ⟨idx, hidx, hacc⟩, h4⟩
    · intro h
      rw [h] at h1
      cases h1

/-- C1, as amended, at `unitCollider`: the downward ray from `(1/4, 5, 1/4)` hits with
a positive distance below `FLT_MAX`. -/
theorem C1_rayIntersects_closest_below_sentinel_witness :
    (rayIntersects unitCollider (downRay (1/4) 5 (1/4)) 77).1 = true ∧
    0 < (rayIntersects unitCollider (downRay (1/4) 5 (1/4)) 77).2 ∧
    (rayIntersects unitCollider (downRay (1/4) 5 (1/4)) 77).2 < FLT_MAX :=
  have h : (rayIntersects unitCollider (downRay (1/4) 5 (1/4)) 77).1 = true := by decide!
  ⟨h, ((C1_rayIntersects_closest_below_sentinel unitCollider (downRay (1/4) 5 (1/4)) 77).1 h).1,
    ((C1_rayIntersects_closest_below_sentinel unitCollider (downRay (1/4) 5 (1/4)) 77).1 h).2.1⟩

/-- C1 as stated fails: at `unitCollider` the downward ray from `(1/4, FLT_MAX, 1/4)`
makes `rayIntersects` return false, although triangle 0, stored in the cell of the ray,
passes the 2D filter and is accepted by `intersectTriangle` (with `t = FLT_MAX`). -/
theorem C1_counterexample :
    (rayIntersects unitCollider (downRay (1/4) FLT_MAX (1/4)) 77).1 = false ∧
    ∃ idx ∈ cellOfRay unitCollider.grid (downRay (1/4) FLT_MAX (1/4)),
      ∃ t, accepts unitCollider.triangles (downRay (1/4) FLT_MAX (1/4)) idx t :=
  ⟨by decide!, 0, by decide!, FLT_MAX, unitTriangle, by decide!, by decide!, by decide!⟩

/-- C4: for a collider built by `buildGrid` and a ray (any direction) whose origin X
is below `grid.minX` or at/above `grid.minX + cols * cellSize`, or whose origin Z is
below `grid.minZ` or at/above `grid.minZ + rows * cellSize`, `rayIntersects` returns
false and leaves `hitDist` alone; so it does for every collider without triangles. -/
theorem C4_rayIntersects_outside_grid (tris : List Triangle) (g0 : Grid) (ray : CustomRay)
    (hitDist : ℚ) :
    (ray.origin.x < (buildGrid ⟨tris, g0⟩).grid.minX ∨
      (buildGrid ⟨tris, g0⟩).grid.minX +
        (buildGrid ⟨tris, g0⟩).grid.cols * (buildGrid ⟨tris, g0⟩).grid.cellSize ≤ ray.origin.x ∨
      ray.origin.z < (buildGrid ⟨tris, g0⟩).grid.minZ ∨
      (buildGrid ⟨tris, g0⟩).grid.minZ +
        (buildGrid ⟨tris, g0⟩).grid.rows * (buildGrid ⟨tris, g0⟩).grid.cellSize ≤ ray.origin.z →
      rayIntersects (buildGrid ⟨tris, g0⟩) ray hitDist = (false, hitDist)) ∧
    (∀ tc : TerrainCollider, tc.triangles = [] →
      rayIntersects tc ray hitDist = (false, hitDist)) := by
  constructor
  swap
  · intro tc h
    exact rayIntersects_of_empty ray hitDist (by rw [h]; rfl)
  intro hout
  rcases rayIntersects_cases (buildGrid ⟨tris, g0⟩) ray hitDist with
    ⟨h1, _⟩ | ⟨_, _, ⟨idx, hidx, tri, a1, a2, _⟩, _⟩
  · exact h1
  exfalso
  rw [buildGrid_triangles] at a1
  have hmem : tri ∈ tris := List.getElem?_mem a1
  have hne : tris ≠ [] := List.ne_nil_of_mem hmem
  obtain ⟨p1, p2, p3, p4, p5, _⟩ := buildGrid_params g0 hne
  obtain ⟨⟨x1, x2⟩, z1, z2⟩ := skipByExtent_false a2
  obtain ⟨b1, b2, b3, b4⟩ := terrainBounds_le hmem
  have hcs := emptyGrid_cellSize_pos hmem (Or.inl (x1.trans x2))
  have hcs0 : 0 < (emptyGrid tris).cellSize := by linarith
  obtain ⟨c1, c2, c3, c4⟩ := mem_cellOfRay hidx
  simp only [p1, p2, p3, p4, p5] at hout c1 c2 c3 c4
  push_cast at hout
  rcases hout with h | h | h | h
  · linarith
  · have hq : (32 : ℚ) ≤ (ray.origin.x - (terrainBounds tris).minX) / (emptyGrid tris).cellSize := by
      rw [le_div_iff₀ hcs0]
      linarith
    rw [toInt_of_nonneg (by linarith)] at c2
    have : (32 : Int) ≤ ⌊(ray.origin.x - (terrainBounds tris).minX) / (emptyGrid tris).cellSize⌋ :=
      Int.le_floor.mpr (by exact_mod_cast hq)
    omega
  · linarith
  · have hq : (32 : ℚ) ≤ (ray.origin.z - (terrainBounds tris).minZ) / (emptyGrid tris).cellSize := by
      rw [le_div_iff₀ hcs0]
      linarith
    rw [toInt_of_nonneg (by linarith)] at c4
    have : (32 : Int) ≤ ⌊(ray.origin.z - (terrainBounds tris).minZ) / (emptyGrid tris).cellSize⌋ :=
      Int.le_floor.mpr (by exact_mod_cast hq)
    omega

/-- C4 at `unitCollider` (grid origin `(0, 0)`): the downward ray from `(-1/100, 5, 1/4)`,
whose cell column truncates to 0, is no hit. -/
theorem C4_rayIntersects_outside_grid_witness :
    (downRay (-1/100) 5 (1/4)).origin.x < (buildGrid ⟨[unitTriangle], blankGrid⟩).grid.minX ∧
    toInt (((downRay (-1/100) 5 (1/4)).origin.x -
      (buildGrid ⟨[unitTriangle], blankGrid⟩).grid.minX) /
      (buildGrid ⟨[unitTriangle], blankGrid⟩).grid.cellSize) = 0 ∧
    rayIntersects (buildGrid ⟨[unitTriangle], blankGrid⟩) (downRay (-1/100) 5 (1/4)) 77
      = (false, 77) :=
  ⟨by decide!, by decide!,
    (C4_rayIntersects_outside_grid [unitTriangle] blankGrid (downRay (-1/100) 5 (1/4)) 77).1
      (Or.inl (by decide!))⟩

theorem convex_ge {m a b c u v : ℚ} (ha : m ≤ a) (hb : m ≤ b) (hc : m ≤ c)
    (hu : 0 ≤ u) (hv : 0 ≤ v) (huv : u + v ≤ 1) : m ≤ a + u * (b - a) + v * (c - a) := by
  nlinarith [mul_nonneg hu (sub_nonneg.2 hb), mul_nonneg hv (sub_nonneg.2 hc),
    mul_nonneg (sub_nonneg.2 huv) (sub_nonneg.2 ha)]

theorem convex_le {m a b c u v : ℚ} (ha : a ≤ m) (hb : b ≤ m) (hc : c ≤ m)
    (hu : 0 ≤ u) (hv : 0 ≤ v) (huv : u + v ≤ 1) : a + u * (b - a) + v * (c - a) ≤ m := by
  nlinarith [mul_nonneg hu (sub_nonneg.2 hb), mul_nonneg hv (sub_nonneg.2 hc),
    mul_nonneg (sub_nonneg.2 huv) (sub_nonneg.2 ha)]

/-- C2 (as amended): for a collider built from a single triangle whose doubled XZ
projected area is at least `1e-5` in absolute value, and a point `P` of the triangle
(barycentric coordinates `u`, `v`), the ray with direction `(0,-1,0)` from height `h`
above `P`, with `1e-5 < h < FLT_MAX`, is a hit with `hitDist = h`. -/
theorem C2_single_triangle_vertical_hit (a b c mn mx : Vec3) (g0 : Grid)
    (u v h hitDist : ℚ)
    (harea : 1 / 100000 ≤ |(b.x - a.x) * (c.z - a.z) - (b.z - a.z) * (c.x - a.x)|)
    (hu : 0 ≤ u) (hv : 0 ≤ v) (huv : u + v ≤ 1) (hh : 1 / 100000 < h) (hmax : h < FLT_MAX) :
    rayIntersects (init [mkTriangle a b c] mn mx g0)
      (downRay (a.x + u * (b.x - a.x) + v * (c.x - a.x))
        (a.y + u * (b.y - a.y) + v * (c.y - a.y) + h)
        (a.z + u * (b.z - a.z) + v * (c.z - a.z))) hitDist = (true, h) := by
  have hinit : init [mkTriangle a b c] mn mx g0 = buildGrid ⟨[mkTriangle a b c], g0⟩ := rfl
  rw [hinit]
  have hskip : skipByExtent (downRay (a.x + u * (b.x - a.x) + v * (c.x - a.x))
      (a.y + u * (b.y - a.y) + v * (c.y - a.y) + h)
      (a.z + u * (b.z - a.z) + v * (c.z - a.z))) (mkTriangle a b c) = false := by
    unfold skipByExtent
    simp only [decide_eq_false_iff_not, downRay, mkTriangle]
    push_neg
    refine ⟨convex_ge (min_le_left _ _) ((min_le_right _ _).trans (min_le_left _ _))
        ((min_le_right _ _).trans (min_le_right _ _)) hu hv huv,
      convex_le (le_max_left _ _) ((le_max_left _ _).trans (le_max_right _ _))
        ((le_max_right _ _).trans (le_max_right _ _)) hu hv huv,
      convex_ge (min_le_left _ _) ((min_le_right _ _).trans (min_le_left _ _))
        ((min_le_right _ _).trans (min_le_right _ _)) hu hv huv,
      convex_le (le_max_left _ _) ((le_max_left _ _).trans (le_max_right _ _))
        ((le_max_right _ _).trans (le_max_right _ _)) hu hv huv⟩
  have hint : intersectTriangle (downRay (a.x + u * (b.x - a.x) + v * (c.x - a.x))
      (a.y + u * (b.y - a.y) + v * (c.y - a.y) + h)
      (a.z + u * (b.z - a.z) + v * (c.z - a.z))) (mkTriangle a b c) = some h := by
    apply intersectTriangle_complete (u := u) (v := v) _ hu hv huv hh
    · simp only [downRay, mkTriangle, Vec3.add, Vec3.smul, Vec3.sub, Vec3.mk.injEq]
      refine ⟨by ring, by ring, by ring⟩
    · have e : Vec3.dot (Vec3.sub (mkTriangle a b c).v1 (mkTriangle a b c).v0)
          (Vec3.cross (downRay (a.x + u * (b.x - a.x) + v * (c.x - a.x))
            (a.y + u * (b.y - a.y) + v * (c.y - a.y) + h)
            (a.z + u * (b.z - a.z) + v * (c.z - a.z))).direction
            (Vec3.sub (mkTriangle a b c).v2 (mkTriangle a b c).v0)) =
          -((b.x - a.x) * (c.z - a.z) - (b.z - a.z) * (c.x - a.x)) := by
        simp only [downRay, mkTriangle, Vec3.dot, Vec3.cross, Vec3.sub]
        ring
      rw [e, abs_neg]
      exact harea
  have hacc : accepts (buildGrid ⟨[mkTriangle a b c], g0⟩).triangles
      (downRay (a.x + u * (b.x - a.x) + v * (c.x - a.x))
        (a.y + u * (b.y - a.y) + v * (c.y - a.y) + h)
        (a.z + u * (b.z - a.z) + v * (c.z - a.z))) 0 h := by
    rw [buildGrid_triangles]
    exact ⟨mkTriangle a b c, rfl, hskip, hint⟩
  refine rayIntersects_of_common_param hitDist hmax
    ⟨0, buildGrid_mem_cellOfRay g0 rfl hskip, hacc⟩ ?_
  intro idx _ t ht
  obtain ⟨tri, a1, _, a3⟩ := ht
  rw [buildGrid_triangles] at a1
  cases idx with
  | zero =>
    simp only [List.getElem?_cons_zero, Option.some.injEq] at a1
    subst a1
    rw [hint] at a3
    exact (Option.some.inj a3).symm
  | succ k => simp at a1

/-- C2, as amended, at the centroid of `(0,0,0), (1,0,0), (0,0,1)` from height 5. -/
theorem C2_single_triangle_vertical_hit_witness :
    (1 / 100000 : ℚ) ≤ |(1 - 0) * (1 - 0) - (0 - 0) * (0 - 0)| ∧
    (1 / 100000 : ℚ) < 5 ∧ (5 : ℚ) < FLT_MAX ∧
    rayIntersects (init [mkTriangle ⟨0, 0, 0⟩ ⟨1, 0, 0⟩ ⟨0, 0, 1⟩] ⟨0, 0, 0⟩ ⟨1, 0, 1⟩ blankGrid)
      (downRay (0 + 1/3 * (1 - 0) + 1/3 * (0 - 0)) (0 + 1/3 * (0 - 0) + 1/3 * (0 - 0) + 5)
        (0 + 1/3 * (0 - 0) + 1/3 * (1 - 0))) 77 = (true, 5) :=
  ⟨by decide!, by decide!, by decide!,
    C2_single_triangle_vertical_hit ⟨0, 0, 0⟩ ⟨1, 0, 0⟩ ⟨0, 0, 1⟩ ⟨0, 0, 0⟩ ⟨1, 0, 1⟩ blankGrid
      (1/3) (1/3) 5 77 (by decide!) (by decide!) (by decide!) (by decide!) (by decide!)
      (by decide!)⟩

/-- C2 as stated fails: above the centroid of `(0,0,0), (1,0,0), (0,0,1)` (doubled
projected area 1) at height `h = FLT_MAX > 1e-5`, `rayIntersects` reports no hit. -/
theorem C2_counterexample :
    (1 / 100000 : ℚ) ≤ |(1 - 0) * (1 - 0) - (0 - 0) * (0 - 0)| ∧
    (1 / 100000 : ℚ) < FLT_MAX ∧
    rayIntersects (init [mkTriangle ⟨0, 0, 0⟩ ⟨1, 0, 0⟩ ⟨0, 0, 1⟩] ⟨0, 0, 0⟩ ⟨1, 0, 1⟩ blankGrid)
      (downRay (0 + 1/3 * (1 - 0) + 1/3 * (0 - 0))
        (0 + 1/3 * (0 - 0) + 1/3 * (0 - 0) + FLT_MAX)
        (0 + 1/3 * (0 - 0) + 1/3 * (1 - 0))) 77 = (false, 77) :=
  ⟨by decide!, by decide!, by decide!⟩

/-- Every parameter accepted on a downward ray by a triangle of the fallback floor is
the height of the origin above the floor. -/
theorem fallback_param_eq {mn mx : Vec3} {tri : Triangle} (hmem : tri ∈ extractTriangles mn mx)
    {x y0 z t : ℚ} (h : intersectTriangle (downRay x y0 z) tri = some t) :
    t = y0 - mn.y := by
  obtain ⟨_, u, v, _, _, _, _, he⟩ := intersectTriangle_some h
  have hy := congrArg Vec3.y he
  simp only [extractTriangles, List.mem_cons, List.mem_singleton, List.not_mem_nil,
    or_false] at hmem
  rcases hmem with rfl | rfl
  · simp only [floorTri1, downRay, Vec3.add, Vec3.smul, Vec3.sub] at hy
    linarith
  · simp only [floorTri2, downRay, Vec3.add, Vec3.smul, Vec3.sub] at hy
    linarith

/-- C7 (as amended): when the mesh resource is missing or yields zero triangles, the
collider built from a bounding box with `(max.x-min.x)*(max.z-min.z) >= 1e-5` is a flat
floor at height `min.y`: for every `(x, z)` of the XZ rectangle (on the shared diagonal
too) and every origin height `y0` with `1e-5 < y0 - min.y < FLT_MAX`, the downward ray
from `(x, y0, z)` is a hit with `hitDist = y0 - min.y`. -/
theorem C7_fallback_floor (mn mx : Vec3) (g0 : Grid) (x y0 z hitDist : ℚ)
    (harea : 1 / 100000 ≤ (mx.x - mn.x) * (mx.z - mn.z))
    (hx : mn.x ≤ x ∧ x ≤ mx.x) (hz : mn.z ≤ z ∧ z ≤ mx.z)
    (hh : 1 / 100000 < y0 - mn.y) (hmax : y0 - mn.y < FLT_MAX) :
    rayIntersects (init [] mn mx g0) (downRay x y0 z) hitDist = (true, y0 - mn.y) := by
  have hinit : init [] mn mx g0 = buildGrid ⟨extractTriangles mn mx, g0⟩ := rfl
  rw [hinit]
  have hW0 : 0 ≤ mx.x - mn.x := by linarith [hx.1, hx.2]
  have hD0 : 0 ≤ mx.z - mn.z := by linarith [hz.1, hz.2]
  have hW : 0 < mx.x - mn.x := by
    rcases hW0.lt_or_eq with h | h
    · exact h
    · rw [← h] at harea
      norm_num at harea
  have hD : 0 < mx.z - mn.z := by
    rcases hD0.lt_or_eq with h | h
    · exact h
    · rw [← h] at harea
      norm_num at harea
  have hall : ∀ idx ∈ cellOfRay (buildGrid ⟨extractTriangles mn mx, g0⟩).grid (downRay x y0 z),
      ∀ t, accepts (buildGrid ⟨extractTriangles mn mx, g0⟩).triangles (downRay x y0 z) idx t →
        t = y0 - mn.y := by
    intro idx _ t ht
    obtain ⟨tri, a1, _, a3⟩ := ht
    rw [buildGrid_triangles] at a1
    exact fallback_param_eq (List.getElem?_mem a1) a3
  refine rayIntersects_of_common_param hitDist hmax ?_ hall
  have hskip : ∀ tri ∈ extractTriangles mn mx, skipByExtent (downRay x y0 z) tri = false := by
    intro tri hmem
    simp only [extractTriangles, List.mem_cons, List.mem_singleton, List.not_mem_nil,
      or_false] at hmem
    rcases hmem with rfl | rfl
    · unfold skipByExtent
      simp only [decide_eq_false_iff_not, downRay, floorTri1]
      push_neg
      exact ⟨hx.1, hx.2, hz.1, hz.2⟩
    · unfold skipByExtent
      simp only [decide_eq_false_iff_not, downRay, floorTri2]
      push_neg
      exact ⟨hx.1, hx.2, hz.1, hz.2⟩
  have hWne : mx.x - mn.x ≠ 0 := hW.ne'
  have hDne : mx.z - mn.z ≠ 0 := hD.ne'
  rcases le_total ((z - mn.z) * (mx.x - mn.x)) ((x - mn.x) * (mx.z - mn.z)) with hside | hside
  · -- first triangle
    have h0 : (extractTriangles mn mx)[0]? = some (floorTri1 mn mx) := rfl
    refine ⟨0, buildGrid_mem_cellOfRay g0 h0 (hskip _ (List.getElem?_mem h0)), ?_⟩
    rw [buildGrid_triangles]
    refine ⟨_, h0, hskip _ (List.getElem?_mem h0), ?_⟩
    apply intersectTriangle_complete
      (u := (x - mn.x) / (mx.x - mn.x) - (z - mn.z) / (mx.z - mn.z))
      (v := (z - mn.z) / (mx.z - mn.z))
    · have e : Vec3.dot (Vec3.sub (floorTri1 mn mx).v1 (floorTri1 mn mx).v0)
          (Vec3.cross (downRay x y0 z).direction
            (Vec3.sub (floorTri1 mn mx).v2 (floorTri1 mn mx).v0)) =
          -((mx.x - mn.x) * (mx.z - mn.z)) := by
        simp only [floorTri1, downRay, Vec3.dot, Vec3.cross, Vec3.sub]
        ring
      rw [e, abs_neg, abs_of_nonneg (mul_nonneg hW0 hD0)]
      exact harea
    · rw [sub_nonneg, div_le_div_iff₀ hD hW]
      exact hside
    · exact div_nonneg (by linarith [hz.1]) hD0
    · rw [sub_add_cancel, div_le_one hW]
      linarith [hx.2]
    · exact hh
    · simp only [floorTri1, downRay, Vec3.add, Vec3.smul, Vec3.sub, Vec3.mk.injEq]
      refine ⟨?_, by ring, ?_⟩
      · field_simp
        ring
      · field_simp
  · -- second triangle
    have h1 : (extractTriangles mn mx)[1]? = some (floorTri2 mn mx) := rfl
    refine ⟨1, buildGrid_mem_cellOfRay g0 h1 (hskip _ (List.getElem?_mem h1)), ?_⟩
    rw [buildGrid_triangles]
    refine ⟨_, h1, hskip _ (List.getElem?_mem h1), ?_⟩
    apply intersectTriangle_complete
      (u := (x - mn.x) / (mx.x - mn.x))
      (v := (z - mn.z) / (mx.z - mn.z) - (x - mn.x) / (mx.x - mn.x))
    · have e : Vec3.dot (Vec3.sub (floorTri2 mn mx).v1 (floorTri2 mn mx).v0)
          (Vec3.cross (downRay x y0 z).direction
            (Vec3.sub (floorTri2 mn mx).v2 (floorTri2 mn mx).v0)) =
          -((mx.x - mn.x) * (mx.z - mn.z)) := by
        simp only [floorTri2, downRay, Vec3.dot, Vec3.cross, Vec3.sub]
        ring
      rw [e, abs_neg, abs_of_nonneg (mul_nonneg hW0 hD0)]
      exact harea
    · exact div_nonneg (by linarith [hx.1]) hW0
    · rw [sub_nonneg, div_le_div_iff₀ hW hD]
      exact hside
    · rw [add_sub_cancel, div_le_one hD]
      linarith [hz.2]
    · exact hh
    · simp only [floorTri2, downRay, Vec3.add, Vec3.smul, Vec3.sub, Vec3.mk.injEq]
      refine ⟨?_, by ring, ?_⟩
      · field_simp
      · field_simp
        ring

/-- C7, as amended, on the box `(0,0,0)..(2,3,2)`: the downward ray from `(1, 5, 1)`, a
point of the shared diagonal, hits the floor at distance 5. -/
theorem C7_fallback_floor_witness :
    (1 / 100000 : ℚ) ≤ (2 - 0) * (2 - 0) ∧ (1 / 100000 : ℚ) < 5 - 0 ∧ (5 : ℚ) - 0 < FLT_MAX ∧
    rayIntersects (init [] ⟨0, 0, 0⟩ ⟨2, 3, 2⟩ blankGrid) (downRay 1 5 1) 77 = (true, 5 - 0) :=
  ⟨by decide!, by decide!, by decide!,
    C7_fallback_floor ⟨0, 0, 0⟩ ⟨2, 3, 2⟩ blankGrid 1 5 1 77 (by decide!)
      ⟨by decide!, by decide!⟩ ⟨by decide!, by decide!⟩ (by decide!) (by decide!)⟩

/-- C7 as stated fails: on the box `(0,0,0)..(2,3,2)` the downward ray from
`(1, FLT_MAX, 1)`, with `y0 - min.y = FLT_MAX > 1e-5`, is reported as no hit. -/
theorem C7_counterexample :
    (1 / 100000 : ℚ) ≤ (2 - 0) * (2 - 0) ∧ (1 / 100000 : ℚ) < FLT_MAX - 0 ∧
    rayIntersects (init [] ⟨0, 0, 0⟩ ⟨2, 3, 2⟩ blankGrid) (downRay 1 FLT_MAX 1) 77
      = (false, 77) :=
  ⟨by decide!, by decide!, by decide!⟩

/-! ### Claims about `buildGrid` -/

/-- The cell index of a coordinate of the half-open interval of cell `c`. -/
theorem toInt_cell {lo cs x : ℚ} {c : Int} (hcs : 0 < cs) (hlo : lo ≤ x)
    (h1 : lo + c * cs ≤ x) (h2 : x < lo + (c + 1) * cs) : toInt ((x - lo) / cs) = c := by
  rw [toInt_of_nonneg (div_nonneg (by linarith) hcs.le), Int.floor_eq_iff]
  constructor
  · rw [le_div_iff₀ hcs]
    linarith
  · rw [div_lt_iff₀ hcs]
    linarith

/-- C5 (as amended): after `buildGrid`, for every triangle index `n` and every grid cell
`(r, c)` whose half-open rectangle
`[minX + c*cellSize, minX + (c+1)*cellSize) x [minZ + r*cellSize, minZ + (r+1)*cellSize)`
shares a point with the XZ bounding rectangle of the triangle, the index list of the
cell contains `n`. -/
theorem C5_grid_completeness_half_open (tris : List Triangle) (g0 : Grid) (n : Nat)
    (tri : Triangle) (r c : Int) (hn : tris[n]? = some tri)
    (hov : overlapsHalfOpen (buildGrid ⟨tris, g0⟩).grid r c tri) :
    n ∈ (buildGrid ⟨tris, g0⟩).grid.cells.getD
      (r * (buildGrid ⟨tris, g0⟩).grid.cols + c).toNat [] := by
  obtain ⟨x, z, ⟨x1, x2, z1, z2⟩, cx1, cx2, cz1, cz2⟩ := hov
  have hmem : tri ∈ tris := List.getElem?_mem hn
  obtain ⟨p1, p2, p3, p4, p5, _⟩ := buildGrid_params g0 (List.ne_nil_of_mem hmem)
  obtain ⟨b1, b2, b3, b4⟩ := terrainBounds_le hmem
  have hcs := emptyGrid_cellSize_pos hmem (Or.inl (x1.trans x2))
  have hcs0 : 0 < (buildGrid ⟨tris, g0⟩).grid.cellSize := by rw [p3]; linarith
  have := (buildGrid_cell_mem g0 hn ⟨x1, x2⟩ ⟨z1, z2⟩).2.2.2.2.2.2
  simp only at this
  rw [toInt_cell hcs0 (by rw [p1]; linarith) cx1 cx2,
    toInt_cell hcs0 (by rw [p2]; linarith) cz1 cz2] at this
  exact this

/-- C5, as amended, at `stripCollider`: the triangle with extents `[1, 2] x [0, 1]` is
in the cell of row 0 and column 1. -/
theorem C5_grid_completeness_half_open_witness :
    1 ∈ (buildGrid ⟨[stripTriangle, edgeTriangle], blankGrid⟩).grid.cells.getD
      ((0 : Int) * (buildGrid ⟨[stripTriangle, edgeTriangle], blankGrid⟩).grid.cols + 1).toNat [] :=
  C5_grid_completeness_half_open [stripTriangle, edgeTriangle] blankGrid 1 edgeTriangle 0 1 rfl
    ⟨1, 0, ⟨by decide!, by decide!, by decide!, by decide!⟩,
      by decide!, by decide!, by decide!, by decide!⟩

/-- C5 as stated fails: in `stripCollider` (cell size 1) the closed rectangle
`[0, 1] x [0, 1]` of cell `(0, 0)` touches the XZ bounding rectangle `[1, 2] x [0, 1]` of
triangle 1 at `x = 1`, and the index list of that cell does not contain 1. -/
theorem C5_counterexample :
    stripCollider.triangles[1]? = some edgeTriangle ∧
    overlapsClosed stripCollider.grid 0 0 edgeTriangle ∧
    1 ∉ stripCollider.grid.cells.getD ((0 : Int) * stripCollider.grid.cols + 0).toNat [] :=
  ⟨by decide!, ⟨1, 0, ⟨by decide!, by decide!, by decide!, by decide!⟩,
      by decide!, by decide!, by decide!, by decide!⟩, by decide!⟩

/-- A vertical ray accepted by `intersectTriangle` has its XZ origin in the footprint
of the triangle. -/
theorem intersectTriangle_vertical_footprint {ray : CustomRay} {tri : Triangle} {t : ℚ}
    (hx : ray.direction.x = 0) (hz : ray.direction.z = 0)
    (h : intersectTriangle ray tri = some t) :
    inFootprint tri ray.origin.x ray.origin.z := by
  obtain ⟨_, u, v, hu0, _, hv0, huv, he⟩ := intersectTriangle_some h
  refine ⟨u, v, hu0, hv0, huv, ?_, ?_⟩
  · have := congrArg Vec3.x he
    simp only [Vec3.add, Vec3.smul, Vec3.sub, hx] at this
    linarith
  · have := congrArg Vec3.z he
    simp only [Vec3.add, Vec3.smul, Vec3.sub, hz] at this
    linarith

/-- C3: whenever `intersectTriangle` returns true with parameter `t`, then `t > 1e-5`
and `origin + t * direction = v0 + u (v1 - v0) + v (v2 - v0)` for some `u`, `v` with
`0 ≤ u ≤ 1`, `0 ≤ v`, `u + v ≤ 1`; and a vertical ray whose XZ origin lies outside the
footprint of the triangle is reported as no-hit, also inside the 2D bounding
rectangle. -/
theorem C3_intersectTriangle_in_triangle (ray : CustomRay) (tri : Triangle) :
    (∀ t : ℚ, intersectTriangle ray tri = some t →
      1 / 100000 < t ∧ ∃ u v : ℚ, 0 ≤ u ∧ u ≤ 1 ∧ 0 ≤ v ∧ u + v ≤ 1 ∧
        Vec3.add ray.origin (Vec3.smul t ray.direction) =
          Vec3.add tri.v0 (Vec3.add (Vec3.smul u (Vec3.sub tri.v1 tri.v0))
            (Vec3.smul v (Vec3.sub tri.v2 tri.v0)))) ∧
    (ray.direction.x = 0 → ray.direction.z = 0 →
      ¬ inFootprint tri ray.origin.x ray.origin.z →
      intersectTriangle ray tri = none) := by
  refine ⟨fun t h => intersectTriangle_some h, fun hx hz hout => ?_⟩
  cases hres : intersectTriangle ray tri with
  | none => rfl
  | some t => exact absurd (intersectTriangle_vertical_footprint hx hz hres) hout

/-- C3 at the triangle `(0,0,0), (1,0,0), (0,0,1)`: the downward ray from `(1/4, 5, 1/4)`
is accepted with `t = 5`, and the downward ray from `(3/4, 5, 3/4)`, inside the
bounding rectangle and outside the footprint, is rejected. -/
theorem C3_intersectTriangle_in_triangle_witness :
    (1 / 100000 < (5 : ℚ) ∧ ∃ u v : ℚ, 0 ≤ u ∧ u ≤ 1 ∧ 0 ≤ v ∧ u + v ≤ 1 ∧
        Vec3.add (⟨1/4, 5, 1/4⟩ : Vec3) (Vec3.smul 5 ⟨0, -1, 0⟩) =
          Vec3.add (mkTriangle ⟨0,0,0⟩ ⟨1,0,0⟩ ⟨0,0,1⟩).v0
            (Vec3.add (Vec3.smul u (Vec3.sub (mkTriangle ⟨0,0,0⟩ ⟨1,0,0⟩ ⟨0,0,1⟩).v1
                (mkTriangle ⟨0,0,0⟩ ⟨1,0,0⟩ ⟨0,0,1⟩).v0))
              (Vec3.smul v (Vec3.sub (mkTriangle ⟨0,0,0⟩ ⟨1,0,0⟩ ⟨0,0,1⟩).v2
                (mkTriangle ⟨0,0,0⟩ ⟨1,0,0⟩ ⟨0,0,1⟩).v0)))) ∧
    (skipByExtent ⟨⟨3/4, 5, 3/4⟩, ⟨0, -1, 0⟩⟩ (mkTriangle ⟨0,0,0⟩ ⟨1,0,0⟩ ⟨0,0,1⟩) = false ∧
      intersectTriangle ⟨⟨3/4, 5, 3/4⟩, ⟨0, -1, 0⟩⟩ (mkTriangle ⟨0,0,0⟩ ⟨1,0,0⟩ ⟨0,0,1⟩)
        = none) :=
  ⟨(C3_intersectTriangle_in_triangle ⟨⟨1/4, 5, 1/4⟩, ⟨0, -1, 0⟩⟩
      (mkTriangle ⟨0,0,0⟩ ⟨1,0,0⟩ ⟨0,0,1⟩)).1 5 (by decide!),
   by decide!,
   (C3_intersectTriangle_in_triangle ⟨⟨3/4, 5, 3/4⟩, ⟨0, -1, 0⟩⟩
      (mkTriangle ⟨0,0,0⟩ ⟨1,0,0⟩ ⟨0,0,1⟩)).2 rfl rfl (by
        rintro ⟨u, v, _, _, huv, hx, hz⟩
        simp only [mkTriangle] at hx hz
        linarith)⟩


theorem hasTrueExtents_le {tri : Triangle} (h : hasTrueExtents tri) :
    tri.minX ≤ tri.maxX ∧ tri.minZ ≤ tri.maxZ := by
  unfold hasTrueExtents at h
  rw [h]
  simp only [mkTriangle]
  exact ⟨(min_le_left _ _).trans (le_max_left _ _), (min_le_left _ _).trans (le_max_left _ _)⟩

/-- The floor of a quotient brackets the coordinate between the edges of its cell. -/
theorem floor_cell_bounds {lo cs x : ℚ} (hcs : 0 < cs) :
    lo + (⌊(x - lo) / cs⌋ : ℚ) * cs ≤ x ∧ x < lo + ((⌊(x - lo) / cs⌋ : ℚ) + 1) * cs := by
  have h1 := Int.floor_le ((x - lo) / cs)
  have h2 := Int.lt_floor_add_one ((x - lo) / cs)
  rw [le_div_iff₀ hcs] at h1
  rw [div_lt_iff₀ hcs] at h2
  constructor <;> linarith

/-- C6: for every non-empty triangle list whose per-triangle XZ extents are the true
min/max of the corners, `buildGrid` yields `cellSize > 0` with
`minX + cols*cellSize > maxX` and `minZ + rows*cellSize > maxZ`; every triangle index is
inserted into at least one cell (start column/row never exceeds end column/row), namely
the cell of its start row and column, which overlaps the XZ bounds of the triangle; and
every cell position written lies inside the `cols*rows` cell array. -/
theorem C6_buildGrid_covers (tris : List Triangle) (g0 : Grid) (hne : tris ≠ [])
    (hext : ∀ tri ∈ tris, hasTrueExtents tri) :
    0 < (buildGrid ⟨tris, g0⟩).grid.cellSize ∧
    (terrainBounds tris).maxX < (buildGrid ⟨tris, g0⟩).grid.minX +
      (buildGrid ⟨tris, g0⟩).grid.cols * (buildGrid ⟨tris, g0⟩).grid.cellSize ∧
    (terrainBounds tris).maxZ < (buildGrid ⟨tris, g0⟩).grid.minZ +
      (buildGrid ⟨tris, g0⟩).grid.rows * (buildGrid ⟨tris, g0⟩).grid.cellSize ∧
    ((buildGrid ⟨tris, g0⟩).grid.cells.length : Int) =
      (buildGrid ⟨tris, g0⟩).grid.cols * (buildGrid ⟨tris, g0⟩).grid.rows ∧
    ∀ (n : Nat) (tri : Triangle), tris[n]? = some tri →
      startCol (buildGrid ⟨tris, g0⟩).grid tri ≤ endCol (buildGrid ⟨tris, g0⟩).grid tri ∧
      startRow (buildGrid ⟨tris, g0⟩).grid tri ≤ endRow (buildGrid ⟨tris, g0⟩).grid tri ∧
      n ∈ (buildGrid ⟨tris, g0⟩).grid.cells.getD
        (startRow (buildGrid ⟨tris, g0⟩).grid tri * (buildGrid ⟨tris, g0⟩).grid.cols +
          startCol (buildGrid ⟨tris, g0⟩).grid tri).toNat [] ∧
      overlapsHalfOpen (buildGrid ⟨tris, g0⟩).grid (startRow (buildGrid ⟨tris, g0⟩).grid tri)
        (startCol (buildGrid ⟨tris, g0⟩).grid tri) tri ∧
      overlapsClosed (buildGrid ⟨tris, g0⟩).grid (startRow (buildGrid ⟨tris, g0⟩).grid tri)
        (startCol (buildGrid ⟨tris, g0⟩).grid tri) tri ∧
      ∀ r c : Int,
        startRow (buildGrid ⟨tris, g0⟩).grid tri ≤ r → r ≤ endRow (buildGrid ⟨tris, g0⟩).grid tri →
        startCol (buildGrid ⟨tris, g0⟩).grid tri ≤ c → c ≤ endCol (buildGrid ⟨tris, g0⟩).grid tri →
        0 ≤ r * (buildGrid ⟨tris, g0⟩).grid.cols + c ∧
        r * (buildGrid ⟨tris, g0⟩).grid.cols + c <
          (buildGrid ⟨tris, g0⟩).grid.cols * (buildGrid ⟨tris, g0⟩).grid.rows := by
  obtain ⟨p1, p2, p3, p4, p5, p6⟩ := buildGrid_params g0 hne
  obtain ⟨t0, ht0⟩ := List.exists_mem_of_ne_nil tris hne
  obtain ⟨k1, k2⟩ := emptyGrid_cellSize_ge tris
  have hcs := emptyGrid_cellSize_pos ht0 (Or.inl (hasTrueExtents_le (hext t0 ht0)).1)
  have hcs0 : 0 < (emptyGrid tris).cellSize := by linarith
  have hcell : ∀ (n : Nat) (tri : Triangle), tris[n]? = some tri → ∀ x z : ℚ,
      tri.minX ≤ x ∧ x ≤ tri.maxX → tri.minZ ≤ z ∧ z ≤ tri.maxZ →
      n ∈ (buildGrid ⟨tris, g0⟩).grid.cells.getD
        (toInt ((z - (buildGrid ⟨tris, g0⟩).grid.minZ) / (buildGrid ⟨tris, g0⟩).grid.cellSize) *
            (buildGrid ⟨tris, g0⟩).grid.cols +
          toInt ((x - (buildGrid ⟨tris, g0⟩).grid.minX) /
            (buildGrid ⟨tris, g0⟩).grid.cellSize)).toNat [] :=
    fun n tri hn x z hx hz => (buildGrid_cell_mem g0 hn hx hz).2.2.2.2.2.2
  generalize (buildGrid ⟨tris, g0⟩).grid = g at *
  refine ⟨by rw [p3]; exact hcs0, ?_, ?_, ?_, ?_⟩
  · rw [p1, p3, p4]
    push_cast
    linarith
  · rw [p2, p3, p5]
    push_cast
    linarith
  · rw [p4, p5, p6]
    rfl
  intro n tri hn
  have hmem : tri ∈ tris := List.getElem?_mem hn
  obtain ⟨e1, e2⟩ := hasTrueExtents_le (hext tri hmem)
  obtain ⟨b1, b2, b3, b4⟩ := terrainBounds_le hmem
  have hxn : (tri.minX - g.minX) / g.cellSize < ((32 : Int) : ℚ) := by
    rw [p1, p3, div_lt_iff₀ hcs0]
    push_cast
    linarith
  have hzn : (tri.minZ - g.minZ) / g.cellSize < ((32 : Int) : ℚ) := by
    rw [p2, p3, div_lt_iff₀ hcs0]
    push_cast
    linarith
  have hcsg : 0 < g.cellSize := by rw [p3]; exact hcs0
  obtain ⟨c1, c2, c3, c4⟩ := cell_index_bounds hcsg (by rw [p1]; exact b1) (le_refl _) e1 hxn
  obtain ⟨r1, r2, r3, r4⟩ := cell_index_bounds hcsg (by rw [p2]; exact b3) (le_refl _) e2 hzn
  have hsc : startCol g tri = toInt ((tri.minX - g.minX) / g.cellSize) := max_eq_right c3
  have hsr : startRow g tri = toInt ((tri.minZ - g.minZ) / g.cellSize) := max_eq_right r3
  have hec : toInt ((tri.minX - g.minX) / g.cellSize) ≤ endCol g tri := by
    unfold endCol
    rw [p4]
    exact c2
  have her : toInt ((tri.minZ - g.minZ) / g.cellSize) ≤ endRow g tri := by
    unfold endRow
    rw [p5]
    exact r2
  have hxq : 0 ≤ (tri.minX - g.minX) / g.cellSize :=
    div_nonneg (by rw [p1]; linarith) hcsg.le
  have hzq : 0 ≤ (tri.minZ - g.minZ) / g.cellSize :=
    div_nonneg (by rw [p2]; linarith) hcsg.le
  have hov : overlapsHalfOpen g (startRow g tri) (startCol g tri) tri := by
    refine ⟨tri.minX, tri.minZ, ⟨le_refl _, e1, le_refl _, e2⟩, ?_⟩
    rw [hsc, hsr, toInt_of_nonneg hxq, toInt_of_nonneg hzq]
    exact ⟨(floor_cell_bounds hcsg).1, (floor_cell_bounds hcsg).2,
      (floor_cell_bounds hcsg).1, (floor_cell_bounds hcsg).2⟩
  refine ⟨by rw [hsc]; exact hec, by rw [hsr]; exact her, ?_, hov, ?_, ?_⟩
  · rw [hsc, hsr]
    exact hcell n tri hn tri.minX tri.minZ ⟨le_refl _, e1⟩ ⟨le_refl _, e2⟩
  · obtain ⟨x, z, hin, h1, h2, h3, h4⟩ := hov
    exact ⟨x, z, hin, h1, h2.le, h3, h4.le⟩
  · intro r c hr1 hr2 hc1 hc2
    have s0 : 0 ≤ startRow g tri := le_max_left _ _
    have s1 : 0 ≤ startCol g tri := le_max_left _ _
    have s2 : endRow g tri ≤ g.rows - 1 := min_le_left _ _
    have s3 : endCol g tri ≤ g.cols - 1 := min_le_left _ _
    rw [p4] at s3 ⊢
    rw [p5] at s2 ⊢
    omega

/-- C6 at `stripCollider`: positive cell size, and the grid reaches beyond the
terrain's maximum X. -/
theorem C6_buildGrid_covers_witness :
    0 < (buildGrid ⟨[stripTriangle, edgeTriangle], blankGrid⟩).grid.cellSize ∧
    (terrainBounds [stripTriangle, edgeTriangle]).maxX <
      (buildGrid ⟨[stripTriangle, edgeTriangle], blankGrid⟩).grid.minX +
      (buildGrid ⟨[stripTriangle, edgeTriangle], blankGrid⟩).grid.cols *
        (buildGrid ⟨[stripTriangle, edgeTriangle], blankGrid⟩).grid.cellSize :=
  have h := C6_buildGrid_covers [stripTriangle, edgeTriangle] blankGrid (by decide)
    (by
      intro tri htri
      simp only [List.mem_cons, List.mem_singleton, List.not_mem_nil, or_false] at htri
      rcases htri with rfl | rfl <;> rfl)
  ⟨h.1, h.2.1⟩

/-! ### Claims about `CharacterCollider` -/

theorem AABB.intersects_iff {a b : AABB} (ha : a.wellFormed) (hb : b.wellFormed) :
    a.intersects b = true ↔
      (a._min.x ≤ b._max.x ∧ b._min.x ≤ a._max.x) ∧
      (a._min.y ≤ b._max.y ∧ b._min.y ≤ a._max.y) ∧
      (a._min.z ≤ b._max.z ∧ b._min.z ≤ a._max.z) := by
  obtain ⟨a1, a2, a3⟩ := ha
  obtain ⟨b1, b2, b3⟩ := hb
  unfold AABB.intersects
  simp only [decide_eq_true_eq, ge_iff_le]
  constructor
  · rintro ⟨hx, hy, hz⟩
    refine ⟨?_, ?_, ?_⟩
    · rcases hx with h | h <;> constructor <;> linarith
    · rcases hy with h | h <;> constructor <;> linarith
    · rcases hz with h | h <;> constructor <;> linarith
  · rintro ⟨⟨x1, x2⟩, ⟨y1, y2⟩, z1, z2⟩
    refine ⟨?_, ?_, ?_⟩
    · rcases le_total b._min.x a._min.x with h | h
      · exact Or.inl ⟨h, x1⟩
      · exact Or.inr ⟨h, x2⟩
    · rcases le_total b._min.y a._min.y with h | h
      · exact Or.inl ⟨h, y1⟩
      · exact Or.inr ⟨h, y2⟩
    · rcases le_total b._min.z a._min.z with h | h
      · exact Or.inl ⟨h, z1⟩
      · exact Or.inr ⟨h, z2⟩

/-- The signed overlap chosen on one axis, `(o1 < o2) ? o1 : -o2`, for non-negative
overlaps: its magnitude is the smaller overlap, and its sign tells which one. -/
theorem minOverlap_spec {o1 o2 : ℚ} (h1 : 0 ≤ o1) (h2 : 0 ≤ o2) :
    |(if o1 < o2 then o1 else -o2)| = min o1 o2 ∧
    (0 < (if o1 < o2 then o1 else -o2) → (if o1 < o2 then o1 else -o2) = o1) ∧
    ((if o1 < o2 then o1 else -o2) < 0 → (if o1 < o2 then o1 else -o2) = -o2) := by
  by_cases h : o1 < o2
  · simp only [h, if_true, abs_of_nonneg h1, min_eq_left h.le]
    exact ⟨trivial, fun _ => trivial, fun hneg => absurd hneg (not_lt.mpr h1)⟩
  · simp only [h, if_false, abs_neg, abs_of_nonneg h2, min_eq_right (not_lt.mp h)]
    exact ⟨trivial, fun hpos => absurd hpos (not_lt.mpr (by linarith)), fun _ => trivial⟩

/-- The value of `getCollisionOffset` on an intersecting pair: the chosen signed
overlap of X is applied when its magnitude is the smaller one, that of Z otherwise. -/
theorem getCollisionOffset_of_intersects (self : CharacterCollider) (other : AABB)
    (sourceAABB : Option AABB) (h : (self.sourceOf sourceAABB).intersects other = true) :
    self.getCollisionOffset other sourceAABB =
      if |(if (self.sourceOf sourceAABB)._max.x - other._min.x <
              other._max.x - (self.sourceOf sourceAABB)._min.x
            then (self.sourceOf sourceAABB)._max.x - other._min.x
            else -(other._max.x - (self.sourceOf sourceAABB)._min.x))| <
          |(if (self.sourceOf sourceAABB)._max.z - other._min.z <
              other._max.z - (self.sourceOf sourceAABB)._min.z
            then (self.sourceOf sourceAABB)._max.z - other._min.z
            else -(other._max.z - (self.sourceOf sourceAABB)._min.z))|
      then ⟨-(if (self.sourceOf sourceAABB)._max.x - other._min.x <
              other._max.x - (self.sourceOf sourceAABB)._min.x
            then (self.sourceOf sourceAABB)._max.x - other._min.x
            else -(other._max.x - (self.sourceOf sourceAABB)._min.x)), 0, 0⟩
      else ⟨0, 0, -(if (self.sourceOf sourceAABB)._max.z - other._min.z <
              other._max.z - (self.sourceOf sourceAABB)._min.z
            then (self.sourceOf sourceAABB)._max.z - other._min.z
            else -(other._max.z - (self.sourceOf sourceAABB)._min.z))⟩ := by
  unfold CharacterCollider.getCollisionOffset
  simp only [h, Bool.not_true, Bool.false_eq_true, if_false]

/-- C9: for well-formed boxes, `getCollisionOffset(other, source)` is the zero vector
when the boxes do not intersect; otherwise its Y is 0, at most one of X and Z is
non-zero, its magnitude is the least of the four horizontal separation distances, and
its sign makes the source abut the other box on that axis (`src.max = other.min` when
pushed negative, `src.min = other.max` when pushed positive). -/
theorem C9_getCollisionOffset_min_axis (self : CharacterCollider) (other : AABB)
    (sourceAABB : Option AABB) (hs : (self.sourceOf sourceAABB).wellFormed)
    (ho : other.wellFormed) :
    ((self.sourceOf sourceAABB).intersects other = false →
      self.getCollisionOffset other sourceAABB = Vec3.ZERO) ∧
    ((self.sourceOf sourceAABB).intersects other = true →
      (self.getCollisionOffset other sourceAABB).y = 0 ∧
      ((self.getCollisionOffset other sourceAABB).x = 0 ∨
        (self.getCollisionOffset other sourceAABB).z = 0) ∧
      max |(self.getCollisionOffset other sourceAABB).x|
          |(self.getCollisionOffset other sourceAABB).z| =
        min (min ((self.sourceOf sourceAABB)._max.x - other._min.x)
                 (other._max.x - (self.sourceOf sourceAABB)._min.x))
            (min ((self.sourceOf sourceAABB)._max.z - other._min.z)
                 (other._max.z - (self.sourceOf sourceAABB)._min.z)) ∧
      ((self.getCollisionOffset other sourceAABB).x < 0 →
        (self.sourceOf sourceAABB)._max.x + (self.getCollisionOffset other sourceAABB).x
          = other._min.x) ∧
      (0 < (self.getCollisionOffset other sourceAABB).x →
        (self.sourceOf sourceAABB)._min.x + (self.getCollisionOffset other sourceAABB).x
          = other._max.x) ∧
      ((self.getCollisionOffset other sourceAABB).z < 0 →
        (self.sourceOf sourceAABB)._max.z + (self.getCollisionOffset other sourceAABB).z
          = other._min.z) ∧
      (0 < (self.getCollisionOffset other sourceAABB).z →
        (self.sourceOf sourceAABB)._min.z + (self.getCollisionOffset other sourceAABB).z
          = other._max.z)) := by
  constructor
  · intro h
    unfold CharacterCollider.getCollisionOffset
    simp only [h, Bool.not_false, if_true]
  · intro h
    rw [getCollisionOffset_of_intersects self other sourceAABB h]
    obtain ⟨⟨x1, x2⟩, _, z1, z2⟩ := (AABB.intersects_iff hs ho).mp h
    generalize self.sourceOf sourceAABB = src at *
    have ox1 : 0 ≤ src._max.x - other._min.x := by linarith
    have ox2 : 0 ≤ other._max.x - src._min.x := by linarith
    have oz1 : 0 ≤ src._max.z - other._min.z := by linarith
    have oz2 : 0 ≤ other._max.z - src._min.z := by linarith
    obtain ⟨mx1, mx2, mx3⟩ := minOverlap_spec ox1 ox2
    obtain ⟨mz1, mz2, mz3⟩ := minOverlap_spec oz1 oz2
    generalize (if src._max.x - other._min.x < other._max.x - src._min.x
      then src._max.x - other._min.x else -(other._max.x - src._min.x)) = mX at *
    generalize (if src._max.z - other._min.z < other._max.z - src._min.z
      then src._max.z - other._min.z else -(other._max.z - src._min.z)) = mZ at *
    have hminx : 0 ≤ min (src._max.x - other._min.x) (other._max.x - src._min.x) :=
      le_min ox1 ox2
    have hminz : 0 ≤ min (src._max.z - other._min.z) (other._max.z - src._min.z) :=
      le_min oz1 oz2
    by_cases hlt : |mX| < |mZ|
    · rw [if_pos hlt]
      simp only
      refine ⟨trivial, Or.inr trivial, ?_, ?_, ?_, ?_, ?_⟩
      · have hle : min (src._max.x - other._min.x) (other._max.x - src._min.x) ≤
            min (src._max.z - other._min.z) (other._max.z - src._min.z) := by
          rw [← mx1, ← mz1]
          exact hlt.le
        rw [abs_neg, abs_zero, mx1, max_eq_left hminx]
        exact (min_eq_left hle).symm
      · intro hneg
        have := mx2 (by linarith)
        linarith
      · intro hpos
        have := mx3 (by linarith)
        linarith
      · intro hneg
        exact absurd hneg (lt_irrefl 0)
      · intro hpos
        exact absurd hpos (lt_irrefl 0)
    · rw [if_neg hlt]
      simp only
      refine ⟨trivial, Or.inl trivial, ?_, ?_, ?_, ?_, ?_⟩
      · have hle : min (src._max.z - other._min.z) (other._max.z - src._min.z) ≤
            min (src._max.x - other._min.x) (other._max.x - src._min.x) := by
          rw [← mx1, ← mz1]
          exact not_lt.mp hlt
        rw [abs_neg, abs_zero, mz1, max_eq_right hminz]
        exact (min_eq_right hle).symm
      · intro hneg
        exact absurd hneg (lt_irrefl 0)
      · intro hpos
        exact absurd hpos (lt_irrefl 0)
      · intro hneg
        have := mz2 (by linarith)
        linarith
      · intro hpos
        have := mz3 (by linarith)
        linarith

/-- C9 at `boxA`, `boxB`: the offset is `(-5, 0, 0)`. -/
theorem C9_getCollisionOffset_min_axis_witness :
    (⟨boxA, boxA⟩ : CharacterCollider).getCollisionOffset boxB none = ⟨-5, 0, 0⟩ ∧
    (boxA.intersects boxB = true →
      ((⟨boxA, boxA⟩ : CharacterCollider).getCollisionOffset boxB none).y = 0) :=
  ⟨by decide!,
    fun h => ((C9_getCollisionOffset_min_axis ⟨boxA, boxA⟩ boxB none
      ⟨by decide!, by decide!, by decide!⟩ ⟨by decide!, by decide!, by decide!⟩).2 h).1⟩

/-- After the push-out the source abuts the other box on the pushed axis. -/
theorem getCollisionOffset_abuts (self : CharacterCollider) (other : AABB)
    (sourceAABB : Option AABB) (h : (self.sourceOf sourceAABB).intersects other = true) :
    (self.getCollisionOffset other sourceAABB).y = 0 ∧
    (((self.getCollisionOffset other sourceAABB).z = 0 ∧
        ((self.sourceOf sourceAABB)._max.x + (self.getCollisionOffset other sourceAABB).x
            = other._min.x ∨
          (self.sourceOf sourceAABB)._min.x + (self.getCollisionOffset other sourceAABB).x
            = other._max.x)) ∨
      ((self.getCollisionOffset other sourceAABB).x = 0 ∧
        ((self.sourceOf sourceAABB)._max.z + (self.getCollisionOffset other sourceAABB).z
            = other._min.z ∨
          (self.sourceOf sourceAABB)._min.z + (self.getCollisionOffset other sourceAABB).z
            = other._max.z))) := by
  rw [getCollisionOffset_of_intersects self other sourceAABB h]
  generalize self.sourceOf sourceAABB = src at *
  split_ifs <;> simp only <;> refine ⟨trivial, ?_⟩ <;>
    first
      | exact Or.inl ⟨trivial, Or.inl (by linarith)⟩
      | exact Or.inl ⟨trivial, Or.inr (by linarith)⟩
      | exact Or.inr ⟨trivial, Or.inl (by linarith)⟩
      | exact Or.inr ⟨trivial, Or.inr (by linarith)⟩

/-- C10 (as amended): for overlapping well-formed boxes, translating the source by
the vector returned from one call of `getCollisionOffset(other, source)` leaves no
penetration: the interiors of the translated source and the other box are disjoint
(they abut on the pushed axis); `checkCollision`, which counts boundary contact, still
returns true for the translated pair. -/
theorem C10_pushout_leaves_contact (self : CharacterCollider) (other : AABB)
    (sourceAABB : Option AABB) (hs : (self.sourceOf sourceAABB).wellFormed)
    (ho : other.wellFormed) (h : (self.sourceOf sourceAABB).intersects other = true) :
    ¬ ((self.sourceOf sourceAABB).translate
        (self.getCollisionOffset other sourceAABB)).overlapsStrictly other ∧
    (⟨self.aabb, (self.sourceOf sourceAABB).translate
        (self.getCollisionOffset other sourceAABB)⟩ : CharacterCollider).checkCollision other
      = true := by
  obtain ⟨hy, hax⟩ := getCollisionOffset_abuts self other sourceAABB h
  obtain ⟨⟨x1, x2⟩, ⟨y1, y2⟩, z1, z2⟩ := (AABB.intersects_iff hs ho).mp h
  obtain ⟨s1, s2, s3⟩ := hs
  obtain ⟨o1, o2, o3⟩ := ho
  generalize self.getCollisionOffset other sourceAABB = v at *
  generalize self.sourceOf sourceAABB = src at *
  have hwf : (src.translate v).wellFormed := by
    simp only [AABB.wellFormed, AABB.translate, Vec3.add]
    exact ⟨by linarith, by linarith, by linarith⟩
  constructor
  · rintro ⟨⟨a1, a2⟩, _, a3, a4⟩
    simp only [AABB.translate, Vec3.add] at a1 a2 a3 a4
    rcases hax with ⟨_, e | e⟩ | ⟨_, e | e⟩ <;> linarith
  · unfold CharacterCollider.checkCollision
    simp only
    rw [AABB.intersects_iff hwf ⟨o1, o2, o3⟩]
    simp only [AABB.translate, Vec3.add]
    rcases hax with ⟨hz, e | e⟩ | ⟨hx, e | e⟩
    · exact ⟨⟨by linarith, by linarith⟩, ⟨by linarith, by linarith⟩, by linarith, by linarith⟩
    · exact ⟨⟨by linarith, by linarith⟩, ⟨by linarith, by linarith⟩, by linarith, by linarith⟩
    · exact ⟨⟨by linarith, by linarith⟩, ⟨by linarith, by linarith⟩, by linarith, by linarith⟩
    · exact ⟨⟨by linarith, by linarith⟩, ⟨by linarith, by linarith⟩, by linarith, by linarith⟩

/-- C10, as amended, at `boxA`, `boxB`. -/
theorem C10_pushout_leaves_contact_witness :
    ¬ (boxA.translate ((⟨boxA, boxA⟩ : CharacterCollider).getCollisionOffset boxB
        (some boxA))).overlapsStrictly boxB :=
  (C10_pushout_leaves_contact ⟨boxA, boxA⟩ boxB (some boxA)
    ⟨by decide!, by decide!, by decide!⟩ ⟨by decide!, by decide!, by decide!⟩ (by decide!)).1

/-- C10 as stated fails: `boxA` and `boxB` are well formed and overlap; after `boxA` is
translated by the offset `(-5, 0, 0)` of one call, `checkCollision` is still true (the
boxes touch at `x = 5`). -/
theorem C10_counterexample :
    boxA.wellFormed ∧ boxB.wellFormed ∧
    (⟨boxA, boxA⟩ : CharacterCollider).checkCollision boxB = true ∧
    (⟨boxA, boxA⟩ : CharacterCollider).getCollisionOffset boxB (some boxA) = ⟨-5, 0, 0⟩ ∧
    (⟨boxA, boxA.translate ((⟨boxA, boxA⟩ : CharacterCollider).getCollisionOffset boxB
      (some boxA))⟩ : CharacterCollider).checkCollision boxB = true :=
  ⟨⟨by decide!, by decide!, by decide!⟩, ⟨by decide!, by decide!, by decide!⟩,
    by decide!, by decide!, by decide!⟩

/-! ### The parser -/

theorem digit_not_space {c : Char} (h : c.isDigit = true) : isSpace c = false := by
  simp only [Char.isDigit, Bool.and_eq_true, decide_eq_true_eq] at h
  simp only [isSpace, Bool.or_eq_false_iff, decide_eq_false_iff_not]
  refine ⟨⟨⟨⟨⟨?_, ?_⟩, ?_⟩, ?_⟩, ?_⟩, ?_⟩ <;>
    · rintro rfl
      revert h
      decide

theorem digit_not_slash {c : Char} (h : c.isDigit = true) : c ≠ '/' := by
  rintro rfl
  revert h
  decide

theorem digit_not_minus {c : Char} (h : c.isDigit = true) : c ≠ '-' := by
  rintro rfl
  revert h
  decide

theorem digit_not_plus {c : Char} (h : c.isDigit = true) : c ≠ '+' := by
  rintro rfl
  revert h
  decide

/-- The stream extraction of a token followed by a space. -/
theorem readToken_append_space {a : List Char} (rest : List Char) (hne : a ≠ [])
    (ha : ∀ c ∈ a, isSpace c = false) :
    readToken (a ++ ' ' :: rest) = some (a, ' ' :: rest) := by
  obtain ⟨c, cs, rfl⟩ := List.exists_cons_of_ne_nil hne
  have hc : isSpace c = false := ha c (List.mem_cons_self _ _)
  have hall : ∀ x ∈ c :: cs, (fun c => !isSpace c) x = true := by
    intro x hx
    simp [ha x hx]
  unfold readToken
  have hd : List.dropWhile isSpace (c :: cs ++ ' ' :: rest) = c :: cs ++ ' ' :: rest := by
    rw [List.cons_append, List.dropWhile_cons_of_neg (by simp [hc])]
  simp only [hd]
  rw [List.takeWhile_append_of_pos hall, List.dropWhile_append_of_pos hall]
  simp [isSpace]

/-- The stream extraction of the last token of a line. -/
theorem readToken_last {a : List Char} (hne : a ≠ []) (ha : ∀ c ∈ a, isSpace c = false) :
    readToken a = some (a, []) := by
  obtain ⟨c, cs, rfl⟩ := List.exists_cons_of_ne_nil hne
  have hc : isSpace c = false := ha c (List.mem_cons_self _ _)
  have hall : ∀ x ∈ c :: cs, (fun c => !isSpace c) x = true := by
    intro x hx
    simp [ha x hx]
  unfold readToken
  have hd : List.dropWhile isSpace (c :: cs) = c :: cs := by
    rw [List.dropWhile_cons_of_neg (by simp [hc])]
  simp only [hd]
  have h1 : List.takeWhile (fun c => !isSpace c) (c :: cs) = c :: cs :=
    List.takeWhile_eq_self_iff.mpr hall
  have h2 : List.dropWhile (fun c => !isSpace c) (c :: cs) = [] :=
    List.dropWhile_eq_nil_iff.mpr hall
  rw [h1, h2]
  simp

theorem readToken_space (s : List Char) : readToken (' ' :: s) = readToken s := by
  unfold readToken
  rw [List.dropWhile_cons_of_pos (by decide)]

/-- The three references of a face record are the three tokens read. -/
theorem readFace_faceRecord {a b c : List Char} (ha0 : a ≠ []) (hb0 : b ≠ []) (hc0 : c ≠ [])
    (ha : ∀ x ∈ a, isSpace x = false) (hb : ∀ x ∈ b, isSpace x = false)
    (hc : ∀ x ∈ c, isSpace x = false) :
    readFace (a ++ ' ' :: (b ++ ' ' :: c)) = some (a, b, c) := by
  unfold readFace
  rw [readToken_append_space _ ha0 ha]
  simp only
  rw [readToken_space, readToken_append_space _ hb0 hb]
  simp only
  rw [readToken_space, readToken_last hc0 hc]


theorem takeWhile_digits {d : List Char} (hd : ∀ c ∈ d, c.isDigit = true) :
    d.takeWhile Char.isDigit = d :=
  List.takeWhile_eq_self_iff.mpr hd

/-- `std::stoi` on a decimal numeral: its value, or `std::out_of_range`. -/
theorem stoi_numeral {d : List Char} (hd : isNumeral d) :
    stoi d = if (2147483647 : Int) < decVal d then none else some (decVal d : Int) := by
  obtain ⟨hne, hall⟩ := hd
  obtain ⟨c, cs, rfl⟩ := List.exists_cons_of_ne_nil hne
  have hc : c.isDigit = true := hall c (List.mem_cons_self _ _)
  have hsp : isSpace c = false := digit_not_space hc
  have hm : c ≠ '-' := digit_not_minus hc
  have hp : c ≠ '+' := digit_not_plus hc
  unfold stoi
  have hd1 : List.dropWhile isSpace (c :: cs) = c :: cs := by
    rw [List.dropWhile_cons_of_neg (by simp [hsp])]
  simp only [hd1]
  have hsig : (match c :: cs with
      | '-' :: r => (true, r)
      | '+' :: r => (false, r)
      | _ => (false, c :: cs)) = (false, c :: cs) := by
    split
    · rename_i heq
      exact absurd (List.cons.inj heq).1 hm
    · rename_i heq
      exact absurd (List.cons.inj heq).1 hp
    · rfl
  rw [hsig]
  simp only [takeWhile_digits hall, List.isEmpty_cons, Bool.false_eq_true, if_false]
  have h0 : ¬ ((decVal (c :: cs) : Int) < -2147483648) := by
    have : (0 : Int) ≤ (decVal (c :: cs) : Int) := Int.ofNat_nonneg _
    omega
  simp only [h0, false_or, gt_iff_lt]

/-- `std::stoi` on a minus sign followed by a decimal numeral. -/
theorem stoi_neg_numeral {d : List Char} (hd : isNumeral d) :
    stoi ('-' :: d) =
      if (2147483648 : Int) < decVal d then none else some (-(decVal d : Int)) := by
  obtain ⟨hne, hall⟩ := hd
  unfold stoi
  have hd1 : List.dropWhile isSpace ('-' :: d) = '-' :: d := by
    rw [List.dropWhile_cons_of_neg (by decide)]
  simp only [hd1, takeWhile_digits hall]
  have he : d.isEmpty = false := by
    cases d with
    | nil => exact absurd rfl hne
    | cons _ _ => rfl
  simp only [he, Bool.false_eq_true, if_false, if_true]
  have h0 : ¬ (-(decVal d : Int) > 2147483647) := by
    have : (0 : Int) ≤ (decVal d : Int) := Int.ofNat_nonneg _
    omega
  simp only [h0, or_false]
  by_cases h : (2147483648 : Int) < decVal d
  · rw [if_pos h, if_pos (by omega)]
  · rw [if_neg h, if_neg (by omega)]

/-- The attributes after the first `'/'` are ignored: `a/x/y` resolves like `a`. -/
theorem parseIdx_attrs {a r : List Char} (ha : '/' ∉ a) (hr : isAttrs r) :
    parseIdx (a ++ r) = stoi a := by
  have hall : ∀ x ∈ a, (fun c => c != '/') x = true := by
    intro x hx
    have : x ≠ '/' := fun h => ha (h ▸ hx)
    simpa using this
  rcases hr with rfl | ⟨t, rfl, _⟩
  · rw [List.append_nil]
    unfold parseIdx
    rw [if_neg ha]
  · unfold parseIdx
    rw [if_pos (by simp), List.takeWhile_append_of_pos hall,
      List.takeWhile_cons_of_neg (by simp)]
    simp

theorem numeral_no_slash {d : List Char} (hd : isNumeral d) : '/' ∉ d :=
  fun h => digit_not_slash (hd.2 _ h) rfl

theorem neg_numeral_no_slash {d : List Char} (hd : isNumeral d) : '/' ∉ '-' :: d := by
  intro h
  rcases List.mem_cons.mp h with h | h
  · exact absurd h (by decide)
  · exact numeral_no_slash hd h


theorem stoi_none_of_not_startsWithInt {p : List Char} (hsp : ∀ c ∈ p, isSpace c = false)
    (h : startsWithInt p = false) : stoi p = none := by
  cases p with
  | nil => rfl
  | cons c cs =>
    have hc : isSpace c = false := hsp c (List.mem_cons_self _ _)
    have hd1 : List.dropWhile isSpace (c :: cs) = c :: cs := by
      rw [List.dropWhile_cons_of_neg (by simp [hc])]
    have key : ∀ r : List Char, startsWithInt (c :: cs) = false →
        (c = '-' ∨ c = '+') → r = cs → List.takeWhile Char.isDigit r = [] := by
      intro r hs hsign hr
      subst hr
      unfold startsWithInt at hs
      simp only [hsign, if_true] at hs
      cases r with
      | nil => rfl
      | cons e es =>
        simp only at hs
        rw [List.takeWhile_cons_of_neg (by simp [hs])]
    by_cases hm : c = '-'
    · subst hm
      have hk := key cs h (Or.inl rfl) rfl
      unfold stoi
      simp only [hd1, hk, List.isEmpty_nil, if_true]
    · by_cases hp : c = '+'
      · subst hp
        have hk := key cs h (Or.inr rfl) rfl
        unfold stoi
        simp only [hd1, hk, List.isEmpty_nil, if_true]
      · have hsig : (match c :: cs with
            | '-' :: r => (true, r)
            | '+' :: r => (false, r)
            | _ => (false, c :: cs)) = (false, c :: cs) := by
          split
          · rename_i heq
            exact absurd (List.cons.inj heq).1 hm
          · rename_i heq
            exact absurd (List.cons.inj heq).1 hp
          · rfl
        unfold startsWithInt at h
        simp only [hm, hp, or_self, if_false] at h
        unfold stoi
        simp only [hd1]
        rw [hsig]
        simp only
        rw [List.takeWhile_cons_of_neg (by simp [h])]
        simp only [List.isEmpty_nil, if_true]

/-- A non-numeric reference makes `parseIdx` throw. -/
theorem parseIdx_nonNumeric {s : List Char} (hs : ∀ c ∈ s, isSpace c = false)
    (h : nonNumeric s) : parseIdx s = none := by
  have hpre : ∀ c ∈ s.takeWhile (fun c => c != '/'), isSpace c = false :=
    fun c hc => hs c (List.takeWhile_subset _ hc)
  unfold parseIdx
  split_ifs with hsl
  · exact stoi_none_of_not_startsWithInt hpre h
  · have e : s.takeWhile (fun c => c != '/') = s := by
      rw [List.takeWhile_eq_self_iff]
      intro x hx
      have : x ≠ '/' := fun e => hsl (e ▸ hx)
      simpa using this
    unfold nonNumeric at h
    rw [e] at h
    exact stoi_none_of_not_startsWithInt hs h

theorem numeral_isToken {d r : List Char} (hd : isNumeral d) (hr : isAttrs r) :
    isToken (d ++ r) := by
  refine ⟨fun h => hd.1 (List.append_eq_nil.mp h).1, ?_⟩
  intro c hc
  rcases List.mem_append.mp hc with h | h
  · exact digit_not_space (hd.2 c h)
  · rcases hr with rfl | ⟨t, rfl, ht⟩
    · cases h
    · rcases List.mem_cons.mp h with rfl | h
      · decide
      · exact ht c h

theorem neg_numeral_isToken {d r : List Char} (hd : isNumeral d) (hr : isAttrs r) :
    isToken ('-' :: (d ++ r)) := by
  refine ⟨List.cons_ne_nil _ _, ?_⟩
  intro c hc
  rcases List.mem_cons.mp hc with rfl | h
  · decide
  · exact (numeral_isToken hd hr).2 c h

/-- A bad reference either makes `parseIdx` throw or resolves to an index outside
`1 .. n`. -/
theorem badRef_parse {n : Nat} {s : List Char} (hs : isToken s) (h : badRef n s) :
    parseIdx s = none ∨ ∃ k : Int, parseIdx s = some k ∧ (k - 1 < 0 ∨ (n : Int) ≤ k - 1) := by
  rcases h with h | ⟨d, r, hd, hr, ⟨rfl, h⟩ | rfl⟩
  · exact Or.inl (parseIdx_nonNumeric hs.2 h)
  · rw [parseIdx_attrs (numeral_no_slash hd) hr, stoi_numeral hd]
    split_ifs with hbig
    · exact Or.inl rfl
    · refine Or.inr ⟨_, rfl, ?_⟩
      rcases h with h | h
      · left
        rw [h]
        decide
      · right
        omega
  · have e : '-' :: (d ++ r) = ('-' :: d) ++ r := rfl
    rw [e, parseIdx_attrs (neg_numeral_no_slash hd) hr, stoi_neg_numeral hd]
    split_ifs with hbig
    · exact Or.inl rfl
    · refine Or.inr ⟨_, rfl, Or.inl ?_⟩
      have : (0 : Int) ≤ (decVal d : Int) := Int.ofNat_nonneg _
      omega

/-- A face record with three tokens: the result of one step of the loop. -/
theorem processLine_face (readFloat : List Char → Option (ℚ × List Char)) (scale : ℚ)
    (pos : Vec3) (st : ObjState) {a b c : List Char} (ha : isToken a) (hb : isToken b)
    (hc : isToken c) :
    processLine readFloat scale pos st (faceRecord a b c) =
      match faceIndices a b c with
      | none => st
      | some (i1, i2, i3) =>
        if 0 ≤ i1 ∧ i1 < st.vertices.length ∧ 0 ≤ i2 ∧ i2 < st.vertices.length ∧
            0 ≤ i3 ∧ i3 < st.vertices.length then
          { st with triangles := st.triangles ++
              [mkTriangle (st.vertices.getD i1.toNat Vec3.ZERO)
                (st.vertices.getD i2.toNat Vec3.ZERO) (st.vertices.getD i3.toNat Vec3.ZERO)] }
        else st := by
  unfold processLine faceRecord
  simp only [readFace_faceRecord ha.1 hb.1 hc.1 ha.2 hb.2 hc.2]

/-- A face record with a bad reference is dropped. -/
theorem processLine_face_bad (readFloat : List Char → Option (ℚ × List Char)) (scale : ℚ)
    (pos : Vec3) (st : ObjState) {a b c : List Char} (ha : isToken a) (hb : isToken b)
    (hc : isToken c)
    (h : badRef st.vertices.length a ∨ badRef st.vertices.length b ∨
      badRef st.vertices.length c) :
    processLine readFloat scale pos st (faceRecord a b c) = st := by
  rw [processLine_face readFloat scale pos st ha hb hc]
  unfold faceIndices
  cases ea : parseIdx a with
  | none => rfl
  | some k1 =>
    cases eb : parseIdx b with
    | none => rfl
    | some k2 =>
      cases ec : parseIdx c with
      | none => rfl
      | some k3 =>
        simp only
        rw [if_neg]
        rintro ⟨p1, p2, p3, p4, p5, p6⟩
        rcases h with h | h | h
        · rcases badRef_parse ha h with h | ⟨k, hk, h⟩
          · rw [ea] at h; cases h
          · rw [ea] at hk; cases hk; omega
        · rcases badRef_parse hb h with h | ⟨k, hk, h⟩
          · rw [eb] at h; cases h
          · rw [eb] at hk; cases hk; omega
        · rcases badRef_parse hc h with h | ⟨k, hk, h⟩
          · rw [ec] at h; cases h
          · rw [ec] at hk; cases hk; omega


/-- One step of the loop appends the vertex of the line, if the line is an accepted
vertex record, and no other vertex. -/
theorem processLine_vertices (readFloat : List Char → Option (ℚ × List Char)) (scale : ℚ)
    (pos : Vec3) (st : ObjState) (line : List Char) :
    (processLine readFloat scale pos st line).vertices =
      st.vertices ++ (vertexOfLine readFloat scale pos line).toList := by
  unfold processLine vertexOfLine
  split
  · rename_i rest
    cases h : readVertex readFloat rest with
    | none => simp [h]
    | some p => simp [h]
  · rename_i rest
    have e : (match readFace rest with
        | none => st
        | some (a, b, c) =>
          match faceIndices a b c with
          | none => st
          | some (i1, i2, i3) =>
            if 0 ≤ i1 ∧ i1 < st.vertices.length ∧ 0 ≤ i2 ∧ i2 < st.vertices.length ∧
                0 ≤ i3 ∧ i3 < st.vertices.length then
              { st with triangles := st.triangles ++
                  [mkTriangle (st.vertices.getD i1.toNat Vec3.ZERO)
                    (st.vertices.getD i2.toNat Vec3.ZERO)
                    (st.vertices.getD i3.toNat Vec3.ZERO)] }
            else st).vertices = st.vertices := by
      cases readFace rest with
      | none => rfl
      | some t =>
        obtain ⟨a, b, c⟩ := t
        simp only
        cases faceIndices a b c with
        | none => rfl
        | some idx =>
          obtain ⟨i1, i2, i3⟩ := idx
          simp only
          split_ifs <;> rfl
    rw [e]
    simp
  · rename_i h1 h2
    split
    · rename_i rest
      exact absurd rfl (h1 rest)
    · simp

/-- The vertex list after the loop: the accepted vertex records of the lines, in
order, in world space. -/
theorem loadLines_vertices (readFloat : List Char → Option (ℚ × List Char)) (scale : ℚ)
    (pos : Vec3) (st : ObjState) (lines : List (List Char)) :
    (loadLines readFloat scale pos st lines).vertices =
      st.vertices ++ lines.filterMap (vertexOfLine readFloat scale pos) := by
  induction lines generalizing st with
  | nil => simp [loadLines]
  | cons l ls ih =>
    have e : loadLines readFloat scale pos st (l :: ls) =
        loadLines readFloat scale pos (processLine readFloat scale pos st l) ls := rfl
    rw [e, ih, processLine_vertices]
    cases h : vertexOfLine readFloat scale pos l with
    | none => simp [List.filterMap_cons_none h]
    | some v => simp [List.filterMap_cons_some h]

/-- A face record whose references are decimal numerals with optional attributes is
accepted exactly when the three indices lie in `1 .. n`. -/
theorem processLine_face_numerals (readFloat : List Char → Option (ℚ × List Char))
    (scale : ℚ) (pos : Vec3) (st : ObjState) (hlen : st.vertices.length ≤ 2147483647)
    {d1 d2 d3 r1 r2 r3 : List Char} (h1 : isNumeral d1) (h2 : isNumeral d2)
    (h3 : isNumeral d3) (a1 : isAttrs r1) (a2 : isAttrs r2) (a3 : isAttrs r3) :
    processLine readFloat scale pos st (faceRecord (d1 ++ r1) (d2 ++ r2) (d3 ++ r3)) =
      if (1 ≤ decVal d1 ∧ decVal d1 ≤ st.vertices.length) ∧
          (1 ≤ decVal d2 ∧ decVal d2 ≤ st.vertices.length) ∧
          (1 ≤ decVal d3 ∧ decVal d3 ≤ st.vertices.length) then
        { st with triangles := st.triangles ++
            [faceTriangle st.vertices (decVal d1) (decVal d2) (decVal d3)] }
      else st := by
  by_cases hbig : (2147483647 : Int) < decVal d1 ∨ (2147483647 : Int) < decVal d2 ∨
      (2147483647 : Int) < decVal d3
  · rw [if_neg (by omega)]
    apply processLine_face_bad readFloat scale pos st (numeral_isToken h1 a1)
      (numeral_isToken h2 a2) (numeral_isToken h3 a3)
    rcases hbig with h | h | h
    · exact Or.inl (Or.inr ⟨d1, r1, h1, a1, Or.inl ⟨rfl, Or.inr (by omega)⟩⟩)
    · exact Or.inr (Or.inl (Or.inr ⟨d2, r2, h2, a2, Or.inl ⟨rfl, Or.inr (by omega)⟩⟩))
    · exact Or.inr (Or.inr (Or.inr ⟨d3, r3, h3, a3, Or.inl ⟨rfl, Or.inr (by omega)⟩⟩))
  · push_neg at hbig
    obtain ⟨g1, g2, g3⟩ := hbig
    rw [processLine_face readFloat scale pos st (numeral_isToken h1 a1)
      (numeral_isToken h2 a2) (numeral_isToken h3 a3)]
    unfold faceIndices
    rw [parseIdx_attrs (numeral_no_slash h1) a1, parseIdx_attrs (numeral_no_slash h2) a2,
      parseIdx_attrs (numeral_no_slash h3) a3, stoi_numeral h1, stoi_numeral h2,
      stoi_numeral h3, if_neg (not_lt.mpr g1), if_neg (not_lt.mpr g2),
      if_neg (not_lt.mpr g3)]
    simp only
    by_cases hin : (1 ≤ decVal d1 ∧ decVal d1 ≤ st.vertices.length) ∧
        (1 ≤ decVal d2 ∧ decVal d2 ≤ st.vertices.length) ∧
        (1 ≤ decVal d3 ∧ decVal d3 ≤ st.vertices.length)
    · rw [if_pos hin, if_pos (by omega)]
      have e1 : ((decVal d1 : Int) - 1).toNat = decVal d1 - 1 := by omega
      have e2 : ((decVal d2 : Int) - 1).toNat = decVal d2 - 1 := by omega
      have e3 : ((decVal d3 : Int) - 1).toNat = decVal d3 - 1 := by omega
      rw [e1, e2, e3]
      rfl
    · rw [if_neg hin, if_neg (by omega)]


/-- C8: in `loadFromObj`, after the lines `pre`, whose accepted vertex records are the
`n` vertices `verts` (scaled and translated to world space), a face record `f a b c`
whose references are decimal numerals, each optionally followed by `'/'`-separated
attributes (ignored: `a/x/y` resolves like `a`), adds a triangle if and only if each of
`a`, `b`, `c` lies in `1..n`; its corners are then the `(a-1)`-th, `(b-1)`-th and
`(c-1)`-th vertices and its XZ extents the min/max of those corners; any other face
(index 0, negative, beyond `n`, or non-numeric) is dropped and the result of the whole
loop is the same as without that line. -/
theorem C8_loadFromObj_face_records (readFloat : List Char → Option (ℚ × List Char))
    (scale : ℚ) (pos : Vec3) (tris0 : List Triangle) (pre post : List (List Char))
    (hlen : (pre.filterMap (vertexOfLine readFloat scale pos)).length ≤ 2147483647) :
    (loadLines readFloat scale pos ⟨[], tris0⟩ pre).vertices =
      pre.filterMap (vertexOfLine readFloat scale pos) ∧
    (∀ d1 d2 d3 r1 r2 r3 : List Char, isNumeral d1 → isNumeral d2 → isNumeral d3 →
      isAttrs r1 → isAttrs r2 → isAttrs r3 →
      processLine readFloat scale pos (loadLines readFloat scale pos ⟨[], tris0⟩ pre)
          (faceRecord (d1 ++ r1) (d2 ++ r2) (d3 ++ r3)) =
        if (1 ≤ decVal d1 ∧
              decVal d1 ≤ (pre.filterMap (vertexOfLine readFloat scale pos)).length) ∧
            (1 ≤ decVal d2 ∧
              decVal d2 ≤ (pre.filterMap (vertexOfLine readFloat scale pos)).length) ∧
            (1 ≤ decVal d3 ∧
              decVal d3 ≤ (pre.filterMap (vertexOfLine readFloat scale pos)).length) then
          ⟨pre.filterMap (vertexOfLine readFloat scale pos),
            (loadLines readFloat scale pos ⟨[], tris0⟩ pre).triangles ++
              [faceTriangle (pre.filterMap (vertexOfLine readFloat scale pos))
                (decVal d1) (decVal d2) (decVal d3)]⟩
        else loadLines readFloat scale pos ⟨[], tris0⟩ pre) ∧
    (∀ d r : List Char, isNumeral d → isAttrs r → parseIdx (d ++ r) = parseIdx d) ∧
    (∀ a b c : List Char, isToken a → isToken b → isToken c →
      badRef (pre.filterMap (vertexOfLine readFloat scale pos)).length a ∨
        badRef (pre.filterMap (vertexOfLine readFloat scale pos)).length b ∨
        badRef (pre.filterMap (vertexOfLine readFloat scale pos)).length c →
      processLine readFloat scale pos (loadLines readFloat scale pos ⟨[], tris0⟩ pre)
          (faceRecord a b c) = loadLines readFloat scale pos ⟨[], tris0⟩ pre ∧
      loadLines readFloat scale pos ⟨[], tris0⟩ (pre ++ faceRecord a b c :: post) =
        loadLines readFloat scale pos ⟨[], tris0⟩ (pre ++ post)) := by
  have hv : (loadLines readFloat scale pos ⟨[], tris0⟩ pre).vertices =
      pre.filterMap (vertexOfLine readFloat scale pos) := by
    rw [loadLines_vertices]
    rfl
  refine ⟨hv, ?_, ?_, ?_⟩
  · intro d1 d2 d3 r1 r2 r3 h1 h2 h3 a1 a2 a3
    rw [processLine_face_numerals readFloat scale pos _ (by rw [hv]; exact hlen)
      h1 h2 h3 a1 a2 a3, hv]
  · intro d r hd hr
    rw [parseIdx_attrs (numeral_no_slash hd) hr]
    have := parseIdx_attrs (numeral_no_slash hd) (Or.inl rfl : isAttrs [])
    rw [List.append_nil] at this
    exact this.symm
  · intro a b c ha hb hc hbad
    have hdrop := processLine_face_bad readFloat scale pos
      (loadLines readFloat scale pos ⟨[], tris0⟩ pre) ha hb hc (by rw [hv]; exact hbad)
    refine ⟨hdrop, ?_⟩
    unfold loadLines at hdrop ⊢
    rw [List.foldl_append, List.foldl_append, List.foldl_cons, hdrop]

/-- C8 on the lines `v 0 0 0`, `v 1 0 0`, `v 0 0 1` (scale 2, position `(1,1,1)`): the
face `f 1 2/7 3` is accepted. -/
theorem C8_loadFromObj_face_records_witness :
    (loadLines intReader 2 ⟨1, 1, 1⟩ ⟨[], []⟩ sampleLines).vertices =
      sampleLines.filterMap (vertexOfLine intReader 2 ⟨1, 1, 1⟩) ∧
    (processLine intReader 2 ⟨1, 1, 1⟩ (loadLines intReader 2 ⟨1, 1, 1⟩ ⟨[], []⟩ sampleLines)
        (faceRecord (['1'] ++ []) (['2'] ++ ['/', '7']) (['3'] ++ []))).triangles =
      [mkTriangle ⟨1, 1, 1⟩ ⟨3, 1, 1⟩ ⟨1, 1, 3⟩] :=
  have h := C8_loadFromObj_face_records intReader 2 ⟨1, 1, 1⟩ [] sampleLines [] (by decide!)
  ⟨h.1, by
    rw [h.2.1 ['1'] ['2'] ['3'] [] ['/', '7'] [] ⟨by decide, by decide⟩ ⟨by decide, by decide⟩
      ⟨by decide, by decide⟩ (Or.inl rfl) (Or.inr ⟨['7'], rfl, by decide⟩) (Or.inl rfl)]
    decide!⟩

/-! ### Claims about the end-to-end push-out and the shrink step -/

/-- The offset for two copies of a box with width equal to depth whose positions
differ on X only, by less than the width: it is along X and moves the source until the
positions are exactly the width apart. -/
theorem getCollisionOffset_equal_boxes (self : CharacterCollider) (b : AABB) (p q : Vec3) (w : ℚ)
    (hy : b._min.y ≤ b._max.y) (hwx : b._max.x - b._min.x = w) (hwz : b._max.z - b._min.z = w)
    (hpy : p.y = q.y) (hpz : p.z = q.z) (h0 : 0 < |p.x - q.x|) (h1 : |p.x - q.x| < w) :
    (worldBoxAt b p).intersects (worldBoxAt b q) = true ∧
    (self.getCollisionOffset (worldBoxAt b q) (some (worldBoxAt b p))).y = 0 ∧
    (self.getCollisionOffset (worldBoxAt b q) (some (worldBoxAt b p))).z = 0 ∧
    self.getCollisionOffset (worldBoxAt b q) (some (worldBoxAt b p)) ≠ Vec3.ZERO ∧
    |p.x + (self.getCollisionOffset (worldBoxAt b q) (some (worldBoxAt b p))).x - q.x| = w := by
  have hw : 0 < w := lt_trans h0 h1
  obtain ⟨l1, l2⟩ := abs_lt.mp h1
  have hwf : ∀ r : Vec3, (worldBoxAt b r).wellFormed := by
    intro r
    simp only [AABB.wellFormed, worldBoxAt, AABB.translate, Vec3.add]
    exact ⟨by linarith, by linarith, by linarith⟩
  have hint : (worldBoxAt b p).intersects (worldBoxAt b q) = true := by
    rw [AABB.intersects_iff (hwf p) (hwf q)]
    simp only [worldBoxAt, AABB.translate, Vec3.add]
    exact ⟨⟨by linarith, by linarith⟩, ⟨by linarith, by linarith⟩, by linarith, by linarith⟩
  have hoff := getCollisionOffset_of_intersects self (worldBoxAt b q) (some (worldBoxAt b p)) hint
  simp only [CharacterCollider.sourceOf, worldBoxAt, AABB.translate, Vec3.add] at hoff
  have hz : ¬ (b._max.z + p.z - (b._min.z + q.z) < b._max.z + q.z - (b._min.z + p.z)) := by
    rw [hpz]
    exact lt_irrefl _
  rw [if_neg hz] at hoff
  have ez : |(-(b._max.z + q.z - (b._min.z + p.z)))| = w := by
    rw [abs_neg, hpz, abs_of_nonneg (by linarith)]
    linarith
  rw [ez] at hoff
  refine ⟨hint, ?_⟩
  simp only [worldBoxAt, AABB.translate, Vec3.add]
  rcases lt_or_gt_of_ne (abs_pos.mp h0) with hneg | hpos
  · have hx : b._max.x + p.x - (b._min.x + q.x) < b._max.x + q.x - (b._min.x + p.x) := by
      linarith
    rw [if_pos hx] at hoff
    have ex : |b._max.x + p.x - (b._min.x + q.x)| < w := by
      rw [abs_of_nonneg (by linarith)]
      linarith
    rw [if_pos ex] at hoff
    rw [hoff]
    refine ⟨rfl, rfl, ?_, ?_⟩
    · intro hc
      have := congrArg Vec3.x hc
      simp only [Vec3.ZERO] at this
      linarith
    · simp only
      rw [show p.x + -(b._max.x + p.x - (b._min.x + q.x)) - q.x = -w by linarith, abs_neg,
        abs_of_pos hw]
  · have hx : ¬ (b._max.x + p.x - (b._min.x + q.x) < b._max.x + q.x - (b._min.x + p.x)) := by
      intro hc
      linarith
    rw [if_neg hx] at hoff
    have ex : |(-(b._max.x + q.x - (b._min.x + p.x)))| < w := by
      rw [abs_neg, abs_of_nonneg (by linarith)]
      linarith
    rw [if_pos ex] at hoff
    rw [hoff]
    refine ⟨rfl, rfl, ?_, ?_⟩
    · intro hc
      have := congrArg Vec3.x hc
      simp only [Vec3.ZERO] at this
      linarith
    · simp only
      rw [show p.x + - -(b._max.x + q.x - (b._min.x + p.x)) - q.x = w by linarith,
        abs_of_pos hw]

/-- The centre of a world box is the centre of the local box moved to the position. -/
theorem center_worldBoxAt (b : AABB) (p : Vec3) :
    (worldBoxAt b p).center = Vec3.add b.center p := by
  simp only [worldBoxAt, AABB.translate, AABB.center, Vec3.add, Vec3.mk.injEq]
  exact ⟨by ring, by ring, by ring⟩

/-- The push-out pass for two copies of a box with width equal to depth whose
positions differ on X only, by less than the width. -/
theorem pushOutStep_equal_boxes (self : CharacterCollider) (b : AABB) (p q : Vec3) (w : ℚ)
    (hy : b._min.y ≤ b._max.y) (hwx : b._max.x - b._min.x = w) (hwz : b._max.z - b._min.z = w)
    (hpy : p.y = q.y) (hpz : p.z = q.z) (h0 : 0 < |p.x - q.x|) (h1 : |p.x - q.x| < w) :
    (pushOutStep self p (worldBoxAt b p) (worldBoxAt b q)).2 =
      worldBoxAt b (pushOutStep self p (worldBoxAt b p) (worldBoxAt b q)).1 ∧
    |(pushOutStep self p (worldBoxAt b p) (worldBoxAt b q)).1.x - q.x| = w ∧
    (pushOutStep self p (worldBoxAt b p) (worldBoxAt b q)).1.y = p.y ∧
    (pushOutStep self p (worldBoxAt b p) (worldBoxAt b q)).1.z = p.z ∧
    |(pushOutStep self p (worldBoxAt b p) (worldBoxAt b q)).2.center.x -
        (worldBoxAt b q).center.x| = w ∧
    (pushOutStep self p (worldBoxAt b p) (worldBoxAt b q)).2.center.y =
      (worldBoxAt b p).center.y ∧
    (pushOutStep self p (worldBoxAt b p) (worldBoxAt b q)).2.center.z =
      (worldBoxAt b p).center.z := by
  obtain ⟨hint, oy, oz, hne, hsep⟩ :=
    getCollisionOffset_equal_boxes self b p q w hy hwx hwz hpy hpz h0 h1
  have hstep : pushOutStep self p (worldBoxAt b p) (worldBoxAt b q) =
      (p.add (self.getCollisionOffset (worldBoxAt b q) (some (worldBoxAt b p))),
        (worldBoxAt b p).translate
          (self.getCollisionOffset (worldBoxAt b q) (some (worldBoxAt b p)))) := by
    unfold pushOutStep
    simp only [hint, if_true]
    rw [if_pos hne]
  rw [hstep]
  generalize self.getCollisionOffset (worldBoxAt b q) (some (worldBoxAt b p)) = v at *
  have hbox : (worldBoxAt b p).translate v = worldBoxAt b (p.add v) := by
    simp only [worldBoxAt, AABB.translate, Vec3.add, AABB.mk.injEq, Vec3.mk.injEq]
    exact ⟨⟨by ring, by ring, by ring⟩, by ring, by ring, by ring⟩
  simp only [hbox, center_worldBoxAt]
  simp only [Vec3.add, oy, oz, add_zero, true_and]
  refine ⟨hsep, ?_⟩
  rw [show b.center.x + (p.x + v.x) - (b.center.x + q.x) = p.x + v.x - q.x by ring]
  exact ⟨hsep, trivial⟩

/-- C11: for two boxes of size 50 x 180 x 50 (local box `(-25,0,-25)..(25,180,25)`)
whose centres are 10 apart on X and coincide on Y and Z, one push-out pass of
`applyMovement` with `getCollisionOffset` leaves the centres at least 50 apart on X and
the source's Y and Z unchanged; and for two copies of any box whose width `w` equals its
depth, with an X-only centre offset `d`, `0 < d < w`, the X separation of the centres
after the pass is exactly `w` and the Y and Z components of the offset are 0. -/
theorem C11_equal_boxes_pushout (self : CharacterCollider) (b : AABB) (p q : Vec3) (w : ℚ)
    (hy : b._min.y ≤ b._max.y) (hwx : b._max.x - b._min.x = w) (hwz : b._max.z - b._min.z = w)
    (hcy : (worldBoxAt b p).center.y = (worldBoxAt b q).center.y)
    (hcz : (worldBoxAt b p).center.z = (worldBoxAt b q).center.z)
    (h0 : 0 < |(worldBoxAt b p).center.x - (worldBoxAt b q).center.x|)
    (h1 : |(worldBoxAt b p).center.x - (worldBoxAt b q).center.x| < w) :
    ((self.getCollisionOffset (worldBoxAt b q) (some (worldBoxAt b p))).y = 0 ∧
      (self.getCollisionOffset (worldBoxAt b q) (some (worldBoxAt b p))).z = 0 ∧
      |((worldBoxAt b p).translate
          (self.getCollisionOffset (worldBoxAt b q) (some (worldBoxAt b p)))).center.x -
        (worldBoxAt b q).center.x| = w ∧
      (pushOutStep self p (worldBoxAt b p) (worldBoxAt b q)).2 =
        (worldBoxAt b p).translate
          (self.getCollisionOffset (worldBoxAt b q) (some (worldBoxAt b p))) ∧
      |(pushOutStep self p (worldBoxAt b p) (worldBoxAt b q)).1.x - q.x| = w ∧
      (pushOutStep self p (worldBoxAt b p) (worldBoxAt b q)).1.y = p.y ∧
      (pushOutStep self p (worldBoxAt b p) (worldBoxAt b q)).1.z = p.z) ∧
    (∀ p0 q0 : Vec3, p0.y = q0.y → p0.z = q0.z → |p0.x - q0.x| = 10 →
      50 ≤ |(pushOutStep self p0 (worldBoxAt defaultBox p0)
          (worldBoxAt defaultBox q0)).2.center.x - (worldBoxAt defaultBox q0).center.x| ∧
      (pushOutStep self p0 (worldBoxAt defaultBox p0) (worldBoxAt defaultBox q0)).2.center.y =
        (worldBoxAt defaultBox p0).center.y ∧
      (pushOutStep self p0 (worldBoxAt defaultBox p0) (worldBoxAt defaultBox q0)).2.center.z =
        (worldBoxAt defaultBox p0).center.z ∧
      (pushOutStep self p0 (worldBoxAt defaultBox p0) (worldBoxAt defaultBox q0)).1.y = p0.y ∧
      (pushOutStep self p0 (worldBoxAt defaultBox p0) (worldBoxAt defaultBox q0)).1.z = p0.z) := by
  constructor
  · simp only [center_worldBoxAt, Vec3.add] at hcy hcz h0 h1
    have hpy : p.y = q.y := by linarith
    have hpz : p.z = q.z := by linarith
    rw [show b.center.x + p.x - (b.center.x + q.x) = p.x - q.x by ring] at h0 h1
    obtain ⟨hint, oy, oz, hne, hsep⟩ :=
      getCollisionOffset_equal_boxes self b p q w hy hwx hwz hpy hpz h0 h1
    obtain ⟨s1, s2, s3, s4, s5, _, _⟩ :=
      pushOutStep_equal_boxes self b p q w hy hwx hwz hpy hpz h0 h1
    have hstep : (pushOutStep self p (worldBoxAt b p) (worldBoxAt b q)).2 =
        (worldBoxAt b p).translate
          (self.getCollisionOffset (worldBoxAt b q) (some (worldBoxAt b p))) := by
      unfold pushOutStep
      simp only [hint, if_true]
      rw [if_pos hne]
    refine ⟨oy, oz, ?_, hstep, s2, s3, s4⟩
    rw [← hstep]
    exact s5
  · intro p0 q0 e1 e2 e3
    obtain ⟨_, _, s3, s4, s5, s6, s7⟩ :=
      pushOutStep_equal_boxes self defaultBox p0 q0 50 (by decide!) (by decide!) (by decide!)
        e1 e2 (by rw [e3]; norm_num) (by rw [e3]; norm_num)
    exact ⟨le_of_eq s5.symm, s6, s7, s3, s4⟩

/-- C11 at the default box with the source at `(10, 0, 0)` and the other box at the
origin: the offset is `(40, 0, 0)` and the corrected position is `(50, 0, 0)`. -/
theorem C11_equal_boxes_pushout_witness :
    (pushOutStep ⟨defaultBox, defaultBox⟩ ⟨10, 0, 0⟩ (worldBoxAt defaultBox ⟨10, 0, 0⟩)
        (worldBoxAt defaultBox ⟨0, 0, 0⟩)).1 = ⟨50, 0, 0⟩ ∧
    |(pushOutStep ⟨defaultBox, defaultBox⟩ ⟨10, 0, 0⟩ (worldBoxAt defaultBox ⟨10, 0, 0⟩)
        (worldBoxAt defaultBox ⟨0, 0, 0⟩)).1.x - (⟨0, 0, 0⟩ : Vec3).x| = 50 :=
  ⟨by decide!,
    (C11_equal_boxes_pushout ⟨defaultBox, defaultBox⟩ defaultBox ⟨10, 0, 0⟩ ⟨0, 0, 0⟩ 50
      (by decide!) (by decide!) (by decide!) (by decide!) (by decide!) (by decide!)
      (by decide!)).1.2.2.2.2.1⟩

/-- The shrink step on any box: for a factor in `(0, 1]` the X and Z extents are scaled
by the factor about the same centre and Y is kept; for a factor `>= 1` the box is
kept. -/
theorem shrinkXZ_spec (b : AABB) (f : ℚ) :
    (0 < f → f ≤ 1 →
      (shrinkXZ b f)._max.x - (shrinkXZ b f)._min.x = f * (b._max.x - b._min.x) ∧
      (shrinkXZ b f)._max.z - (shrinkXZ b f)._min.z = f * (b._max.z - b._min.z) ∧
      (shrinkXZ b f).center.x = b.center.x ∧ (shrinkXZ b f).center.z = b.center.z ∧
      (shrinkXZ b f)._min.y = b._min.y ∧ (shrinkXZ b f)._max.y = b._max.y) ∧
    (1 ≤ f → shrinkXZ b f = b) := by
  constructor
  · intro h0 h1
    rcases lt_or_eq_of_le h1 with hlt | heq
    · have hc : f < 1 ∧ f > 0 := ⟨hlt, h0⟩
      simp only [shrinkXZ, if_pos hc, AABB.center]
      exact ⟨by ring, by ring, by ring, by ring, trivial, trivial⟩
    · have hc : ¬ (f < 1 ∧ f > 0) := fun h => absurd h.1 (by rw [heq]; exact lt_irrefl _)
      have hs : shrinkXZ b f = b := by simp only [shrinkXZ, if_neg hc]
      rw [hs, heq]
      simp only [one_mul, and_self]
  · intro h1
    have hc : ¬ (f < 1 ∧ f > 0) := fun h => absurd h.1 (not_lt.mpr h1)
    simp only [shrinkXZ, if_neg hc]

/-- On a model whose box is not degenerate on X, `calculateBoundingBox` is the shrink
step applied to that box. -/
theorem calculateBoundingBox_of_nondegenerate (self : CharacterCollider) (model : Sprite3D)
    (f : ℚ) (hnd : model.aabb._min.x < model.aabb._max.x) :
    (self.calculateBoundingBox (some model) f).aabb = shrinkXZ model.aabb f := by
  have h : ¬ (model.aabb._min.x ≥ model.aabb._max.x) := not_le.mpr hnd
  simp only [CharacterCollider.calculateBoundingBox, if_neg h]

/-- C12: for every model whose local box is not degenerate and every shrink factor `f`
with `0 < f <= 1`, the box stored by `calculateBoundingBox` has X and Z extents equal to
`f` times those of the model box, the X and Z centre of the model box, and its Y minimum
and maximum; for every `f >= 1` the stored box is the model box. -/
theorem C12_shrink_invariant (self : CharacterCollider) (model : Sprite3D) (f : ℚ)
    (hnd : model.aabb._min.x < model.aabb._max.x) :
    (0 < f → f ≤ 1 →
      (self.calculateBoundingBox (some model) f).aabb._max.x -
          (self.calculateBoundingBox (some model) f).aabb._min.x =
        f * (model.aabb._max.x - model.aabb._min.x) ∧
      (self.calculateBoundingBox (some model) f).aabb._max.z -
          (self.calculateBoundingBox (some model) f).aabb._min.z =
        f * (model.aabb._max.z - model.aabb._min.z) ∧
      (self.calculateBoundingBox (some model) f).aabb.center.x = model.aabb.center.x ∧
      (self.calculateBoundingBox (some model) f).aabb.center.z = model.aabb.center.z ∧
      (self.calculateBoundingBox (some model) f).aabb._min.y = model.aabb._min.y ∧
      (self.calculateBoundingBox (some model) f).aabb._max.y = model.aabb._max.y) ∧
    (1 ≤ f → (self.calculateBoundingBox (some model) f).aabb = model.aabb) := by
  rw [calculateBoundingBox_of_nondegenerate self model f hnd]
  exact shrinkXZ_spec model.aabb f

/-- C12 at the box `(-20,0,-10)..(20,170,30)` with factor 2/5: the stored box is
`(-8,0,2)..(8,170,18)`, of X extent `2/5 * 40`. -/
theorem C12_shrink_invariant_witness :
    ((⟨defaultBox, defaultBox⟩ : CharacterCollider).calculateBoundingBox
        (some ⟨modelBox, []⟩) (2 / 5)).aabb = ⟨⟨-8, 0, 2⟩, ⟨8, 170, 18⟩⟩ ∧
    ((⟨defaultBox, defaultBox⟩ : CharacterCollider).calculateBoundingBox
        (some ⟨modelBox, []⟩) (2 / 5)).aabb._max.x -
      ((⟨defaultBox, defaultBox⟩ : CharacterCollider).calculateBoundingBox
        (some ⟨modelBox, []⟩) (2 / 5)).aabb._min.x =
      2 / 5 * (modelBox._max.x - modelBox._min.x) :=
  ⟨by decide!,
    ((C12_shrink_invariant ⟨defaultBox, defaultBox⟩ ⟨modelBox, []⟩ (2 / 5) (by decide!)).1
      (by decide!) (by decide!)).1⟩

/-! ### Claims about `StateMachine` -/

theorem changeStatePtr_none (sm : StateMachine) : sm.changeStatePtr none = sm := rfl

theorem changeStatePtr_current (sm : StateMachine) :
    sm.changeStatePtr sm.currentState = sm := by
  unfold StateMachine.changeStatePtr
  cases h : sm.currentState with
  | none => rfl
  | some c => simp

/-- A pointer change to a state other than the current one, from a non-null current
state. -/
theorem changeStatePtr_of_ne {sm : StateMachine} {a b : Nat} (hc : sm.currentState = some a)
    (hne : b ≠ a) :
    sm.changeStatePtr (some b) =
      { sm with previousState := some a, currentState := some b,
                trace := sm.trace ++ [FsmEvent.onExit a, FsmEvent.onEnter b] } := by
  unfold StateMachine.changeStatePtr
  simp only [hc, Option.some.injEq, hne, if_false]

/-- A pointer change from the null current state. -/
theorem changeStatePtr_of_null {sm : StateMachine} (b : Nat) (hc : sm.currentState = none) :
    sm.changeStatePtr (some b) =
      { sm with currentState := some b, trace := sm.trace ++ [FsmEvent.onEnter b] } := by
  unfold StateMachine.changeStatePtr
  simp [hc]

theorem lookup_eq_none_of_not_mem {β : Type} (m : List (String × β)) (key : String)
    (h : key ∉ m.map Prod.fst) : m.lookup key = none := by
  induction m with
  | nil => rfl
  | cons kv rest ih =>
    obtain ⟨k, v⟩ := kv
    simp only [List.map_cons, List.mem_cons, not_or] at h
    have hk : (key == k) = false := by simpa using h.1
    simp only [List.lookup, hk]
    exact ih h.2

/-- C13: for a registered name `X` whose state `s` is not the current state, two
consecutive calls `changeState(X)` invoke `onEnter` of `s` exactly once in total: the
second call changes nothing (no `onExit`, no `onEnter`, current and previous state
unchanged).  So do `changeState` with a null pointer and with the pointer of the
current state. -/
theorem C13_changeState_twice (sm : StateMachine) (X : String) (s : Nat)
    (hreg : sm.states.lookup X = some s) (hne : sm.currentState ≠ some s) :
    (sm.changeState X).changeState X = sm.changeState X ∧
    ((sm.changeState X).changeState X).trace = (sm.changeState X).trace ∧
    ((sm.changeState X).changeState X).currentState = some s ∧
    ((sm.changeState X).changeState X).previousState = (sm.changeState X).previousState ∧
    countEnter s (((sm.changeState X).changeState X).trace.drop sm.trace.length) = 1 ∧
    sm.changeStatePtr none = sm ∧ sm.changeStatePtr sm.currentState = sm := by
  have h1 : (sm.changeState X).states = sm.states := by
    unfold StateMachine.changeState StateMachine.changeStatePtr
    simp only [hreg]
    split_ifs
    · rfl
    · cases sm.currentState <;> rfl
  have h2 : (sm.changeState X).currentState = some s := by
    unfold StateMachine.changeState StateMachine.changeStatePtr
    simp only [hreg]
    rw [if_neg (fun h => hne h.symm)]
    cases sm.currentState <;> rfl
  have h3 : (sm.changeState X).changeState X = sm.changeState X := by
    have : (sm.changeState X).changeState X =
        (sm.changeState X).changeStatePtr (sm.changeState X).currentState := by
      rw [h2]
      show (match (sm.changeState X).states.lookup X with
        | none => sm.changeState X
        | some s => (sm.changeState X).changeStatePtr (some s)) = _
      rw [h1, hreg]
    rw [this, changeStatePtr_current]
  refine ⟨h3, by rw [h3], by rw [h3]; exact h2, by rw [h3], ?_,
    changeStatePtr_none sm, changeStatePtr_current sm⟩
  rw [h3]
  unfold StateMachine.changeState
  simp only [hreg]
  cases hc : sm.currentState with
  | none =>
    rw [changeStatePtr_of_null s hc]
    simp [countEnter]
  | some c =>
    have hsc : s ≠ c := fun e => hne (by rw [hc, e])
    rw [changeStatePtr_of_ne hc hsc]
    simp [countEnter]

/-- C13 on a machine with the state 7 registered as `Chase` and state 3 current. -/
theorem C13_changeState_twice_witness :
    countEnter 7
      ((((⟨some 3, none, [("Chase", 7)], [FsmEvent.onEnter 3]⟩ : StateMachine).changeState
        "Chase").changeState "Chase").trace.drop 1) = 1 :=
  (C13_changeState_twice ⟨some 3, none, [("Chase", 7)], [FsmEvent.onEnter 3]⟩ "Chase" 7
    (by decide) (by decide)).2.2.2.2.1

/-- C14: `changeState(name)` with a name that is not a key of the registered-state map
leaves the current state, the previous state and the map unchanged and invokes no
callback. -/
theorem C14_changeState_unregistered (sm : StateMachine) (name : String)
    (h : name ∉ sm.states.map Prod.fst) :
    sm.changeState name = sm ∧
    (sm.changeState name).currentState = sm.currentState ∧
    (sm.changeState name).previousState = sm.previousState ∧
    (sm.changeState name).trace = sm.trace := by
  have e : sm.changeState name = sm := by
    unfold StateMachine.changeState
    rw [lookup_eq_none_of_not_mem sm.states name h]
  rw [e]
  exact ⟨rfl, rfl, rfl, rfl⟩

/-- C14 on a machine that knows `Chase` only. -/
theorem C14_changeState_unregistered_witness :
    (⟨some 3, none, [("Chase", 7)], [FsmEvent.onEnter 3]⟩ : StateMachine).changeState "Fly" =
      ⟨some 3, none, [("Chase", 7)], [FsmEvent.onEnter 3]⟩ :=
  (C14_changeState_unregistered ⟨some 3, none, [("Chase", 7)], [FsmEvent.onEnter 3]⟩ "Fly"
    (by decide)).1

/-- C15: with non-null current state `A` and a non-null state `B` different from `A`,
`changeState(B)` invokes exactly `A.onExit` and then `B.onEnter`, each once, and makes
`B` current and `A` previous; `revertToPreviousState()` then invokes `B.onExit` and
`A.onEnter` and makes `A` current and `B` previous. -/
theorem C15_changeState_protocol (sm : StateMachine) (A B : Nat)
    (hc : sm.currentState = some A) (hne : B ≠ A) :
    (sm.changeStatePtr (some B)).trace =
      sm.trace ++ [FsmEvent.onExit A, FsmEvent.onEnter B] ∧
    (sm.changeStatePtr (some B)).currentState = some B ∧
    (sm.changeStatePtr (some B)).previousState = some A ∧
    (sm.changeStatePtr (some B)).revertToPreviousState.currentState = some A ∧
    (sm.changeStatePtr (some B)).revertToPreviousState.previousState = some B ∧
    (sm.changeStatePtr (some B)).revertToPreviousState.trace =
      sm.trace ++ [FsmEvent.onExit A, FsmEvent.onEnter B, FsmEvent.onExit B,
        FsmEvent.onEnter A] := by
  rw [changeStatePtr_of_ne hc hne]
  refine ⟨rfl, rfl, rfl, ?_⟩
  unfold StateMachine.revertToPreviousState
  simp only
  rw [changeStatePtr_of_ne rfl (Ne.symm hne)]
  simp

/-- C15 with `A = 3` and `B = 7`. -/
theorem C15_changeState_protocol_witness :
    ((⟨some 3, none, [], [FsmEvent.onEnter 3]⟩ : StateMachine).changeStatePtr (some 7)).trace =
      [FsmEvent.onEnter 3] ++ [FsmEvent.onExit 3, FsmEvent.onEnter 7] :=
  (C15_changeState_protocol ⟨some 3, none, [], [FsmEvent.onEnter 3]⟩ 3 7 rfl (by decide)).1


theorem traceActive_append (a : Option Nat) (t1 t2 : List FsmEvent) :
    traceActive a (t1 ++ t2) = (traceActive a t1).bind (fun b => traceActive b t2) := by
  induction t1 generalizing a with
  | nil => rfl
  | cons e rest ih =>
    cases e with
    | onEnter s =>
      simp only [List.cons_append, traceActive]
      split_ifs
      · exact ih _
      · rfl
    | onExit s =>
      simp only [List.cons_append, traceActive]
      split_ifs
      · exact ih _
      · rfl
    | onUpdate s dt =>
      simp only [List.cons_append, traceActive]
      split_ifs
      · exact ih _
      · rfl

theorem changeStatePtr_invariant {sm : StateMachine} (h : fsmInvariant sm) (p : Option Nat) :
    fsmInvariant (sm.changeStatePtr p) := by
  obtain ⟨h1, h2, h3⟩ := h
  cases p with
  | none => exact ⟨h1, h2, h3⟩
  | some n =>
    cases hc : sm.currentState with
    | none => exact absurd hc h1
    | some c =>
      by_cases hn : n = c
      · have e : sm.changeStatePtr (some n) = sm := by
          rw [hn, ← hc]
          exact changeStatePtr_current sm
        rw [e]
        exact ⟨h1, h2, h3⟩
      · rw [changeStatePtr_of_ne hc hn]
        refine ⟨by simp, ?_, ?_⟩
        · simp only [ne_eq, Option.some.injEq]
          exact fun e => hn e.symm
        · simp only
          rw [traceActive_append, h3, hc]
          simp [traceActive]

theorem apply_invariant (nameOf : Nat → String) {sm : StateMachine} (h : fsmInvariant sm)
    (call : FsmCall) : fsmInvariant (call.apply nameOf sm) := by
  cases call with
  | registerState st =>
    cases st with
    | none => exact h
    | some s => exact h
  | changeState n =>
    show fsmInvariant (sm.changeState n)
    unfold StateMachine.changeState
    cases sm.states.lookup n with
    | none => exact h
    | some s => exact changeStatePtr_invariant h _
  | changeStatePtr p => exact changeStatePtr_invariant h p
  | revertToPreviousState =>
    show fsmInvariant sm.revertToPreviousState
    unfold StateMachine.revertToPreviousState
    cases sm.previousState with
    | none => exact h
    | some p => exact changeStatePtr_invariant h _
  | update dt =>
    obtain ⟨h1, h2, h3⟩ := h
    show fsmInvariant (sm.update dt)
    unfold StateMachine.update
    cases hc : sm.currentState with
    | none => exact absurd hc h1
    | some c =>
      refine ⟨by simp [hc], by simpa [hc] using h2, ?_⟩
      simp only
      rw [traceActive_append, h3, hc]
      simp [traceActive]

theorem runCalls_invariant (nameOf : Nat → String) {sm : StateMachine} (h : fsmInvariant sm)
    (calls : List FsmCall) : fsmInvariant (runCalls nameOf sm calls) := by
  induction calls generalizing sm with
  | nil => exact h
  | cons c cs ih => exact ih (apply_invariant nameOf h c)

/-- C16: once a machine has a non-null current state, after `init` with a non-null
state on a fresh machine (with any states registered) or after the first successful
`changeState`, every sequence of `registerState`, `changeState` (by name or by pointer,
null and unregistered names included), `revertToPreviousState` and `update` calls keeps
the current state non-null and the previous state, when non-null, different from it;
the trace stays well bracketed (`onEnter(S)` is followed by `onExit(S)` before the next
`onEnter`, and `onUpdate` goes to the state entered last) and ends with the current
state active. -/
theorem C16_one_active_state (nameOf : Nat → String) (sm : StateMachine) (s : Nat)
    (calls : List FsmCall)
    (hstart : sm.currentState = none ∧ sm.previousState = none ∧ sm.trace = []) :
    (∀ sm1, (sm1 = sm.init (some s) ∨ sm1 = sm.changeStatePtr (some s) ∨
        (∃ name, sm.states.lookup name = some s ∧ sm1 = sm.changeState name)) →
      (runCalls nameOf sm1 calls).currentState ≠ none ∧
      ((runCalls nameOf sm1 calls).previousState ≠ none →
        (runCalls nameOf sm1 calls).previousState ≠ (runCalls nameOf sm1 calls).currentState) ∧
      traceActive none (runCalls nameOf sm1 calls).trace =
        some (runCalls nameOf sm1 calls).currentState) := by
  obtain ⟨h1, h2, h3⟩ := hstart
  have hinit : fsmInvariant (sm.init (some s)) := by
    refine ⟨by simp [StateMachine.init], by simp [StateMachine.init, h2], ?_⟩
    simp [StateMachine.init, h3, traceActive]
  have hptr : fsmInvariant (sm.changeStatePtr (some s)) := by
    rw [changeStatePtr_of_null s h1]
    refine ⟨by simp, by simp [h2], ?_⟩
    simp [h3, traceActive]
  intro sm1 hsm1
  have hinv : fsmInvariant sm1 := by
    rcases hsm1 with rfl | rfl | ⟨name, hl, rfl⟩
    · exact hinit
    · exact hptr
    · unfold StateMachine.changeState
      rw [hl]
      exact hptr
  obtain ⟨k1, k2, k3⟩ := runCalls_invariant nameOf hinv calls
  exact ⟨k1, fun _ => k2, k3⟩

/-- C16 on a machine started in state 3, with 7 registered as `Chase`: after a change
to `Chase`, an update, a revert, an unregistered name and a null pointer, state 3 is
current and the trace is well bracketed. -/
theorem C16_one_active_state_witness :
    (runCalls (fun _ => "Chase")
      ((⟨none, none, [("Chase", 7)], []⟩ : StateMachine).init (some 3))
      [FsmCall.changeState "Chase", FsmCall.update 1, FsmCall.revertToPreviousState,
        FsmCall.changeState "Fly", FsmCall.changeStatePtr none]).currentState ≠ none :=
  (C16_one_active_state (fun _ => "Chase") ⟨none, none, [("Chase", 7)], []⟩ 3
    [FsmCall.changeState "Chase", FsmCall.update 1, FsmCall.revertToPreviousState,
      FsmCall.changeState "Fly", FsmCall.changeStatePtr none] ⟨rfl, rfl, rfl⟩ _
    (Or.inl rfl)).1


/-! ### Claims about `BossAI` -/

theorem mapGet_mapSet (m : List (String × ℚ)) (k k2 : String) (v : ℚ) :
    mapGet (mapSet m k v) k2 = if k2 = k then v else mapGet m k2 := by
  induction m with
  | nil =>
    by_cases h : k2 = k
    · simp [mapSet, mapGet, List.lookup, h]
    · have : (k2 == k) = false := by simpa using h
      simp [mapSet, mapGet, List.lookup, h, this]
  | cons kv rest ih =>
    obtain ⟨a, b⟩ := kv
    unfold mapGet at ih ⊢
    by_cases hak : a = k
    · subst hak
      by_cases h : k2 = a
      · simp [mapSet, List.lookup, h]
      · have : (k2 == a) = false := by simpa using h
        simp [mapSet, List.lookup, h, this]
    · by_cases h : k2 = a
      · subst h
        have hne : ¬ k2 = k := hak
        simp [mapSet, List.lookup, hak, hne]
      · have h1 : (k2 == a) = false := by simpa using h
        simp only [mapSet, hak, if_false, List.lookup, h1]
        exact ih

theorem mem_mapSet {m : List (String × ℚ)} {k : String} {v : ℚ} {kv : String × ℚ}
    (h : kv ∈ mapSet m k v) : kv ∈ m ∨ kv = (k, v) := by
  induction m with
  | nil =>
    simp only [mapSet, List.mem_singleton] at h
    exact Or.inr h
  | cons e rest ih =>
    obtain ⟨a, b⟩ := e
    by_cases hak : a = k
    · simp only [mapSet, hak, if_true, List.mem_cons] at h
      rcases h with h | h
      · exact Or.inr h
      · exact Or.inl (List.mem_cons_of_mem _ h)
    · simp only [mapSet, hak, if_false, List.mem_cons] at h
      rcases h with h | h
      · exact Or.inl (h ▸ List.mem_cons_self _ _)
      · rcases ih h with h | h
        · exact Or.inl (List.mem_cons_of_mem _ h)
        · exact Or.inr h

theorem mapGet_mapTouch (m : List (String × ℚ)) (k k2 : String) :
    mapGet (mapTouch m k) k2 = mapGet m k2 := by
  unfold mapTouch
  cases h : m.lookup k with
  | some v => rfl
  | none =>
    simp only
    rw [mapGet_mapSet]
    split_ifs with e
    · subst e
      simp [mapGet, h]
    · rfl

theorem mem_mapTouch {m : List (String × ℚ)} {k : String} {kv : String × ℚ}
    (h : kv ∈ mapTouch m k) : kv ∈ m ∨ kv = (k, 0) := by
  unfold mapTouch at h
  cases hl : m.lookup k with
  | some v =>
    rw [hl] at h
    exact Or.inl h
  | none =>
    rw [hl] at h
    exact mem_mapSet h

theorem mapGet_mem_or_zero (m : List (String × ℚ)) (k : String) :
    mapGet m k = 0 ∨ (k, mapGet m k) ∈ m := by
  induction m with
  | nil => exact Or.inl rfl
  | cons e rest ih =>
    obtain ⟨a, b⟩ := e
    by_cases h : k = a
    · subst h
      right
      simp [mapGet, List.lookup]
    · have h1 : (k == a) = false := by simpa using h
      have e : mapGet ((a, b) :: rest) k = mapGet rest k := by
        simp [mapGet, List.lookup, h1]
      rw [e]
      rcases ih with h2 | h2
      · exact Or.inl h2
      · exact Or.inr (List.mem_cons_of_mem _ h2)

theorem mapGet_decrement (m : List (String × ℚ)) (dt : ℚ) (k : String)
    (hk : k ∈ m.map Prod.fst) :
    mapGet (decrementCooldowns m dt) k = max 0 (mapGet m k - dt) := by
  induction m with
  | nil => simp at hk
  | cons e rest ih =>
    obtain ⟨a, b⟩ := e
    by_cases h : k = a
    · subst h
      simp [mapGet, decrementCooldowns, List.lookup]
    · have h1 : (k == a) = false := by simpa using h
      simp only [List.map_cons, List.mem_cons, h, false_or] at hk
      have := ih hk
      simp only [mapGet, decrementCooldowns, List.map_cons, List.lookup, h1] at this ⊢
      exact this

theorem decrement_nonneg {m : List (String × ℚ)} {dt : ℚ} {kv : String × ℚ}
    (h : kv ∈ decrementCooldowns m dt) : 0 ≤ kv.2 := by
  simp only [decrementCooldowns, List.mem_map] at h
  obtain ⟨e, _, rfl⟩ := h
  exact le_max_left _ _

theorem mapGet_nonneg {m : List (String × ℚ)} (h : ∀ kv ∈ m, 0 ≤ kv.2) (k : String) :
    0 ≤ mapGet m k := by
  rcases mapGet_mem_or_zero m k with h0 | h1
  · rw [h0]
  · exact h _ h1

theorem decrement_keys (m : List (String × ℚ)) (dt : ℚ) :
    (decrementCooldowns m dt).map Prod.fst = m.map Prod.fst := by
  simp [decrementCooldowns, List.map_map, Function.comp_def]

/-- C17: for a living, non-busy Boss in phase 1 with health ratio at most 0.5 (0.5
included) and an enabled AI, a tick on which the accumulated think time reaches the
think interval sets the phase to 2 and requests `PhaseChange` only; no pending skill is
set, the cooldowns are only decremented, and neither `Attack` nor `Chase` is
requested, at every distance to the target. -/
theorem C17_phase_change_first (ai : BossAI) (boss : Boss) (dt : ℚ) (draw : ℚ → ℚ)
    (hen : ai.enabled = true) (hdead : boss.dead = false) (hbusy : boss.busy = false)
    (hphase : boss.phase = 1) (hratio : boss.healthRatio ≤ 1 / 2)
    (htime : ai.thinkInterval ≤ ai.thinkTimer + dt) :
    (ai.update boss dt draw).boss.phase = 2 ∧
    (ai.update boss dt draw).requests = ["PhaseChange"] ∧
    (ai.update boss dt draw).boss.pendingSkill = boss.pendingSkill ∧
    (ai.update boss dt draw).ai.cdLeft = decrementCooldowns ai.cdLeft dt ∧
    (ai.update boss dt draw).ai.thinkTimer = 0 ∧
    (ai.update boss dt draw).boss = boss.setPhase 2 := by
  have hb : boss.isBusy = false := by simp [Boss.isBusy, hdead, hbusy]
  unfold BossAI.update
  simp only [hen, Bool.not_true, Bool.false_eq_true, if_false, hdead, hb,
    not_lt.mpr htime, hphase, hratio, and_self, if_true]
  simp [Boss.setPhase]

/-- C17 at health ratio exactly 0.5, with the target 700 units away. -/
theorem C17_phase_change_first_witness :
    (BossAI.new.update { sampleBoss 700 with healthRatio := 1 / 2 } (1 / 10)
      (fun s => s / 2)).requests = ["PhaseChange"] :=
  (C17_phase_change_first BossAI.new { sampleBoss 700 with healthRatio := 1 / 2 } (1 / 10)
    (fun s => s / 2) rfl rfl rfl rfl (by decide!) (by decide!)).2.1


theorem collectStep_spec (phase : Int) (dist : ℚ) (m0 : List (String × ℚ))
    (h0 : ∀ k, 0 ≤ mapGet m0 k) (acc : List BossAISkill × List (String × ℚ))
    (hacc : ∀ k, mapGet acc.2 k = mapGet m0 k) (s : BossAISkill) :
    (collectStep phase dist acc s).1 =
      acc.1 ++ (if eligible phase dist m0 s then [s] else []) ∧
    ∀ k, mapGet (collectStep phase dist acc s).2 k = mapGet m0 k := by
  unfold collectStep eligible
  by_cases h1 : Int.land s.phaseMask phase = 0
  · simp [h1, hacc]
  · by_cases h2 : dist < s.rangeMin ∨ dist > s.rangeMax
    · have : ¬ (s.rangeMin ≤ dist ∧ dist ≤ s.rangeMax ∧ mapGet m0 s.name = 0) := by
        rintro ⟨a, b, _⟩
        rcases h2 with h | h
        · exact absurd a (not_le.mpr h)
        · exact absurd b (not_le.mpr h)
      simp [h1, h2, this, hacc]
    · have h2' : s.rangeMin ≤ dist ∧ dist ≤ s.rangeMax := by
        push_neg at h2
        exact h2
      by_cases h3 : mapGet acc.2 s.name > 0
      · have : ¬ mapGet m0 s.name = 0 := by
          rw [← hacc]
          exact ne_of_gt h3
        simp only [h1, h2, h3, if_false, if_true, this, and_false, decide_False,
          Bool.false_eq_true, List.append_nil, true_and]
        intro k
        rw [mapGet_mapTouch, hacc]
      · have : mapGet m0 s.name = 0 := by
          have := h0 s.name
          rw [hacc] at h3
          exact le_antisymm (not_lt.mp h3) this
        simp only [h1, h2, h3, if_false, this, h2'.1, h2'.2, ne_eq, not_false_eq_true,
          and_self, decide_True, if_true, true_and]
        intro k
        rw [mapGet_mapTouch, hacc]

theorem collect_fold (phase : Int) (dist : ℚ) (m0 : List (String × ℚ))
    (h0 : ∀ k, 0 ≤ mapGet m0 k) (skills : List BossAISkill)
    (acc : List BossAISkill × List (String × ℚ))
    (hacc : ∀ k, mapGet acc.2 k = mapGet m0 k) :
    (skills.foldl (collectStep phase dist) acc).1 =
      acc.1 ++ skills.filter (eligible phase dist m0) ∧
    ∀ k, mapGet (skills.foldl (collectStep phase dist) acc).2 k = mapGet m0 k := by
  induction skills generalizing acc with
  | nil => simp [hacc]
  | cons s rest ih =>
    obtain ⟨e1, e2⟩ := collectStep_spec phase dist m0 h0 acc hacc s
    obtain ⟨i1, i2⟩ := ih (collectStep phase dist acc s) e2
    simp only [List.foldl_cons]
    refine ⟨?_, i2⟩
    rw [i1, e1]
    by_cases he : eligible phase dist m0 s = true
    · simp [he, List.filter_cons]
    · simp [he, List.filter_cons]

/-- The candidates collected by `update` are the eligible skills, in table order, and
the reads of the cooldown map do not change any cooldown. -/
theorem collectCandidates_spec (skills : List BossAISkill) (phase : Int) (dist : ℚ)
    (m0 : List (String × ℚ)) (h0 : ∀ k, 0 ≤ mapGet m0 k) :
    (collectCandidates skills phase dist m0).1 = skills.filter (eligible phase dist m0) ∧
    ∀ k, mapGet (collectCandidates skills phase dist m0).2 k = mapGet m0 k := by
  have := collect_fold phase dist m0 h0 skills ([], m0) (fun _ => rfl)
  simpa [collectCandidates] using this

theorem pickLoop_lt {l : List BossAISkill} {r : ℚ} {i j : Nat}
    (h : pickLoop l r i = some j) : i ≤ j ∧ j < i + l.length := by
  induction l generalizing r i with
  | nil => simp [pickLoop] at h
  | cons s rest ih =>
    unfold pickLoop at h
    split_ifs at h with hr
    · cases h
      simp
    · have := ih h
      simp only [List.length_cons]
      omega

theorem pickIndex_lt (draw : ℚ → ℚ) {cands : List BossAISkill} (hne : cands ≠ []) :
    pickIndex draw cands < cands.length := by
  have hpos : 0 < cands.length := List.length_pos.mpr hne
  unfold pickIndex
  split_ifs
  · exact hpos
  · cases h : pickLoop cands (draw (weightSum cands)) 0 with
    | none => simp only; omega
    | some j =>
      have := pickLoop_lt h
      simp only
      omega

/-- The skill returned by `pickByWeight` is one of the candidates. -/
theorem pickByWeight_mem (draw : ℚ → ℚ) {cands : List BossAISkill} (hne : cands ≠ []) :
    ∃ s ∈ cands, pickByWeight draw cands = some s := by
  have hlt := pickIndex_lt draw hne
  refine ⟨cands[pickIndex draw cands], List.getElem_mem _, ?_⟩
  unfold pickByWeight
  exact List.getElem?_eq_getElem hlt

/-- The outcome of skill selection on the candidate list `cands`. -/
theorem selectSkill_spec (ai : BossAI) (boss : Boss) (draw : ℚ → ℚ)
    (h0 : ∀ k, 0 ≤ mapGet ai.cdLeft k) :
    ((ai.skills.filter (eligible boss.phase boss.distanceToPlayer ai.cdLeft) ≠ [] →
      (selectSkill ai boss draw).requests = ["Attack"] ∧
      ∃ s ∈ ai.skills.filter (eligible boss.phase boss.distanceToPlayer ai.cdLeft),
        (selectSkill ai boss draw).boss = boss.setPendingSkill s.name ∧
        (selectSkill ai boss draw).ai.cdLeft =
          mapSet (collectCandidates ai.skills boss.phase boss.distanceToPlayer ai.cdLeft).2
            s.name s.cd) ∧
    (ai.skills.filter (eligible boss.phase boss.distanceToPlayer ai.cdLeft) = [] →
      (selectSkill ai boss draw).requests = ["Chase"] ∧
      (selectSkill ai boss draw).boss = boss ∧
      (selectSkill ai boss draw).ai.cdLeft =
        (collectCandidates ai.skills boss.phase boss.distanceToPlayer ai.cdLeft).2)) ∧
    (selectSkill ai boss draw).ai.skills = ai.skills ∧
    (selectSkill ai boss draw).ai.enabled = ai.enabled ∧
    (selectSkill ai boss draw).ai.thinkTimer = ai.thinkTimer ∧
    (selectSkill ai boss draw).ai.thinkInterval = ai.thinkInterval := by
  obtain ⟨hc, _⟩ := collectCandidates_spec ai.skills boss.phase boss.distanceToPlayer
    ai.cdLeft h0
  unfold selectSkill
  simp only
  rw [hc]
  generalize ai.skills.filter (eligible boss.phase boss.distanceToPlayer ai.cdLeft) = cands
  cases hleap : (if boss.phase = 2 ∧ boss.distanceToPlayer > M 6 then
      cands.find? (fun s => decide (s.name = "LeapSlam")) else none) with
  | some s =>
    simp only
    have hfind : cands.find? (fun s => decide (s.name = "LeapSlam")) = some s := by
      split_ifs at hleap
      exact hleap
    have hmem : s ∈ cands := List.mem_of_find?_eq_some hfind
    have hname : s.name = "LeapSlam" := by
      have := List.find?_some hfind
      simpa using this
    refine ⟨⟨fun _ => ⟨trivial, s, hmem, ?_, ?_⟩, fun he => ?_⟩, trivial, trivial, trivial,
      trivial⟩
    · rw [hname]
    · rw [hname]
    · rw [he] at hmem
      cases hmem
  | none =>
    simp only
    by_cases hne : cands = []
    · subst hne
      simp [pickByWeight]
    · obtain ⟨s, hs, hp⟩ := pickByWeight_mem draw hne
      rw [hp]
      simp only
      exact ⟨⟨fun _ => ⟨trivial, s, hs, rfl, rfl⟩, fun he => absurd he hne⟩, trivial, trivial,
        trivial, trivial⟩


/-- A tick that reaches skill selection: the result is that of `selectSkill` on the
AI with decremented cooldowns and the think timer reset. -/
theorem update_select (ai : BossAI) (boss : Boss) (dt : ℚ) (draw : ℚ → ℚ)
    (hen : ai.enabled = true) (hdead : boss.dead = false) (hbusy : boss.busy = false)
    (htime : ai.thinkInterval ≤ ai.thinkTimer + dt)
    (hno : ¬ (boss.phase = 1 ∧ boss.healthRatio ≤ 1 / 2)) :
    ai.update boss dt draw =
      selectSkill { ai with cdLeft := decrementCooldowns ai.cdLeft dt, thinkTimer := 0 }
        boss draw := by
  have hb : boss.isBusy = false := by simp [Boss.isBusy, hdead, hbusy]
  unfold BossAI.update
  simp only [hen, Bool.not_true, Bool.false_eq_true, if_false, hdead, hb,
    not_lt.mpr htime, hno]

theorem decrement_mapGet_nonneg (m : List (String × ℚ)) (dt : ℚ) (k : String) :
    0 ≤ mapGet (decrementCooldowns m dt) k :=
  mapGet_nonneg (fun _ h => decrement_nonneg h) k

/-- C18: on a decision tick that reaches skill selection, the candidates are exactly
the skills `s` with `(s.phaseMask & phase) != 0`, `s.rangeMin <= distance <= s.rangeMax`
and remaining cooldown 0; `Attack` is requested, with a candidate as pending skill, if
and only if there is a candidate; with no candidate the tick requests `Chase` and
leaves the pending skill alone. -/
theorem C18_candidates_and_decision (ai : BossAI) (boss : Boss) (dt : ℚ) (draw : ℚ → ℚ)
    (hen : ai.enabled = true) (hdead : boss.dead = false) (hbusy : boss.busy = false)
    (htime : ai.thinkInterval ≤ ai.thinkTimer + dt)
    (hno : ¬ (boss.phase = 1 ∧ boss.healthRatio ≤ 1 / 2)) :
    (∀ s, s ∈ (collectCandidates ai.skills boss.phase boss.distanceToPlayer
          (decrementCooldowns ai.cdLeft dt)).1 ↔
        s ∈ ai.skills ∧ Int.land s.phaseMask boss.phase ≠ 0 ∧
          s.rangeMin ≤ boss.distanceToPlayer ∧ boss.distanceToPlayer ≤ s.rangeMax ∧
          mapGet (decrementCooldowns ai.cdLeft dt) s.name = 0) ∧
    ((ai.update boss dt draw).requests = ["Attack"] ↔
      (collectCandidates ai.skills boss.phase boss.distanceToPlayer
        (decrementCooldowns ai.cdLeft dt)).1 ≠ []) ∧
    ((collectCandidates ai.skills boss.phase boss.distanceToPlayer
        (decrementCooldowns ai.cdLeft dt)).1 ≠ [] →
      ∃ s ∈ (collectCandidates ai.skills boss.phase boss.distanceToPlayer
          (decrementCooldowns ai.cdLeft dt)).1,
        (ai.update boss dt draw).boss = boss.setPendingSkill s.name) ∧
    ((collectCandidates ai.skills boss.phase boss.distanceToPlayer
        (decrementCooldowns ai.cdLeft dt)).1 = [] →
      (ai.update boss dt draw).requests = ["Chase"] ∧ (ai.update boss dt draw).boss = boss) := by
  rw [update_select ai boss dt draw hen hdead hbusy htime hno]
  obtain ⟨hc, _⟩ := collectCandidates_spec ai.skills boss.phase boss.distanceToPlayer
    (decrementCooldowns ai.cdLeft dt) (decrement_mapGet_nonneg ai.cdLeft dt)
  obtain ⟨⟨k1, k2⟩, _⟩ := selectSkill_spec
    { ai with cdLeft := decrementCooldowns ai.cdLeft dt, thinkTimer := 0 } boss draw
    (decrement_mapGet_nonneg ai.cdLeft dt)
  simp only at k1 k2
  rw [hc]
  refine ⟨?_, ?_, ?_, ?_⟩
  · intro s
    simp [List.mem_filter, eligible]
  · constructor
    · intro hreq hempty
      have := (k2 hempty).1
      rw [hreq] at this
      exact absurd this (by decide)
    · intro hne
      exact (k1 hne).1
  · intro hne
    obtain ⟨_, s, hs, hb, _⟩ := k1 hne
    exact ⟨s, hs, hb⟩
  · intro he
    exact ⟨(k2 he).1, (k2 he).2.1⟩

/-- C18 on the built-in table at distance 30 in phase 1: `Attack` is requested. -/
theorem C18_candidates_and_decision_witness :
    (collectCandidates BossAI.new.skills (sampleBoss 30).phase (sampleBoss 30).distanceToPlayer
        (decrementCooldowns BossAI.new.cdLeft (1 / 10))).1 ≠ [] ∧
    (BossAI.new.update (sampleBoss 30) (1 / 10) (fun s => s / 2)).requests = ["Attack"] :=
  have hne : (collectCandidates BossAI.new.skills (sampleBoss 30).phase
      (sampleBoss 30).distanceToPlayer
      (decrementCooldowns BossAI.new.cdLeft (1 / 10))).1 ≠ [] := by decide!
  ⟨hne, (C18_candidates_and_decision BossAI.new (sampleBoss 30) (1 / 10) (fun s => s / 2)
    rfl rfl rfl (by decide!) (by decide!)).2.1.mpr hne⟩


theorem prefixWeight_zero (cands : List BossAISkill) : prefixWeight cands 0 = 0 := by
  simp [prefixWeight]

theorem prefixWeight_cons (s : BossAISkill) (rest : List BossAISkill) (k : Nat) :
    prefixWeight (s :: rest) (k + 1) = max 0 s.weight + prefixWeight rest k := by
  simp [prefixWeight]

theorem prefixWeight_mono (cands : List BossAISkill) {a b : Nat} (h : a ≤ b) :
    prefixWeight cands a ≤ prefixWeight cands b := by
  induction cands generalizing a b with
  | nil => simp [prefixWeight]
  | cons s rest ih =>
    cases a with
    | zero =>
      rw [prefixWeight_zero]
      cases b with
      | zero => rw [prefixWeight_zero]
      | succ b =>
        rw [prefixWeight_cons]
        have h1 := ih (Nat.zero_le b)
        rw [prefixWeight_zero] at h1
        have h2 : (0 : ℚ) ≤ max 0 s.weight := le_max_left _ _
        linarith
    | succ a =>
      cases b with
      | zero => omega
      | succ b =>
        rw [prefixWeight_cons, prefixWeight_cons]
        have := ih (Nat.le_of_succ_le_succ h)
        linarith

theorem foldl_weight (cands : List BossAISkill) (acc : ℚ) :
    cands.foldl (fun sum s => sum + max 0 s.weight) acc =
      acc + prefixWeight cands cands.length := by
  induction cands generalizing acc with
  | nil => simp [prefixWeight]
  | cons s rest ih =>
    simp only [List.foldl_cons, List.length_cons]
    rw [ih, prefixWeight_cons]
    ring

/-- The sum computed by `pickByWeight` is the sum of all clamped weights. -/
theorem weightSum_eq (cands : List BossAISkill) :
    weightSum cands = prefixWeight cands cands.length := by
  unfold weightSum
  rw [foldl_weight]
  ring

/-- The loop of `pickByWeight` returns the first candidate whose prefix sum of clamped
weights reaches the running value, and ends without a return when there is none. -/
theorem pickLoop_spec (l : List BossAISkill) (r : ℚ) (i : Nat) :
    match pickLoop l r i with
    | some j => ∃ k, j = i + k ∧ k < l.length ∧ r ≤ prefixWeight l (k + 1) ∧
        ∀ m, m < k → prefixWeight l (m + 1) < r
    | none => ∀ m, m < l.length → prefixWeight l (m + 1) < r := by
  induction l generalizing r i with
  | nil =>
    simp only [pickLoop]
    intro m hm
    simp at hm
  | cons s rest ih =>
    unfold pickLoop
    by_cases hr : r - max 0 s.weight ≤ 0
    · simp only [hr, if_true]
      refine ⟨0, rfl, by simp, ?_, ?_⟩
      · rw [prefixWeight_cons, prefixWeight_zero]
        linarith
      · intro m hm
        omega
    · simp only [hr, if_false]
      have := ih (r - max 0 s.weight) (i + 1)
      cases hp : pickLoop rest (r - max 0 s.weight) (i + 1) with
      | none =>
        rw [hp] at this
        simp only at this ⊢
        intro m hm
        cases m with
        | zero =>
          rw [prefixWeight_cons, prefixWeight_zero]
          push_neg at hr
          linarith
        | succ m =>
          rw [prefixWeight_cons]
          have := this m (by simpa using hm)
          linarith
      | some j =>
        rw [hp] at this
        simp only at this ⊢
        obtain ⟨k, hj, hk, h1, h2⟩ := this
        refine ⟨k + 1, by omega, by simpa using hk, ?_, ?_⟩
        · rw [prefixWeight_cons]
          linarith
        · intro m hm
          cases m with
          | zero =>
            rw [prefixWeight_cons, prefixWeight_zero]
            push_neg at hr
            linarith
          | succ m =>
            rw [prefixWeight_cons]
            have := h2 m (by omega)
            linarith

/-- With a positive sum and a draw in `[0, sum]`, `pickByWeight` returns the first
candidate whose prefix sum reaches the draw. -/
theorem pickIndex_first (draw : ℚ → ℚ) (cands : List BossAISkill)
    (hW : 0 < weightSum cands) (hr : draw (weightSum cands) ≤ weightSum cands) :
    pickIndex draw cands < cands.length ∧
    draw (weightSum cands) ≤ prefixWeight cands (pickIndex draw cands + 1) ∧
    ∀ m, m < pickIndex draw cands → prefixWeight cands (m + 1) < draw (weightSum cands) := by
  have hne : cands ≠ [] := by
    rintro rfl
    simp [weightSum] at hW
  have hpos : 0 < cands.length := List.length_pos.mpr hne
  have hspec := pickLoop_spec cands (draw (weightSum cands)) 0
  unfold pickIndex
  rw [if_neg (not_le.mpr hW)]
  cases hp : pickLoop cands (draw (weightSum cands)) 0 with
  | none =>
    rw [hp] at hspec
    simp only at hspec
    have := hspec (cands.length - 1) (by omega)
    have e : cands.length - 1 + 1 = cands.length := by omega
    rw [e, ← weightSum_eq] at this
    exact absurd hr (not_le.mpr this)
  | some j =>
    rw [hp] at hspec
    simp only at hspec ⊢
    obtain ⟨k, hj, hk, h1, h2⟩ := hspec
    have : j = k := by omega
    subst this
    exact ⟨hk, h1, h2⟩


theorem prefixWeight_succ (cands : List BossAISkill) (k : Nat) (hk : k < cands.length) :
    prefixWeight cands (k + 1) - prefixWeight cands k = max 0 (cands.get ⟨k, hk⟩).weight := by
  induction cands generalizing k with
  | nil => simp at hk
  | cons s rest ih =>
    cases k with
    | zero =>
      rw [prefixWeight_cons, prefixWeight_zero, prefixWeight_zero]
      simp
    | succ k =>
      rw [prefixWeight_cons, prefixWeight_cons]
      have := ih k (by simpa using hk)
      simp only [List.get_eq_getElem, List.getElem_cons_succ] at this ⊢
      linarith

theorem prefixWeight_nonpos (cands : List BossAISkill) (h : ∀ s ∈ cands, s.weight ≤ 0)
    (k : Nat) : prefixWeight cands k = 0 := by
  induction cands generalizing k with
  | nil => simp [prefixWeight]
  | cons s rest ih =>
    cases k with
    | zero => exact prefixWeight_zero _
    | succ k =>
      rw [prefixWeight_cons, ih (fun t ht => h t (List.mem_cons_of_mem _ ht)),
        max_eq_left (h s (List.mem_cons_self _ _))]
      ring

/-- C19: for a non-empty candidate list whose clamped weights have a positive sum `W`
and a drawn value `r <= W` (`r` in `[0, W]` in particular), `pickByWeight` returns the
first candidate `i` with `r <= max(0,w_1)+...+max(0,w_i)`: a member of the list;
candidate `i` is selected exactly by the draws of an interval of length `max(0,w_i)`
(above the prefix sum before `i`, up to the prefix sum with `i`); weights 1, 1, 2 give
the intervals `[0,1]`, `(1,2]`, `(2,4]`, of lengths 25%, 25% and 50% of `[0,4]`; with all
weights non-positive the first candidate is returned. -/
theorem C19_pickByWeight_first_prefix_sum (draw : ℚ → ℚ) (cands : List BossAISkill)
    (hne : cands ≠ []) :
    (0 < weightSum cands → draw (weightSum cands) ≤ weightSum cands →
      pickIndex draw cands < cands.length ∧
      draw (weightSum cands) ≤ prefixWeight cands (pickIndex draw cands + 1) ∧
      (∀ m, m < pickIndex draw cands →
        prefixWeight cands (m + 1) < draw (weightSum cands)) ∧
      (∃ s ∈ cands, pickByWeight draw cands = some s) ∧
      (∀ k, k < cands.length →
        (pickIndex draw cands = k ↔
          (k = 0 ∨ prefixWeight cands k < draw (weightSum cands)) ∧
            draw (weightSum cands) ≤ prefixWeight cands (k + 1))) ∧
      (∀ k (hk : k < cands.length),
        prefixWeight cands (k + 1) - prefixWeight cands k =
          max 0 (cands.get ⟨k, hk⟩).weight)) ∧
    ((∀ s ∈ cands, s.weight ≤ 0) →
      pickIndex draw cands = 0 ∧ pickByWeight draw cands = cands.head?) ∧
    ((∀ r : ℚ, 0 ≤ r → r ≤ 4 →
      pickIndex (fun _ => r) weighted112 = if r ≤ 1 then 0 else if r ≤ 2 then 1 else 2) ∧
      (prefixWeight weighted112 1 - prefixWeight weighted112 0) / weightSum weighted112
        = 25 / 100 ∧
      (prefixWeight weighted112 2 - prefixWeight weighted112 1) / weightSum weighted112
        = 25 / 100 ∧
      (prefixWeight weighted112 3 - prefixWeight weighted112 2) / weightSum weighted112
        = 50 / 100) := by
  refine ⟨?_, ?_, ?_, by decide!, by decide!, by decide!⟩
  · intro hW hr
    obtain ⟨h1, h2, h3⟩ := pickIndex_first draw cands hW hr
    refine ⟨h1, h2, h3, pickByWeight_mem draw hne, ?_, prefixWeight_succ cands⟩
    intro k hk
    constructor
    · rintro rfl
      refine ⟨?_, h2⟩
      by_cases h0 : pickIndex draw cands = 0
      · exact Or.inl h0
      · right
        have := h3 (pickIndex draw cands - 1) (by omega)
        have e : pickIndex draw cands - 1 + 1 = pickIndex draw cands := by omega
        rw [e] at this
        exact this
    · rintro ⟨hk1, hk2⟩
      rcases Nat.lt_trichotomy (pickIndex draw cands) k with hlt | heq | hgt
      · exfalso
        rcases hk1 with hk0 | hk1
        · omega
        · have := prefixWeight_mono cands (show pickIndex draw cands + 1 ≤ k by omega)
          linarith
      · exact heq
      · exfalso
        have := h3 k hgt
        linarith
  · intro hall
    have hsum : weightSum cands ≤ 0 := by
      rw [weightSum_eq, prefixWeight_nonpos cands hall]
    have h0 : pickIndex draw cands = 0 := by
      unfold pickIndex
      rw [if_pos hsum]
    refine ⟨h0, ?_⟩
    unfold pickByWeight
    rw [h0]
    cases cands with
    | nil => rfl
    | cons s rest => simp
  · intro r h0 h4
    have hs : weightSum weighted112 = 4 := by decide!
    unfold pickIndex
    rw [hs, if_neg (by norm_num)]
    simp only [weighted112, pickLoop]
    norm_num
    by_cases h1 : r ≤ 1
    · simp [h1]
    · by_cases h2 : r ≤ 2
      · have e : r - 1 - 1 ≤ 0 := by linarith
        simp [h1, h2, e]
      · have e : ¬ r - 1 - 1 ≤ 0 := by
          push_neg at h2 ⊢
          linarith
        have e2 : r - 1 - 1 - 2 ≤ 0 := by linarith
        simp [h1, h2, e, e2, h4]

/-- C19 on the weights 1, 1, 2 with the draw 3 of `[0, 4]`: the third candidate. -/
theorem C19_pickByWeight_first_prefix_sum_witness :
    pickIndex (fun _ => 3) weighted112 < weighted112.length ∧
    (3 : ℚ) ≤ prefixWeight weighted112 (pickIndex (fun _ => 3) weighted112 + 1) ∧
    pickIndex (fun _ => 3) weighted112 = 2 :=
  have h := (C19_pickByWeight_first_prefix_sum (fun _ => 3) weighted112 (by decide)).1
    (by decide!) (by decide!)
  ⟨h.1, h.2.1, by decide!⟩


theorem update_disabled (ai : BossAI) (boss : Boss) (dt : ℚ) (draw : ℚ → ℚ)
    (hen : ai.enabled = false) :
    ai.update boss dt draw = { ai := ai, boss := boss, requests := [] } := by
  unfold BossAI.update
  simp [hen]

/-- The outcomes of a tick of an enabled AI: cooldowns decremented and nothing more
(no decision, or a phase change), or skill selection after the decrement. -/
theorem update_enabled_cases (ai : BossAI) (boss : Boss) (dt : ℚ) (draw : ℚ → ℚ)
    (hen : ai.enabled = true) :
    ((ai.update boss dt draw).ai.cdLeft = decrementCooldowns ai.cdLeft dt ∧
      (ai.update boss dt draw).ai.skills = ai.skills ∧
      ((ai.update boss dt draw).requests = [] ∨
        (ai.update boss dt draw).requests = ["PhaseChange"])) ∨
    ((boss.dead = false ∧ boss.busy = false ∧ ai.thinkInterval ≤ ai.thinkTimer + dt) ∧
      ai.update boss dt draw =
        selectSkill { ai with cdLeft := decrementCooldowns ai.cdLeft dt, thinkTimer := 0 }
          boss draw) := by
  by_cases hdead : boss.dead = true
  · left
    unfold BossAI.update
    simp [hen, hdead]
  · have hd : boss.dead = false := by simpa using hdead
    by_cases hbusy : boss.busy = true
    · left
      unfold BossAI.update
      simp [hen, hd, Boss.isBusy, hbusy]
    · have hb : boss.busy = false := by simpa using hbusy
      by_cases htime : ai.thinkTimer + dt < ai.thinkInterval
      · left
        unfold BossAI.update
        simp [hen, hd, Boss.isBusy, hb, htime]
      · by_cases hph : boss.phase = 1 ∧ boss.healthRatio ≤ 1 / 2
        · left
          have hbi : boss.isBusy = false := by simp [Boss.isBusy, hd, hb]
          unfold BossAI.update
          simp only [hen, Bool.not_true, Bool.false_eq_true, if_false, hd, hbi, htime,
            hph.1, hph.2, and_self, if_true]
          simp
        · right
          exact ⟨⟨hd, hb, not_lt.mp htime⟩,
            update_select ai boss dt draw hen hd hb (not_lt.mp htime) hph⟩

theorem collectStep_entries (phase : Int) (dist : ℚ)
    (acc : List BossAISkill × List (String × ℚ)) (s : BossAISkill) {kv : String × ℚ}
    (h : kv ∈ (collectStep phase dist acc s).2) : kv ∈ acc.2 ∨ kv.2 = 0 := by
  unfold collectStep at h
  split_ifs at h
  · exact Or.inl h
  · exact Or.inl h
  · rcases mem_mapTouch h with h | h
    · exact Or.inl h
    · exact Or.inr (by rw [h])
  · rcases mem_mapTouch h with h | h
    · exact Or.inl h
    · exact Or.inr (by rw [h])

theorem collect_entries (phase : Int) (dist : ℚ) (skills : List BossAISkill)
    (acc : List BossAISkill × List (String × ℚ)) {kv : String × ℚ}
    (h : kv ∈ (skills.foldl (collectStep phase dist) acc).2) : kv ∈ acc.2 ∨ kv.2 = 0 := by
  induction skills generalizing acc with
  | nil => exact Or.inl h
  | cons s rest ih =>
    simp only [List.foldl_cons] at h
    rcases ih _ h with h | h
    · exact collectStep_entries phase dist acc s h
    · exact Or.inr h

theorem mapGet_of_not_key (m : List (String × ℚ)) (k : String) (h : k ∉ m.map Prod.fst) :
    mapGet m k = 0 := by
  unfold mapGet
  rw [lookup_eq_none_of_not_mem m k h]
  rfl

theorem mapGet_decrement_le (m : List (String × ℚ)) {dt : ℚ} (hdt : 0 ≤ dt)
    (hm : ∀ kv ∈ m, 0 ≤ kv.2) (k : String) :
    mapGet (decrementCooldowns m dt) k ≤ mapGet m k := by
  by_cases hk : k ∈ m.map Prod.fst
  · rw [mapGet_decrement m dt k hk]
    have := mapGet_nonneg hm k
    exact max_le this (by linarith)
  · rw [mapGet_of_not_key m k hk,
      mapGet_of_not_key _ k (by rw [decrement_keys]; exact hk)]

theorem selectSkill_skills (ai : BossAI) (boss : Boss) (draw : ℚ → ℚ) :
    (selectSkill ai boss draw).ai.skills = ai.skills := by
  unfold selectSkill
  simp only
  split
  · rfl
  · split <;> rfl

theorem update_skills (ai : BossAI) (boss : Boss) (dt : ℚ) (draw : ℚ → ℚ) :
    (ai.update boss dt draw).ai.skills = ai.skills := by
  cases hen : ai.enabled with
  | false => rw [update_disabled ai boss dt draw hen]
  | true =>
    rcases update_enabled_cases ai boss dt draw hen with ⟨_, h, _⟩ | ⟨_, h⟩
    · exact h
    · rw [h, selectSkill_skills]

/-- A tick keeps every remaining cooldown non-negative. -/
theorem update_nonneg (ai : BossAI) (boss : Boss) (dt : ℚ) (draw : ℚ → ℚ)
    (ht : tableOK ai.skills) (hm : ∀ kv ∈ ai.cdLeft, 0 ≤ kv.2) :
    ∀ kv ∈ (ai.update boss dt draw).ai.cdLeft, 0 ≤ kv.2 := by
  cases hen : ai.enabled with
  | false =>
    rw [update_disabled ai boss dt draw hen]
    exact hm
  | true =>
    rcases update_enabled_cases ai boss dt draw hen with ⟨h, _, _⟩ | ⟨_, h⟩
    · rw [h]
      exact fun _ hkv => decrement_nonneg hkv
    · rw [h]
      obtain ⟨⟨k1, k2⟩, _⟩ := selectSkill_spec
        { ai with cdLeft := decrementCooldowns ai.cdLeft dt, thinkTimer := 0 } boss draw
        (decrement_mapGet_nonneg ai.cdLeft dt)
      simp only at k1 k2
      have hcol : ∀ kv ∈ (collectCandidates ai.skills boss.phase boss.distanceToPlayer
          (decrementCooldowns ai.cdLeft dt)).2, 0 ≤ kv.2 := by
        intro kv hkv
        rcases collect_entries _ _ _ _ hkv with h1 | h1
        · exact decrement_nonneg h1
        · rw [h1]
      by_cases hne : ai.skills.filter (eligible boss.phase boss.distanceToPlayer
          (decrementCooldowns ai.cdLeft dt)) = []
      · rw [(k2 hne).2.2]
        exact hcol
      · obtain ⟨_, s, hs, _, hcd⟩ := k1 hne
        rw [hcd]
        intro kv hkv
        rcases mem_mapSet hkv with h1 | h1
        · exact hcol kv h1
        · rw [h1]
          exact ht.1 s (List.mem_of_mem_filter hs)

/-- With `dt >= 0`, a tick keeps every remaining cooldown at or below the configured
duration of its skill. -/
theorem update_bound (ai : BossAI) (boss : Boss) (dt : ℚ) (draw : ℚ → ℚ) (hdt : 0 ≤ dt)
    (ht : tableOK ai.skills) (hm : ∀ kv ∈ ai.cdLeft, 0 ≤ kv.2)
    (hb : ∀ s ∈ ai.skills, mapGet ai.cdLeft s.name ≤ s.cd) :
    ∀ s ∈ ai.skills, mapGet (ai.update boss dt draw).ai.cdLeft s.name ≤ s.cd := by
  have hdec : ∀ s ∈ ai.skills, mapGet (decrementCooldowns ai.cdLeft dt) s.name ≤ s.cd :=
    fun s hs => (mapGet_decrement_le ai.cdLeft hdt hm s.name).trans (hb s hs)
  cases hen : ai.enabled with
  | false =>
    rw [update_disabled ai boss dt draw hen]
    exact hb
  | true =>
    rcases update_enabled_cases ai boss dt draw hen with ⟨h, _, _⟩ | ⟨_, h⟩
    · rw [h]
      exact hdec
    · rw [h]
      obtain ⟨⟨k1, k2⟩, _⟩ := selectSkill_spec
        { ai with cdLeft := decrementCooldowns ai.cdLeft dt, thinkTimer := 0 } boss draw
        (decrement_mapGet_nonneg ai.cdLeft dt)
      simp only at k1 k2
      obtain ⟨_, hget⟩ := collectCandidates_spec ai.skills boss.phase boss.distanceToPlayer
        (decrementCooldowns ai.cdLeft dt) (decrement_mapGet_nonneg ai.cdLeft dt)
      by_cases hne : ai.skills.filter (eligible boss.phase boss.distanceToPlayer
          (decrementCooldowns ai.cdLeft dt)) = []
      · rw [(k2 hne).2.2]
        intro s hs
        rw [hget]
        exact hdec s hs
      · obtain ⟨_, p, hp, _, hcd⟩ := k1 hne
        rw [hcd]
        intro s hs
        rw [mapGet_mapSet]
        split_ifs with hname
        · rw [ht.2 s hs p (List.mem_of_mem_filter hp) hname]
        · rw [hget]
          exact hdec s hs


theorem runTicks_invariant (ticks : List Tick) (ai : BossAI) (ht : tableOK ai.skills)
    (hm : ∀ kv ∈ ai.cdLeft, 0 ≤ kv.2) :
    (runTicks ai ticks).skills = ai.skills ∧
    (∀ kv ∈ (runTicks ai ticks).cdLeft, 0 ≤ kv.2) ∧
    ((∀ t ∈ ticks, 0 ≤ t.dt) → (∀ s ∈ ai.skills, mapGet ai.cdLeft s.name ≤ s.cd) →
      ∀ s ∈ ai.skills, mapGet (runTicks ai ticks).cdLeft s.name ≤ s.cd) := by
  induction ticks generalizing ai with
  | nil => exact ⟨rfl, hm, fun _ hb => hb⟩
  | cons t rest ih =>
    have hs : (({ ai with enabled := t.enabled } : BossAI).update t.boss t.dt t.draw).ai.skills
        = ai.skills := update_skills _ _ _ _
    have hn := update_nonneg { ai with enabled := t.enabled } t.boss t.dt t.draw ht hm
    obtain ⟨i1, i2, i3⟩ := ih _ (by rw [hs]; exact ht) hn
    refine ⟨i1.trans hs, i2, ?_⟩
    intro hdt hb
    have hb2 := update_bound { ai with enabled := t.enabled } t.boss t.dt t.draw
      (hdt t (List.mem_cons_self _ _)) ht hm hb
    have := i3 (fun u hu => hdt u (List.mem_cons_of_mem _ hu)) (by rw [hs]; exact hb2)
    rw [hs] at this
    exact this

/-- C20 (as amended): a tick of a disabled AI changes nothing; on a tick of an enabled
AI each remaining cooldown is decremented to `max(0, previous - dt)`, eligible or not,
and that is its value after the tick except for the skill selected on the tick, whose
cooldown is then its configured duration; on ticks where the Boss is dead or busy or
the think interval has not elapsed the decrement is the whole change.  Consequently,
from the constructor on, every remaining cooldown is `>= 0`, and with `dt >= 0` on every
tick none exceeds the configured duration of its skill. -/
theorem C20_cooldown_decrement (ai : BossAI) (boss : Boss) (dt : ℚ) (draw : ℚ → ℚ) :
    (ai.enabled = false → (ai.update boss dt draw).ai = ai) ∧
    (ai.enabled = true →
      (∀ name ∈ ai.cdLeft.map Prod.fst,
        mapGet (ai.update boss dt draw).ai.cdLeft name = max 0 (mapGet ai.cdLeft name - dt) ∨
        ((ai.update boss dt draw).requests = ["Attack"] ∧
          (ai.update boss dt draw).boss.pendingSkill = name ∧
          ∃ s ∈ ai.skills, s.name = name ∧
            mapGet (ai.update boss dt draw).ai.cdLeft name = s.cd)) ∧
      (boss.dead = true ∨ boss.busy = true ∨ ai.thinkTimer + dt < ai.thinkInterval →
        (ai.update boss dt draw).ai.cdLeft = decrementCooldowns ai.cdLeft dt)) ∧
    (∀ ticks : List Tick,
      (∀ kv ∈ (runTicks BossAI.new ticks).cdLeft, 0 ≤ kv.2) ∧
      ((∀ t ∈ ticks, 0 ≤ t.dt) →
        ∀ s ∈ initSkills, mapGet (runTicks BossAI.new ticks).cdLeft s.name ≤ s.cd)) := by
  refine ⟨fun hen => by rw [update_disabled ai boss dt draw hen], fun hen => ⟨?_, ?_⟩, ?_⟩
  · intro name hname
    rcases update_enabled_cases ai boss dt draw hen with ⟨h, _, _⟩ | ⟨_, h⟩
    · left
      rw [h]
      exact mapGet_decrement ai.cdLeft dt name hname
    · rw [h]
      obtain ⟨⟨k1, k2⟩, _⟩ := selectSkill_spec
        { ai with cdLeft := decrementCooldowns ai.cdLeft dt, thinkTimer := 0 } boss draw
        (decrement_mapGet_nonneg ai.cdLeft dt)
      simp only at k1 k2
      obtain ⟨_, hget⟩ := collectCandidates_spec ai.skills boss.phase boss.distanceToPlayer
        (decrementCooldowns ai.cdLeft dt) (decrement_mapGet_nonneg ai.cdLeft dt)
      by_cases hne : ai.skills.filter (eligible boss.phase boss.distanceToPlayer
          (decrementCooldowns ai.cdLeft dt)) = []
      · left
        rw [(k2 hne).2.2, hget]
        exact mapGet_decrement ai.cdLeft dt name hname
      · obtain ⟨hreq, s, hs, hboss, hcd⟩ := k1 hne
        by_cases hn : name = s.name
        · right
          refine ⟨hreq, by rw [hboss, hn]; rfl, s, List.mem_of_mem_filter hs, hn.symm, ?_⟩
          rw [hcd, mapGet_mapSet, if_pos hn]
        · left
          rw [hcd, mapGet_mapSet, if_neg hn, hget]
          exact mapGet_decrement ai.cdLeft dt name hname
  · intro hidle
    rcases update_enabled_cases ai boss dt draw hen with ⟨h, _, _⟩ | ⟨⟨c1, c2, c3⟩, _⟩
    · exact h
    · rcases hidle with h | h | h
      · rw [c1] at h
        cases h
      · rw [c2] at h
        cases h
      · exact absurd c3 (not_le.mpr h)
  · intro ticks
    have ht : tableOK BossAI.new.skills := ⟨by decide!, by decide!⟩
    have hm : ∀ kv ∈ BossAI.new.cdLeft, 0 ≤ kv.2 := by decide!
    have hb : ∀ s ∈ BossAI.new.skills, mapGet BossAI.new.cdLeft s.name ≤ s.cd := by decide!
    obtain ⟨_, i2, i3⟩ := runTicks_invariant ticks BossAI.new ht hm
    exact ⟨i2, fun hdt => i3 hdt hb⟩

/-- C20, as amended, on a tick of the enabled AI with a busy Boss: the cooldown 2 of
`Combo3` becomes `max(0, 2 - 1/2)`. -/
theorem C20_cooldown_decrement_witness :
    (aiAfterCombo.update { sampleBoss 30 with busy := true } (1 / 2) (fun s => s)).ai.cdLeft =
      decrementCooldowns aiAfterCombo.cdLeft (1 / 2) ∧
    mapGet (decrementCooldowns aiAfterCombo.cdLeft (1 / 2)) "Combo3" = 3 / 2 :=
  ⟨((C20_cooldown_decrement aiAfterCombo { sampleBoss 30 with busy := true } (1 / 2)
      (fun s => s)).2.1 (by decide!)).2 (Or.inr (Or.inl rfl)), by decide!⟩

/-- C20 as stated fails: with the AI disabled, a tick with `dt = 1` leaves the cooldown
2 of `Combo3` at 2, not at `max(0, 2 - 1) = 1`; and on the tick that selects `Combo3`
its cooldown, 0 before, is 2 after the tick, not `max(0, 0 - 1/10) = 0`. -/
theorem C20_counterexample :
    (mapGet aiAfterCombo.cdLeft "Combo3" = 2 ∧
      mapGet (({ aiAfterCombo with enabled := false } : BossAI).update (sampleBoss 30) 1
        (fun s => s / 2)).ai.cdLeft "Combo3" ≠ max 0 (mapGet aiAfterCombo.cdLeft "Combo3" - 1)) ∧
    (mapGet BossAI.new.cdLeft "Combo3" = 0 ∧
      mapGet (BossAI.new.update (sampleBoss 30) (1 / 10) (fun s => s / 2)).ai.cdLeft "Combo3" ≠
        max 0 (mapGet BossAI.new.cdLeft "Combo3" - 1 / 10)) :=
  ⟨⟨by decide!, by decide!⟩, by decide!, by decide!⟩

/-! ### Claims about runs of `BossAI::update` -/

theorem runTicks_cons (ai : BossAI) (t : Tick) (rest : List Tick) :
    runTicks ai (t :: rest) = runTicks (tickRun ai t).ai rest := rfl

theorem runTicks_append (ai : BossAI) (l1 l2 : List Tick) :
    runTicks ai (l1 ++ l2) = runTicks (runTicks ai l1) l2 := by
  induction l1 generalizing ai with
  | nil => rfl
  | cons t rest ih => exact ih _

theorem dtSum_cons (t : Tick) (rest : List Tick) : dtSum (t :: rest) = t.dt + dtSum rest := by
  simp [dtSum]

theorem dtSum_append (l1 l2 : List Tick) : dtSum (l1 ++ l2) = dtSum l1 + dtSum l2 := by
  simp [dtSum]

theorem dtSum_nonneg {ticks : List Tick} (h : ∀ t ∈ ticks, 0 ≤ t.dt) : 0 ≤ dtSum ticks := by
  induction ticks with
  | nil => simp [dtSum]
  | cons t rest ih =>
    rw [dtSum_cons]
    have h1 := h t (List.mem_cons_self _ _)
    have h2 := ih (fun u hu => h u (List.mem_cons_of_mem _ hu))
    linarith

theorem mapGet_decrement_ge (m : List (String × ℚ)) {dt : ℚ} (hdt : 0 ≤ dt) (k : String) :
    mapGet m k - dt ≤ mapGet (decrementCooldowns m dt) k := by
  by_cases hk : k ∈ m.map Prod.fst
  · rw [mapGet_decrement m dt k hk]
    exact le_max_right _ _
  · rw [mapGet_of_not_key m k hk,
      mapGet_of_not_key _ k (by rw [decrement_keys]; exact hk)]
    linarith

/-- A tick that requests `Attack` has selected a skill of the table whose cooldown
had elapsed after the decrement of the tick: the skill is pending and its cooldown is
its duration. -/
theorem attack_tick_spec (ai : BossAI) (t : Tick) (h : (tickRun ai t).requests = ["Attack"]) :
    t.enabled = true ∧
    ∃ s ∈ ai.skills, (tickRun ai t).boss = t.boss.setPendingSkill s.name ∧
      mapGet (tickRun ai t).ai.cdLeft s.name = s.cd ∧
      mapGet (decrementCooldowns ai.cdLeft t.dt) s.name = 0 ∧
      eligible t.boss.phase t.boss.distanceToPlayer (decrementCooldowns ai.cdLeft t.dt) s
        = true := by
  unfold tickRun at h ⊢
  cases hen : t.enabled with
  | false =>
    rw [hen] at h
    rw [update_disabled _ _ _ _ rfl] at h
    simp at h
  | true =>
    rw [hen] at h
    refine ⟨rfl, ?_⟩
    rcases update_enabled_cases { ai with enabled := true } t.boss t.dt t.draw rfl with
      ⟨_, _, hr | hr⟩ | ⟨_, hsel⟩
    · rw [hr] at h
      simp at h
    · rw [hr] at h
      simp at h
    · rw [hsel] at h ⊢
      obtain ⟨⟨k1, k2⟩, _⟩ := selectSkill_spec
        { ai with enabled := true, cdLeft := decrementCooldowns ai.cdLeft t.dt, thinkTimer := 0 }
        t.boss t.draw (decrement_mapGet_nonneg ai.cdLeft t.dt)
      simp only at k1 k2
      by_cases hne : ai.skills.filter (eligible t.boss.phase t.boss.distanceToPlayer
          (decrementCooldowns ai.cdLeft t.dt)) = []
      · rw [(k2 hne).1] at h
        simp at h
      · obtain ⟨_, s, hs, hb, hcd⟩ := k1 hne
        have hel := (List.mem_filter.mp hs).2
        refine ⟨s, (List.mem_filter.mp hs).1, hb, ?_, ?_, hel⟩
        · rw [hcd, mapGet_mapSet, if_pos rfl]
        · simp only [eligible, decide_eq_true_eq] at hel
          exact hel.2.2.2

/-- On a tick with `dt >= 0` a cooldown falls by at most `dt`, unless a skill of that
name is selected on the tick. -/
theorem tick_cooldown_ge (ai : BossAI) (t : Tick) (hdt : 0 ≤ t.dt) (n : String) :
    ((tickRun ai t).requests = ["Attack"] ∧ (tickRun ai t).boss.pendingSkill = n) ∨
    mapGet ai.cdLeft n - t.dt ≤ mapGet (tickRun ai t).ai.cdLeft n := by
  cases hen : t.enabled with
  | false =>
    right
    unfold tickRun
    rw [hen, update_disabled _ _ _ _ rfl]
    simp only
    linarith
  | true =>
    unfold tickRun
    rw [hen]
    rcases update_enabled_cases { ai with enabled := true } t.boss t.dt t.draw rfl with
      ⟨hcd, _, _⟩ | ⟨_, hsel⟩
    · right
      rw [hcd]
      exact mapGet_decrement_ge ai.cdLeft hdt n
    · rw [hsel]
      obtain ⟨⟨k1, k2⟩, _⟩ := selectSkill_spec
        { ai with enabled := true, cdLeft := decrementCooldowns ai.cdLeft t.dt, thinkTimer := 0 }
        t.boss t.draw (decrement_mapGet_nonneg ai.cdLeft t.dt)
      simp only at k1 k2
      obtain ⟨_, hget⟩ := collectCandidates_spec ai.skills t.boss.phase
        t.boss.distanceToPlayer (decrementCooldowns ai.cdLeft t.dt)
        (decrement_mapGet_nonneg ai.cdLeft t.dt)
      by_cases hne : ai.skills.filter (eligible t.boss.phase t.boss.distanceToPlayer
          (decrementCooldowns ai.cdLeft t.dt)) = []
      · right
        rw [(k2 hne).2.2, hget]
        exact mapGet_decrement_ge ai.cdLeft hdt n
      · obtain ⟨hreq, s, _, hb, hcd⟩ := k1 hne
        by_cases hn : n = s.name
        · left
          refine ⟨hreq, ?_⟩
          rw [hb, hn]
          rfl
        · right
          rw [hcd, mapGet_mapSet, if_neg hn, hget]
          exact mapGet_decrement_ge ai.cdLeft hdt n

/-- Over a run of ticks with `dt >= 0`, a cooldown that is at least `c` stays at least
`c` minus the time run, until the time run reaches `c`. -/
theorem runTicks_cooldown_ge (ticks : List Tick) (ai : BossAI) (n : String) (c : ℚ)
    (hdt : ∀ t ∈ ticks, 0 ≤ t.dt) (hc : c ≤ mapGet ai.cdLeft n) :
    c - dtSum ticks ≤ mapGet (runTicks ai ticks).cdLeft n ∨ c ≤ dtSum ticks := by
  induction ticks generalizing ai c with
  | nil =>
    left
    simp only [dtSum, List.map_nil, List.sum_nil, sub_zero]
    exact hc
  | cons t rest ih =>
    have ht := hdt t (List.mem_cons_self _ _)
    have hrest : ∀ u ∈ rest, 0 ≤ u.dt := fun u hu => hdt u (List.mem_cons_of_mem _ hu)
    have hsum := dtSum_nonneg hrest
    rw [runTicks_cons, dtSum_cons]
    rcases tick_cooldown_ge ai t ht n with ⟨hreq, hp⟩ | hge
    · right
      obtain ⟨_, s, _, hb, _, hz, _⟩ := attack_tick_spec ai t hreq
      have hname : s.name = n := by
        rw [hb] at hp
        exact hp
      rw [hname] at hz
      have := mapGet_decrement_ge ai.cdLeft ht n
      linarith
    · rcases ih (tickRun ai t).ai (c - t.dt) hrest (by linarith) with h1 | h2
      · left
        linarith
      · right
        linarith

/-- C21: a tick that selects a skill `s` (requests `Attack`) records `s.name` as the
pending skill and sets the remaining cooldown of `s` to `s.cd`; and, with `dt >= 0` on
the later ticks, whenever a later tick selects `s` again, the `dt` values of the ticks
after the first selection, that tick included, sum to at least `s.cd`. -/
theorem C21_selected_skill_cooldown (ai : BossAI) (t0 : Tick) (ticks : List Tick) (t1 : Tick)
    (hsel : (tickRun ai t0).requests = ["Attack"]) :
    ∃ s ∈ ai.skills,
      (tickRun ai t0).boss.pendingSkill = s.name ∧
      (tickRun ai t0).boss = t0.boss.setPendingSkill s.name ∧
      mapGet (tickRun ai t0).ai.cdLeft s.name = s.cd ∧
      ((∀ t ∈ ticks ++ [t1], 0 ≤ t.dt) →
        (tickRun (runTicks (tickRun ai t0).ai ticks) t1).requests = ["Attack"] →
        (tickRun (runTicks (tickRun ai t0).ai ticks) t1).boss.pendingSkill = s.name →
        s.cd ≤ dtSum (ticks ++ [t1])) := by
  obtain ⟨_, s, hs, hb, hcd, _, _⟩ := attack_tick_spec ai t0 hsel
  refine ⟨s, hs, by rw [hb]; rfl, hb, hcd, ?_⟩
  intro hdt hreq hp
  have hticks : ∀ t ∈ ticks, 0 ≤ t.dt := fun t ht => hdt t (List.mem_append_left _ ht)
  have ht1 : 0 ≤ t1.dt := hdt t1 (List.mem_append_right _ (List.mem_singleton_self _))
  rw [dtSum_append, dtSum_cons]
  simp only [dtSum, List.map_nil, List.sum_nil, add_zero]
  obtain ⟨_, s1, _, hb1, _, hz, _⟩ :=
    attack_tick_spec (runTicks (tickRun ai t0).ai ticks) t1 hreq
  have hname : s1.name = s.name := by
    rw [hb1] at hp
    exact hp
  rw [hname] at hz
  have hle := mapGet_decrement_ge (runTicks (tickRun ai t0).ai ticks).cdLeft ht1 s.name
  rcases runTicks_cooldown_ge ticks (tickRun ai t0).ai s.name s.cd hticks (le_of_eq hcd.symm)
    with h1 | h2
  · have : dtSum ticks = (ticks.map (fun t => t.dt)).sum := rfl
    linarith
  · have : dtSum ticks = (ticks.map (fun t => t.dt)).sum := rfl
    linarith

/-- C21 on the built-in table: the first tick selects `Combo3` (duration 2); a second
tick 2 seconds later selects it again. -/
theorem C21_selected_skill_cooldown_witness :
    (tickRun BossAI.new (comboTick (1 / 10))).requests = ["Attack"] ∧
    (tickRun BossAI.new (comboTick (1 / 10))).boss.pendingSkill = "Combo3" ∧
    (tickRun (runTicks (tickRun BossAI.new (comboTick (1 / 10))).ai []) (comboTick 2)).requests
      = ["Attack"] ∧
    (tickRun (runTicks (tickRun BossAI.new (comboTick (1 / 10))).ai [])
      (comboTick 2)).boss.pendingSkill = "Combo3" ∧
    dtSum ([] ++ [comboTick 2]) = 2 ∧
    ∃ s ∈ BossAI.new.skills,
      (tickRun BossAI.new (comboTick (1 / 10))).boss.pendingSkill = s.name ∧
      (tickRun BossAI.new (comboTick (1 / 10))).boss =
        (comboTick (1 / 10)).boss.setPendingSkill s.name ∧
      mapGet (tickRun BossAI.new (comboTick (1 / 10))).ai.cdLeft s.name = s.cd ∧
      ((∀ t ∈ [] ++ [comboTick 2], 0 ≤ t.dt) →
        (tickRun (runTicks (tickRun BossAI.new (comboTick (1 / 10))).ai []) (comboTick 2)).requests
          = ["Attack"] →
        (tickRun (runTicks (tickRun BossAI.new (comboTick (1 / 10))).ai [])
          (comboTick 2)).boss.pendingSkill = s.name →
        s.cd ≤ dtSum ([] ++ [comboTick 2])) :=
  ⟨by decide!, by decide!, by decide!, by decide!, by decide!,
    C21_selected_skill_cooldown BossAI.new (comboTick (1 / 10)) [] (comboTick 2) (by decide!)⟩


theorem selectSkill_thinkInterval (ai : BossAI) (boss : Boss) (draw : ℚ → ℚ) :
    (selectSkill ai boss draw).ai.thinkInterval = ai.thinkInterval := by
  unfold selectSkill
  simp only
  split
  · rfl
  · split <;> rfl

theorem update_thinkInterval (ai : BossAI) (boss : Boss) (dt : ℚ) (draw : ℚ → ℚ) :
    (ai.update boss dt draw).ai.thinkInterval = ai.thinkInterval := by
  cases hen : ai.enabled with
  | false => rw [update_disabled ai boss dt draw hen]
  | true =>
    by_cases hdead : boss.dead = true
    · unfold BossAI.update
      simp [hen, hdead]
    · have hd : boss.dead = false := by simpa using hdead
      by_cases hbusy : boss.busy = true
      · unfold BossAI.update
        simp [hen, hd, Boss.isBusy, hbusy]
      · have hb : boss.busy = false := by simpa using hbusy
        by_cases htime : ai.thinkTimer + dt < ai.thinkInterval
        · unfold BossAI.update
          simp [hen, hd, Boss.isBusy, hb, htime]
        · by_cases hph : boss.phase = 1 ∧ boss.healthRatio ≤ 1 / 2
          · have hbi : boss.isBusy = false := by simp [Boss.isBusy, hd, hb]
            unfold BossAI.update
            simp only [hen, Bool.not_true, Bool.false_eq_true, if_false, hd, hbi, htime,
              hph.1, hph.2, and_self, if_true]
          · rw [update_select ai boss dt draw hen hd hb (not_lt.mp htime) hph,
              selectSkill_thinkInterval]

/-- A tick that makes no decision: the AI disabled, the Boss dead or busy, or the think
timer still below the interval after the tick's `dt`. -/
theorem update_no_decision (ai : BossAI) (boss : Boss) (dt : ℚ) (draw : ℚ → ℚ)
    (h : ai.enabled = false ∨ boss.dead = true ∨ boss.busy = true ∨
      ai.thinkTimer + dt < ai.thinkInterval) :
    (ai.update boss dt draw).requests = [] ∧
    (ai.update boss dt draw).boss = boss ∧
    ((ai.update boss dt draw).ai.cdLeft = ai.cdLeft ∨
      (ai.update boss dt draw).ai.cdLeft = decrementCooldowns ai.cdLeft dt) ∧
    (ai.enabled = false ∨ boss.dead = true ∨ boss.busy = true →
      (ai.update boss dt draw).ai.thinkTimer = ai.thinkTimer) ∧
    (ai.enabled = true → boss.dead = false → boss.busy = false →
      (ai.update boss dt draw).ai.thinkTimer = ai.thinkTimer + dt) := by
  cases hen : ai.enabled with
  | false =>
    rw [update_disabled ai boss dt draw hen]
    simp
  | true =>
    by_cases hdead : boss.dead = true
    · unfold BossAI.update
      simp [hen, hdead]
    · have hd : boss.dead = false := by simpa using hdead
      by_cases hbusy : boss.busy = true
      · unfold BossAI.update
        simp [hen, hd, Boss.isBusy, hbusy]
      · have hb : boss.busy = false := by simpa using hbusy
        have htime : ai.thinkTimer + dt < ai.thinkInterval := by
          rcases h with h | h | h | h
          · rw [hen] at h
            cases h
          · exact absurd h hdead
          · exact absurd h hbusy
          · exact h
        unfold BossAI.update
        simp [hen, hd, Boss.isBusy, hb, htime]

theorem thinkTime_cons (t : Tick) (rest : List Tick) :
    thinkTime (t :: rest) =
      (if (t.enabled && !t.boss.dead && !t.boss.busy) = true then t.dt else 0) +
        thinkTime rest := by
  unfold thinkTime
  by_cases h : (t.enabled && !t.boss.dead && !t.boss.busy) = true
  · simp [List.filter_cons, h]
  · simp [List.filter_cons, h]

/-- Over a run in which the time accumulated on the ticks that reach the think timer
stays below the interval, no tick decides, and the think timer is that time. -/
theorem runTicks_no_decision (ticks : List Tick) (ai : BossAI)
    (h : ∀ k, k ≤ ticks.length → ai.thinkTimer + thinkTime (ticks.take k) < ai.thinkInterval) :
    (runTicks ai ticks).thinkTimer = ai.thinkTimer + thinkTime ticks ∧
    (runTicks ai ticks).thinkInterval = ai.thinkInterval ∧
    ∀ k (hk : k < ticks.length),
      (tickRun (runTicks ai (ticks.take k)) (ticks.get ⟨k, hk⟩)).requests = [] ∧
      (tickRun (runTicks ai (ticks.take k)) (ticks.get ⟨k, hk⟩)).boss =
        (ticks.get ⟨k, hk⟩).boss := by
  induction ticks generalizing ai with
  | nil =>
    refine ⟨by simp [runTicks, thinkTime], rfl, ?_⟩
    intro k hk
    simp at hk
  | cons t rest ih =>
    have h1 := h 1 (by simp)
    simp only [List.take_succ_cons, List.take_zero] at h1
    rw [thinkTime_cons] at h1
    simp only [thinkTime, List.filter_nil, List.map_nil, List.sum_nil, add_zero] at h1
    have hint : (tickRun ai t).ai.thinkInterval = ai.thinkInterval :=
      update_thinkInterval _ _ _ _
    have hcase : ({ ai with enabled := t.enabled } : BossAI).enabled = false ∨
        t.boss.dead = true ∨ t.boss.busy = true ∨
        ({ ai with enabled := t.enabled } : BossAI).thinkTimer + t.dt <
          ({ ai with enabled := t.enabled } : BossAI).thinkInterval := by
      cases hen : t.enabled with
      | false => exact Or.inl rfl
      | true =>
        cases hd : t.boss.dead with
        | true => exact Or.inr (Or.inl rfl)
        | false =>
          cases hb : t.boss.busy with
          | true => exact Or.inr (Or.inr (Or.inl rfl))
          | false =>
            right; right; right
            simp only [hen, hd, hb, Bool.not_false, Bool.and_self, if_true] at h1
            exact h1
    obtain ⟨n1, n2, _, n4, n5⟩ := update_no_decision { ai with enabled := t.enabled } t.boss t.dt
      t.draw hcase
    have htimer : (tickRun ai t).ai.thinkTimer = ai.thinkTimer +
        (if (t.enabled && !t.boss.dead && !t.boss.busy) = true then t.dt else 0) := by
      cases hen : t.enabled with
      | false =>
        have := n4 (Or.inl (by simp [hen]))
        simp only [tickRun, hen, Bool.false_and, Bool.false_eq_true, if_false, add_zero]
        rw [hen] at this
        exact this
      | true =>
        cases hd : t.boss.dead with
        | true =>
          have := n4 (Or.inr (Or.inl hd))
          simp only [tickRun, hen, hd, Bool.not_true, Bool.and_false, Bool.false_and,
            Bool.false_eq_true, if_false, add_zero]
          rw [hen] at this
          exact this
        | false =>
          cases hb : t.boss.busy with
          | true =>
            have := n4 (Or.inr (Or.inr hb))
            simp only [tickRun, hen, hd, hb, Bool.not_true, Bool.and_false,
              Bool.false_eq_true, if_false, add_zero]
            rw [hen] at this
            exact this
          | false =>
            have := n5 (by simp [hen]) hd hb
            simp only [tickRun, hen, hd, hb, Bool.not_false, Bool.and_self, if_true]
            rw [hen] at this
            exact this
    have hrest : ∀ k, k ≤ rest.length →
        (tickRun ai t).ai.thinkTimer + thinkTime (rest.take k) <
          (tickRun ai t).ai.thinkInterval := by
      intro k hk
      have := h (k + 1) (by simp; exact hk)
      simp only [List.take_succ_cons] at this
      rw [thinkTime_cons] at this
      rw [htimer, hint]
      linarith
    obtain ⟨i1, i2, i3⟩ := ih (tickRun ai t).ai hrest
    rw [runTicks_cons]
    refine ⟨?_, i2.trans hint, ?_⟩
    · rw [i1, htimer, thinkTime_cons]
      ring
    · intro k hk
      cases k with
      | zero => exact ⟨n1, n2⟩
      | succ j =>
        have hj : j < rest.length := by simpa using hk
        exact i3 j hj

theorem livingTime_cons (t : Tick) (rest : List Tick) :
    livingTime (t :: rest) =
      (if (!t.boss.dead && !t.boss.busy) = true then t.dt else 0) + livingTime rest := by
  unfold livingTime
  by_cases h : (!t.boss.dead && !t.boss.busy) = true
  · simp [List.filter_cons, h]
  · simp [List.filter_cons, h]

/-- With frame times `>= 0`, the think time of a part of a run is at most the time
accumulated over all the ticks of the run with a living, non-busy Boss. -/
theorem thinkTime_take_le (ticks : List Tick) (h : ∀ t ∈ ticks, 0 ≤ t.dt) (k : Nat) :
    0 ≤ thinkTime (ticks.take k) ∧ thinkTime (ticks.take k) ≤ livingTime ticks ∧
    0 ≤ livingTime ticks := by
  induction ticks generalizing k with
  | nil => simp [thinkTime, livingTime]
  | cons t rest ih =>
    have ht := h t (List.mem_cons_self _ _)
    have hrest : ∀ u ∈ rest, 0 ≤ u.dt := fun u hu => h u (List.mem_cons_of_mem _ hu)
    rw [livingTime_cons]
    cases k with
    | zero =>
      obtain ⟨_, _, i3⟩ := ih hrest 0
      have h0 : thinkTime (List.take 0 (t :: rest)) = 0 := by simp [thinkTime]
      rw [h0]
      refine ⟨le_refl _, ?_, ?_⟩ <;> split_ifs <;> linarith
    | succ j =>
      obtain ⟨i1, i2, i3⟩ := ih hrest j
      rw [List.take_succ_cons, thinkTime_cons]
      cases hen : t.enabled <;> cases hd : t.boss.dead <;> cases hb : t.boss.busy <;>
        simp <;> refine ⟨?_, ?_, ?_⟩ <;> linarith

/-- C22: a tick makes no decision (no request to the state machine, the Boss with its
phase and pending skill unchanged, cooldowns unchanged or only decremented) whenever the
AI is disabled, the Boss is dead or busy, or the think time is still below the interval;
ticks with a disabled AI or a dead or busy Boss do not advance the think timer, the
other ticks advance it by `dt`; so, from a think timer of 0 (the constructor, or a
decision), the think timer is the time accumulated over the ticks that reach it, and no
tick decides as long as that time, or with `dt >= 0` the time accumulated over the
non-busy living ticks, is below the interval, which is 0.1 s. -/
theorem C22_no_decision_ticks (ai : BossAI) (boss : Boss) (dt : ℚ) (draw : ℚ → ℚ)
    (ticks : List Tick)
    (h : ai.enabled = false ∨ boss.dead = true ∨ boss.busy = true ∨
      ai.thinkTimer + dt < ai.thinkInterval) :
    ((ai.update boss dt draw).requests = [] ∧
      (ai.update boss dt draw).boss = boss ∧
      ((ai.update boss dt draw).ai.cdLeft = ai.cdLeft ∨
        (ai.update boss dt draw).ai.cdLeft = decrementCooldowns ai.cdLeft dt) ∧
      (ai.enabled = false ∨ boss.dead = true ∨ boss.busy = true →
        (ai.update boss dt draw).ai.thinkTimer = ai.thinkTimer) ∧
      (ai.enabled = true → boss.dead = false → boss.busy = false →
        (ai.update boss dt draw).ai.thinkTimer = ai.thinkTimer + dt)) ∧
    ((∀ k, k ≤ ticks.length → ai.thinkTimer + thinkTime (ticks.take k) < ai.thinkInterval) →
      (runTicks ai ticks).thinkTimer = ai.thinkTimer + thinkTime ticks ∧
      ∀ k (hk : k < ticks.length),
        (tickRun (runTicks ai (ticks.take k)) (ticks.get ⟨k, hk⟩)).requests = [] ∧
        (tickRun (runTicks ai (ticks.take k)) (ticks.get ⟨k, hk⟩)).boss =
          (ticks.get ⟨k, hk⟩).boss) ∧
    ((∀ t ∈ ticks, 0 ≤ t.dt) → ai.thinkTimer + livingTime ticks < ai.thinkInterval →
      ∀ k (hk : k < ticks.length),
        (tickRun (runTicks ai (ticks.take k)) (ticks.get ⟨k, hk⟩)).requests = [] ∧
        (tickRun (runTicks ai (ticks.take k)) (ticks.get ⟨k, hk⟩)).boss =
          (ticks.get ⟨k, hk⟩).boss) ∧
    BossAI.new.thinkInterval = 1 / 10 ∧ BossAI.new.thinkTimer = 0 := by
  refine ⟨update_no_decision ai boss dt draw h, ?_, ?_, rfl, rfl⟩
  · intro hp
    obtain ⟨i1, _, i3⟩ := runTicks_no_decision ticks ai hp
    exact ⟨i1, i3⟩
  · intro hdt hlt
    have hp : ∀ k, k ≤ ticks.length →
        ai.thinkTimer + thinkTime (ticks.take k) < ai.thinkInterval := by
      intro k _
      have := (thinkTime_take_le ticks hdt k).2.1
      linarith
    exact (runTicks_no_decision ticks ai hp).2.2

/-- C22 on the built-in AI: a tick of 0.05 s with the target in range decides nothing
and leaves the think timer at 0.05. -/
theorem C22_no_decision_ticks_witness :
    (BossAI.new.update (sampleBoss 30) (1 / 20) (fun s => s / 2)).requests = [] ∧
    (BossAI.new.update (sampleBoss 30) (1 / 20) (fun s => s / 2)).boss = sampleBoss 30 ∧
    (BossAI.new.update (sampleBoss 30) (1 / 20) (fun s => s / 2)).ai.thinkTimer = 1 / 20 :=
  have h := (C22_no_decision_ticks BossAI.new (sampleBoss 30) (1 / 20) (fun s => s / 2) []
    (Or.inr (Or.inr (Or.inr (by decide!))))).1
  ⟨h.1, h.2.1, by rw [h.2.2.2.2 rfl rfl rfl]; decide!⟩

/-- C23 at a dead target: the built-in AI, on its first decision tick, facing a target
that is dead and 30 units away, selects `Combo3`: it sets the pending skill and
requests `Attack`; with a null target the same tick requests `Chase`. -/
theorem C23_dead_target_attacked :
    (BossAI.new.update ((sampleBoss 0).withTarget (some ⟨true, 30⟩)) (1 / 10)
      (fun s => s / 2)).requests = ["Attack"] ∧
    (BossAI.new.update ((sampleBoss 0).withTarget (some ⟨true, 30⟩)) (1 / 10)
      (fun s => s / 2)).boss.pendingSkill = "Combo3" ∧
    (BossAI.new.update ((sampleBoss 0).withTarget none) (1 / 10)
      (fun s => s / 2)).requests = ["Chase"] ∧
    (BossAI.new.update ((sampleBoss 0).withTarget none) (1 / 10)
      (fun s => s / 2)).boss.pendingSkill = "" := by
  refine ⟨by decide!, by decide!, by decide!, by decide!⟩

/-- The candidates are skills of the table that pass the phase and range tests. -/
theorem collect_subset (phase : Int) (dist : ℚ) (skills : List BossAISkill)
    (acc : List BossAISkill × List (String × ℚ)) :
    ∀ s ∈ (skills.foldl (collectStep phase dist) acc).1,
      s ∈ acc.1 ∨ (s ∈ skills ∧ Int.land s.phaseMask phase ≠ 0 ∧
        s.rangeMin ≤ dist ∧ dist ≤ s.rangeMax) := by
  induction skills generalizing acc with
  | nil =>
    intro s hs
    exact Or.inl hs
  | cons a rest ih =>
    intro s hs
    rw [List.foldl_cons] at hs
    rcases ih _ s hs with h | ⟨h1, h2⟩
    · unfold collectStep at h
      split_ifs at h with c1 c2 c3
      · exact Or.inl h
      · exact Or.inl h
      · exact Or.inl h
      · rcases List.mem_append.mp h with h | h
        · exact Or.inl h
        · rw [List.mem_singleton] at h
          subst h
          right
          rw [not_or, not_lt, not_lt] at c2
          exact ⟨List.mem_cons_self _ _, c1, c2.1, c2.2⟩
    · exact Or.inr ⟨List.mem_cons_of_mem _ h1, h2⟩

theorem collectCandidates_subset (skills : List BossAISkill) (phase : Int) (dist : ℚ)
    (cd : List (String × ℚ)) :
    ∀ s ∈ (collectCandidates skills phase dist cd).1,
      s ∈ skills ∧ Int.land s.phaseMask phase ≠ 0 ∧ s.rangeMin ≤ dist ∧ dist ≤ s.rangeMax := by
  intro s hs
  rcases collect_subset phase dist skills ([], cd) s hs with h | h
  · cases h
  · exact h

/-- Skill selection on an empty candidate list requests `Chase`. -/
theorem selectSkill_of_no_candidate (ai : BossAI) (boss : Boss) (draw : ℚ → ℚ)
    (h : (collectCandidates ai.skills boss.phase boss.distanceToPlayer ai.cdLeft).1 = []) :
    (selectSkill ai boss draw).requests = ["Chase"] ∧ (selectSkill ai boss draw).boss = boss := by
  unfold selectSkill
  simp only [h]
  simp [pickByWeight]

/-- The pending skill set by skill selection is the name of a candidate. -/
theorem selectSkill_attack (ai : BossAI) (boss : Boss) (draw : ℚ → ℚ)
    (h : (selectSkill ai boss draw).requests = ["Attack"]) :
    ∃ s ∈ (collectCandidates ai.skills boss.phase boss.distanceToPlayer ai.cdLeft).1,
      (selectSkill ai boss draw).boss.pendingSkill = s.name ∧
      ((boss.phase = 2 ∧ boss.distanceToPlayer > M 6) ∨
        pickByWeight draw
          (collectCandidates ai.skills boss.phase boss.distanceToPlayer ai.cdLeft).1 = some s) := by
  unfold selectSkill at h ⊢
  simp only at h ⊢
  generalize (collectCandidates ai.skills boss.phase boss.distanceToPlayer ai.cdLeft).1 = cands
    at h ⊢
  cases hleap : (if boss.phase = 2 ∧ boss.distanceToPlayer > M 6 then
      cands.find? (fun s => decide (s.name = "LeapSlam")) else none) with
  | some s =>
    have hc : boss.phase = 2 ∧ boss.distanceToPlayer > M 6 := by
      by_contra hc
      rw [if_neg hc] at hleap
      cases hleap
    rw [if_pos hc] at hleap
    have hname : s.name = "LeapSlam" := by
      have := List.find?_some hleap
      simpa using this
    refine ⟨s, List.mem_of_find?_eq_some hleap, ?_, Or.inl hc⟩
    simp only [Boss.setPendingSkill, hname]
  | none =>
    rw [hleap] at h
    simp only at h ⊢
    cases hp : pickByWeight draw cands with
    | none =>
      rw [hp] at h
      simp at h
    | some pick =>
      have hmem : pick ∈ cands := by
        unfold pickByWeight at hp
        exact List.getElem?_mem hp
      exact ⟨pick, hmem, by simp [Boss.setPendingSkill], Or.inr rfl⟩

/-- C27: with the built-in skill table, at every distance above the long-range
threshold `M(6) = 600` the candidate list is empty in every phase, whatever the
cooldowns: no tick requests `Attack` or sets a pending skill, the phase-2 `LeapSlam`
branch included, and a tick that reaches skill selection requests `Chase`; in phase 1
`LeapSlam` is not a candidate at any distance and is never selected. -/
theorem C27_builtin_table_long_range (ai : BossAI) (boss : Boss) (dt : ℚ) (draw : ℚ → ℚ)
    (hskills : ai.skills = initSkills) :
    M 6 = 600 ∧
    (600 < boss.distanceToPlayer →
      (∀ phase cd, (collectCandidates ai.skills phase boss.distanceToPlayer cd).1 = []) ∧
      (ai.update boss dt draw).requests ≠ ["Attack"] ∧
      (ai.update boss dt draw).boss.pendingSkill = boss.pendingSkill ∧
      (ai.enabled = true → boss.dead = false → boss.busy = false →
        ai.thinkInterval ≤ ai.thinkTimer + dt →
        ¬ (boss.phase = 1 ∧ boss.healthRatio ≤ 1 / 2) →
        (ai.update boss dt draw).requests = ["Chase"] ∧ (ai.update boss dt draw).boss = boss)) ∧
    (boss.phase = 1 →
      (∀ dist cd, ∀ s ∈ (collectCandidates ai.skills 1 dist cd).1, s.name ≠ "LeapSlam") ∧
      ((ai.update boss dt draw).requests = ["Attack"] →
        (ai.update boss dt draw).boss.pendingSkill ≠ "LeapSlam")) := by
  have hrange : ∀ s ∈ initSkills, s.rangeMax ≤ 500 := by decide!
  have hmask : ∀ s ∈ initSkills, s.name = "LeapSlam" → Int.land s.phaseMask 1 = 0 := by
    decide!
  have hempty : 600 < boss.distanceToPlayer →
      ∀ phase cd, (collectCandidates ai.skills phase boss.distanceToPlayer cd).1 = [] := by
    intro hd phase cd
    rw [List.eq_nil_iff_forall_not_mem]
    intro s hs
    obtain ⟨h1, _, _, h4⟩ := collectCandidates_subset _ _ _ _ s hs
    rw [hskills] at h1
    have := hrange s h1
    linarith
  have hphase1 : ∀ dist cd, ∀ s ∈ (collectCandidates ai.skills 1 dist cd).1,
      s.name ≠ "LeapSlam" := by
    intro dist cd s hs hname
    obtain ⟨h1, h2, _, _⟩ := collectCandidates_subset _ _ _ _ s hs
    rw [hskills] at h1
    exact h2 (hmask s h1 hname)
  refine ⟨by norm_num [M], ?_, ?_⟩
  · intro hd
    refine ⟨hempty hd, ?_, ?_, ?_⟩
    · intro hreq
      cases hen : ai.enabled with
      | false =>
        rw [update_disabled ai boss dt draw hen] at hreq
        simp at hreq
      | true =>
        rcases update_enabled_cases ai boss dt draw hen with ⟨_, _, hr | hr⟩ | ⟨_, hsel⟩
        · rw [hr] at hreq
          simp at hreq
        · rw [hr] at hreq
          simp at hreq
        · rw [hsel] at hreq
          have := (selectSkill_of_no_candidate
            { ai with cdLeft := decrementCooldowns ai.cdLeft dt, thinkTimer := 0 } boss draw
            (hempty hd _ _)).1
          rw [this] at hreq
          simp at hreq
    · cases hen : ai.enabled with
      | false => rw [update_disabled ai boss dt draw hen]
      | true =>
        by_cases hdead : boss.dead = true
        · unfold BossAI.update
          simp [hen, hdead]
        · have hd0 : boss.dead = false := by simpa using hdead
          by_cases hbusy : boss.busy = true
          · unfold BossAI.update
            simp [hen, hd0, Boss.isBusy, hbusy]
          · have hb : boss.busy = false := by simpa using hbusy
            by_cases htime : ai.thinkTimer + dt < ai.thinkInterval
            · unfold BossAI.update
              simp [hen, hd0, Boss.isBusy, hb, htime]
            · by_cases hph : boss.phase = 1 ∧ boss.healthRatio ≤ 1 / 2
              · have hbi : boss.isBusy = false := by simp [Boss.isBusy, hd0, hb]
                unfold BossAI.update
                simp only [hen, Bool.not_true, Bool.false_eq_true, if_false, hd0, hbi, htime,
                  hph.1, hph.2, and_self, if_true]
                rfl
              · rw [update_select ai boss dt draw hen hd0 hb (not_lt.mp htime) hph]
                rw [(selectSkill_of_no_candidate
                  { ai with cdLeft := decrementCooldowns ai.cdLeft dt, thinkTimer := 0 } boss
                  draw (hempty hd _ _)).2]
    · intro hen hd0 hb htime hph
      rw [update_select ai boss dt draw hen hd0 hb htime hph]
      exact selectSkill_of_no_candidate
        { ai with cdLeft := decrementCooldowns ai.cdLeft dt, thinkTimer := 0 } boss draw
        (hempty hd _ _)
  · intro hp1
    refine ⟨hphase1, ?_⟩
    intro hreq
    cases hen : ai.enabled with
    | false =>
      rw [update_disabled ai boss dt draw hen] at hreq
      simp at hreq
    | true =>
      rcases update_enabled_cases ai boss dt draw hen with ⟨_, _, hr | hr⟩ | ⟨_, hsel⟩
      · rw [hr] at hreq
        simp at hreq
      · rw [hr] at hreq
        simp at hreq
      · rw [hsel] at hreq ⊢
        obtain ⟨s, hs, hpend, _⟩ := selectSkill_attack _ boss draw hreq
        rw [hpend]
        simp only at hs
        rw [hp1] at hs
        exact hphase1 _ _ s hs

/-- C27 on the built-in AI with the target 700 units away, in phase 2: `Chase`. -/
theorem C27_builtin_table_long_range_witness :
    (BossAI.new.update { sampleBoss 700 with phase := 2 } (1 / 10) (fun s => s / 2)).requests
      = ["Chase"] :=
  ((C27_builtin_table_long_range BossAI.new { sampleBoss 700 with phase := 2 } (1 / 10)
    (fun s => s / 2) rfl).2.1 (by decide!)).2.2.2 rfl rfl rfl (by decide!) (by decide!) |>.1

/-! ### The grid lookup against the reference scan -/

/-- With true extents, the footprint of a triangle lies in its XZ bounding rectangle. -/
theorem footprint_in_extent {tri : Triangle} (h : hasTrueExtents tri) {x z : ℚ}
    (hf : inFootprint tri x z) : inExtent tri x z := by
  obtain ⟨u, v, hu, hv, huv, ex, ez⟩ := hf
  unfold hasTrueExtents at h
  unfold inExtent
  rw [h, ex, ez]
  simp only [mkTriangle]
  refine ⟨convex_ge (min_le_left _ _) ((min_le_right _ _).trans (min_le_left _ _))
      ((min_le_right _ _).trans (min_le_right _ _)) hu hv huv,
    convex_le (le_max_left _ _) ((le_max_left _ _).trans (le_max_right _ _))
      ((le_max_right _ _).trans (le_max_right _ _)) hu hv huv,
    convex_ge (min_le_left _ _) ((min_le_right _ _).trans (min_le_left _ _))
      ((min_le_right _ _).trans (min_le_right _ _)) hu hv huv,
    convex_le (le_max_left _ _) ((le_max_left _ _).trans (le_max_right _ _))
      ((le_max_right _ _).trans (le_max_right _ _)) hu hv huv⟩

/-- For a vertical ray and true extents, every triangle of a built collider accepted by
`intersectTriangle` is stored in the cell of the ray and passes the 2D filter. -/
theorem accepted_in_cell {tris : List Triangle} (g0 : Grid) {ray : CustomRay}
    (hext : ∀ tri ∈ tris, hasTrueExtents tri)
    (hx : ray.direction.x = 0) (hz : ray.direction.z = 0) {t : ℚ}
    (ht : t ∈ acceptedParams (buildGrid ⟨tris, g0⟩) ray) :
    ∃ idx ∈ cellOfRay (buildGrid ⟨tris, g0⟩).grid ray,
      accepts (buildGrid ⟨tris, g0⟩).triangles ray idx t := by
  unfold acceptedParams at ht
  rw [buildGrid_triangles] at ht ⊢
  obtain ⟨tri, hmem, hint⟩ := List.mem_filterMap.mp ht
  obtain ⟨n, hn⟩ := List.mem_iff_getElem?.mp hmem
  have hfoot := intersectTriangle_vertical_footprint hx hz hint
  obtain ⟨e1, e2, e3, e4⟩ := footprint_in_extent (hext tri hmem) hfoot
  have hskip : skipByExtent ray tri = false := by
    unfold skipByExtent
    simp only [decide_eq_false_iff_not]
    push_neg
    exact ⟨e1, e2, e3, e4⟩
  exact ⟨n, buildGrid_mem_cellOfRay g0 hn hskip, tri, hn, hskip, hint⟩

theorem accepts_mem_acceptedParams {tc : TerrainCollider} {ray : CustomRay} {idx : Nat} {t : ℚ}
    (h : accepts tc.triangles ray idx t) : t ∈ acceptedParams tc ray := by
  obtain ⟨tri, hn, _, hint⟩ := h
  exact List.mem_filterMap.mpr ⟨tri, List.getElem?_mem hn, hint⟩

/-- C24 (as amended): for a collider built by `buildGrid` from triangles whose XZ
extents are the true minimum and maximum of their corners, and a ray whose direction
has zero X and Z components, `rayIntersects` returns the flag and the distance of the
scan that applies `intersectTriangle` to every triangle and keeps the smallest accepted
`t` below the starting value `FLT_MAX` of `closestDist`; when every accepted `t` is
below `FLT_MAX`, that is the scan keeping the smallest accepted `t`. -/
theorem C24_grid_refines_scan (tris : List Triangle) (g0 : Grid) (ray : CustomRay)
    (hitDist : ℚ) (hext : ∀ tri ∈ tris, hasTrueExtents tri)
    (hx : ray.direction.x = 0) (hz : ray.direction.z = 0) :
    rayIntersects (buildGrid ⟨tris, g0⟩) ray hitDist =
      bruteForceBelow FLT_MAX (buildGrid ⟨tris, g0⟩) ray hitDist ∧
    ((∀ t ∈ acceptedParams (buildGrid ⟨tris, g0⟩) ray, t < FLT_MAX) →
      rayIntersects (buildGrid ⟨tris, g0⟩) ray hitDist =
        bruteForceScan (buildGrid ⟨tris, g0⟩) ray hitDist) := by
  have hbelow : rayIntersects (buildGrid ⟨tris, g0⟩) ray hitDist =
      bruteForceBelow FLT_MAX (buildGrid ⟨tris, g0⟩) ray hitDist := by
    rcases rayIntersects_cases (buildGrid ⟨tris, g0⟩) ray hitDist with
      ⟨h1, h2⟩ | ⟨h1, h2, ⟨idx, hidx, hacc⟩, h4⟩
    · have hnil : (acceptedParams (buildGrid ⟨tris, g0⟩) ray).filter
          (fun t => decide (t < FLT_MAX)) = [] := by
        rw [List.eq_nil_iff_forall_not_mem]
        intro t ht
        obtain ⟨hm, hlt⟩ := List.mem_filter.mp ht
        obtain ⟨i, hi, ha⟩ := accepted_in_cell g0 hext hx hz hm
        have := h2 i hi t ha
        simp only [decide_eq_true_eq] at hlt
        linarith
      rw [h1]
      unfold bruteForceBelow
      rw [hnil]
      rfl
    · have hmin : ((acceptedParams (buildGrid ⟨tris, g0⟩) ray).filter
          (fun t => decide (t < FLT_MAX))).minimum =
          ((rayIntersects (buildGrid ⟨tris, g0⟩) ray hitDist).2 : WithTop ℚ) := by
        rw [List.minimum_eq_coe_iff]
        refine ⟨List.mem_filter.mpr ⟨accepts_mem_acceptedParams hacc, by simpa using h2⟩, ?_⟩
        intro a ha
        obtain ⟨hm, _⟩ := List.mem_filter.mp ha
        obtain ⟨i, hi, hacc2⟩ := accepted_in_cell g0 hext hx hz hm
        exact h4 i hi a hacc2
      unfold bruteForceBelow
      rw [hmin]
      exact Prod.ext h1 rfl
  refine ⟨hbelow, ?_⟩
  intro hall
  rw [hbelow]
  unfold bruteForceBelow bruteForceScan
  have : (acceptedParams (buildGrid ⟨tris, g0⟩) ray).filter (fun t => decide (t < FLT_MAX)) =
      acceptedParams (buildGrid ⟨tris, g0⟩) ray := by
    rw [List.filter_eq_self]
    intro t ht
    simpa using hall t ht
  rw [this]

/-- C24, as amended, at `unitCollider`: from `(1/4, 5, 1/4)` both scans report a hit at
distance 5. -/
theorem C24_grid_refines_scan_witness :
    rayIntersects unitCollider (downRay (1/4) 5 (1/4)) 77 =
      bruteForceScan unitCollider (downRay (1/4) 5 (1/4)) 77 ∧
    bruteForceScan unitCollider (downRay (1/4) 5 (1/4)) 77 = (true, 5) :=
  ⟨(C24_grid_refines_scan [unitTriangle] blankGrid (downRay (1/4) 5 (1/4)) 77
      (fun tri h => by rw [List.mem_singleton] at h; subst h; rfl) rfl rfl).2 (by decide!),
    by decide!⟩

/-- C24 as stated fails: at `unitCollider` (one triangle, true extents) the downward
ray from `(1/4, FLT_MAX, 1/4)` is a miss for `rayIntersects`, while the scan over all
triangles accepts the triangle and reports the distance `FLT_MAX`. -/
theorem C24_counterexample :
    (∀ tri ∈ unitCollider.triangles, hasTrueExtents tri) ∧
    rayIntersects unitCollider (downRay (1/4) FLT_MAX (1/4)) 77 = (false, 77) ∧
    bruteForceScan unitCollider (downRay (1/4) FLT_MAX (1/4)) 77 = (true, FLT_MAX) :=
  ⟨fun tri h => by
      have e : unitCollider.triangles = [unitTriangle] := by decide!
      rw [e, List.mem_singleton] at h
      subst h
      rfl,
    by decide!, by decide!⟩

/-! ### Claims about `HealthComponent` and the Boss health hook -/

/-- On a dead component `takeDamage` and `heal` change nothing and invoke no
callback. -/
theorem dead_takeDamage_heal (h : HealthComponent) (x : ℚ) (hd : h._isDead = true) :
    h.takeDamage x = (h, []) ∧ h.heal x = (h, []) := by
  constructor
  · unfold HealthComponent.takeDamage
    simp [hd]
  · unfold HealthComponent.heal
    simp [hd]

/-- C30 at a dead component: after `init(100)` and `takeDamage(100)` the component is
dead with health 0; `fullHeal()` then sets the health to 100 and leaves it dead; a
further `takeDamage(30)` and `heal(5)` change nothing. -/
theorem C30_fullHeal_on_dead :
    (runHealthOps (HealthComponent.new.init 100).2 [HealthOp.takeDamage 100]).isDead = true ∧
    (runHealthOps (HealthComponent.new.init 100).2 [HealthOp.takeDamage 100])._currentHealth = 0 ∧
    (runHealthOps (HealthComponent.new.init 100).2
      [HealthOp.takeDamage 100, HealthOp.fullHeal]).isDead = true ∧
    (runHealthOps (HealthComponent.new.init 100).2
      [HealthOp.takeDamage 100, HealthOp.fullHeal])._currentHealth = 100 ∧
    (runHealthOps (HealthComponent.new.init 100).2
      [HealthOp.takeDamage 100, HealthOp.fullHeal, HealthOp.takeDamage 30,
        HealthOp.heal 5])._currentHealth = 100 := by
  refine ⟨by decide!, by decide!, by decide!, by decide!, by decide!⟩

theorem bossHealthCallback_healed (k : Nat) (c : BossBody) (x y : ℚ)
    (hc : c.hasHealed = true) : bossHealthCallback k c x y = c := by
  cases k with
  | zero => rfl
  | succ n =>
    rw [bossHealthCallback]
    simp [hc]

theorem foldl_callback_healed (k : Nat) (evs : List HealthEvent) (c : BossBody)
    (hc : c.hasHealed = true) :
    evs.foldl (fun acc ev =>
      match ev with
      | HealthEvent.onHealthChange x y => bossHealthCallback k acc x y
      | _ => acc) c = c := by
  induction evs with
  | nil => rfl
  | cons e rest ih =>
    rw [List.foldl_cons]
    cases e with
    | onHurt d => exact ih
    | onDead => exact ih
    | onHealthChange x y =>
      simp only
      rw [bossHealthCallback_healed k c x y hc]
      exact ih

/-- The health-change callback of the Boss in closed form: with any fuel (the inner
call from `fullHeal` finds `_hasHealed` set and changes nothing). -/
theorem bossHealthCallback_succ (k : Nat) (b : BossBody) (current max : ℚ) :
    bossHealthCallback (k + 1) b current max =
      if (!b.hasHealed) = true ∧ percentAtMostHalf current max = true ∧ (!b.isDead) = true then
        { b with hasHealed := true, phase := 2, health := b.health.fullHeal.1,
                 requests := b.requests ++ ["PhaseChange"] }
      else b := by
  rw [bossHealthCallback]
  split_ifs with h
  · simp only
    rw [foldl_callback_healed k _ _ rfl]
  · rfl

/-- The health-change callback of the Boss does not depend on the fuel from depth 1
on. -/
theorem bossHealthCallback_fuel (n : Nat) (b : BossBody) (current max : ℚ) :
    bossHealthCallback (n + 1) b current max = bossHealthCallback 2 b current max := by
  rw [bossHealthCallback_succ n, bossHealthCallback_succ 1]

/-- The outcome of `takeDamage` on a living, vulnerable Boss that has not used its
heal and survives the damage: the phase-2 hook runs exactly when the health after the
damage is at most half the health before it. -/
theorem takeDamage_hook (b : BossBody) (damage : ℚ)
    (hinv : b.health._isInvincible = false) (hdead : b.health._isDead = false)
    (hheal : b.hasHealed = false)
    (hsurv : max damage 0 < b.health._currentHealth) :
    (percentAtMostHalf (b.health._currentHealth - max damage 0) b.health._currentHealth = true →
      (b.takeDamage damage).phase = 2 ∧ (b.takeDamage damage).hasHealed = true ∧
      (b.takeDamage damage).health._currentHealth = b.health._maxHealth ∧
      (b.takeDamage damage).requests = b.requests ++ ["Hit", "PhaseChange"]) ∧
    (percentAtMostHalf (b.health._currentHealth - max damage 0) b.health._currentHealth = false →
      (b.takeDamage damage).phase = b.phase ∧ (b.takeDamage damage).hasHealed = false ∧
      (b.takeDamage damage).health._currentHealth = b.health._currentHealth - max damage 0 ∧
      (b.takeDamage damage).requests = b.requests ++ ["Hit"]) := by
  have hcur : max (b.health._currentHealth - max damage 0) 0 =
      b.health._currentHealth - max damage 0 := max_eq_left (by linarith)
  have hnot : ¬ (b.health._currentHealth - max damage 0 ≤ 0) := by
    intro h
    linarith
  have hstep : b.takeDamage damage =
      bossHealthCallback 2
        { b with health := { b.health with
                   _currentHealth := b.health._currentHealth - max damage 0 },
                 requests := b.requests ++ ["Hit"] }
        (b.health._currentHealth - max damage 0) b.health._currentHealth := by
    unfold BossBody.takeDamage
    simp only [hinv, hdead, Bool.false_eq_true, if_false, BossBody.onHurtCallback,
      BossBody.isDead, HealthComponent.isDead, Bool.not_false, if_true, hcur, hnot,
      false_and]
  rw [hstep, bossHealthCallback_succ 1]
  constructor
  · intro hp
    simp [hheal, hp, BossBody.isDead, HealthComponent.isDead, hdead,
      HealthComponent.fullHeal]
    split_ifs <;> rfl
  · intro hp
    simp [hheal, hp]

/-- C25 at a Boss with maximum health 100: after `takeDamage(40)` the health is 60;
`takeDamage(15)` then leaves the health at 45, 45% of the maximum, and the phase-2 hook
has not run (phase 1, heal not used, no `PhaseChange` request): the callback compared
45 with the previous health 60.  A single `takeDamage(55)` from 100 does run the
hook. -/
theorem C25_hook_compares_with_previous_health :
    ((BossBody.new.takeDamage 40).takeDamage 15).health._currentHealth = 45 ∧
    ((BossBody.new.takeDamage 40).takeDamage 15).health._maxHealth = 100 ∧
    ((BossBody.new.takeDamage 40).takeDamage 15).health.getHealthPercentage ≤ 1 / 2 ∧
    ((BossBody.new.takeDamage 40).takeDamage 15).isDead = false ∧
    ((BossBody.new.takeDamage 40).takeDamage 15).phase = 1 ∧
    ((BossBody.new.takeDamage 40).takeDamage 15).hasHealed = false ∧
    ((BossBody.new.takeDamage 40).takeDamage 15).requests = ["Hit", "Hit"] ∧
    (BossBody.new.takeDamage 55).phase = 2 ∧
    (BossBody.new.takeDamage 55).health._currentHealth = 100 ∧
    (BossBody.new.takeDamage 55).requests = ["Hit", "PhaseChange"] := by
  refine ⟨by decide!, by decide!, by decide!, by decide!, by decide!, by decide!, by decide!,
    by decide!, by decide!, by decide!⟩

/-! ### Claims about `BossAttackState` -/

/-- One call of `onUpdate`, by cases: a dead Boss requests `Dead` and nothing else
changes; otherwise the stage stays or advances to the next one when the timer reaches
its duration, the damage check runs only in the Active stage with `_didHit` unset, and
`Chase` is requested only from Recovery. -/
theorem onUpdate_step (st : BossAttackState) (dead : Bool) (dt : ℚ) :
    (st.onUpdate dead dt).1.cfg = st.cfg ∧
    (dead = true → st.onUpdate dead dt = (st, [AttackEvent.changeState "Dead"])) ∧
    (dead = false →
      (((st.onUpdate dead dt).1.stage = st.stage ∧
          (st.onUpdate dead dt).1.timer = st.timer + dt) ∨
        ((st.onUpdate dead dt).1.timer = 0 ∧ st.stage.duration st.cfg ≤ st.timer + dt ∧
          ((st.stage = Stage.Windup ∧ 0 < st.cfg.moveTime ∧
              (st.onUpdate dead dt).1.stage = Stage.Move) ∨
            (st.stage = Stage.Windup ∧ st.cfg.moveTime ≤ 0 ∧
              (st.onUpdate dead dt).1.stage = Stage.Active ∧
              (st.onUpdate dead dt).1.didHit = false) ∨
            (st.stage = Stage.Move ∧ (st.onUpdate dead dt).1.stage = Stage.Active ∧
              (st.onUpdate dead dt).1.didHit = false) ∨
            (st.stage = Stage.Active ∧ (st.onUpdate dead dt).1.stage = Stage.Recovery)))) ∧
      (AttackEvent.applyHitOnce ∈ (st.onUpdate dead dt).2 ↔
        st.stage = Stage.Active ∧ st.didHit = false) ∧
      (st.onUpdate dead dt).2.count AttackEvent.applyHitOnce + hitsLeft (st.onUpdate dead dt).1
        ≤ hitsLeft st ∧
      (∀ name, AttackEvent.changeState name ∈ (st.onUpdate dead dt).2 →
        name = "Chase" ∧ st.stage = Stage.Recovery ∧ st.cfg.recovery ≤ st.timer + dt)) := by
  refine ⟨?_, ?_, ?_⟩
  · unfold BossAttackState.onUpdate
    cases dead with
    | true => rfl
    | false =>
      simp only [Bool.false_eq_true, if_false]
      cases hs : st.stage <;> simp only [BossAttackState.gotoStage] <;> split_ifs <;> rfl
  · intro hd
    subst hd
    rfl
  · intro hd
    subst hd
    obtain ⟨stage, timer, didHit, cfg⟩ := st
    cases stage with
    | Windup =>
      by_cases h1 : timer + dt ≥ cfg.windup
      · by_cases h2 : cfg.moveTime > 0
        · simp [BossAttackState.onUpdate, BossAttackState.gotoStage, h1, h2, Stage.duration,
            hitsLeft]
        · have h3 := not_lt.mp h2
          simp [BossAttackState.onUpdate, BossAttackState.gotoStage, h1, h2, Stage.duration,
            hitsLeft]
          exact h3
      · simp [BossAttackState.onUpdate, h1, hitsLeft]
    | Move =>
      by_cases h1 : timer + dt ≥ cfg.moveTime
      · simp [BossAttackState.onUpdate, BossAttackState.gotoStage, h1, Stage.duration,
          hitsLeft]
      · simp [BossAttackState.onUpdate, h1, hitsLeft]
    | Active =>
      by_cases h1 : timer + dt ≥ cfg.active
      · cases didHit <;>
          by_cases h2 : cfg.skill = "LeapSlam" <;>
          simp [BossAttackState.onUpdate, BossAttackState.gotoStage, h1, h2, Stage.duration,
            hitsLeft]
      · cases didHit <;> simp [BossAttackState.onUpdate, h1, hitsLeft]
    | Recovery =>
      by_cases h1 : timer + dt ≥ cfg.recovery
      · simp [BossAttackState.onUpdate, h1, hitsLeft]
      · simp [BossAttackState.onUpdate, h1, hitsLeft]

theorem runAttack_cons (st : BossAttackState) (f : AttackFrame) (rest : List AttackFrame) :
    runAttack st (f :: rest) =
      ((runAttack (st.onUpdate f.dead f.dt).1 rest).1,
        (st.onUpdate f.dead f.dt).2 ++ (runAttack (st.onUpdate f.dead f.dt).1 rest).2) := rfl

theorem runAttack_append (st : BossAttackState) (l1 l2 : List AttackFrame) :
    (runAttack st (l1 ++ l2)).1 = (runAttack (runAttack st l1).1 l2).1 := by
  induction l1 generalizing st with
  | nil => rfl
  | cons f rest ih =>
    rw [List.cons_append, runAttack_cons, runAttack_cons]
    exact ih _

theorem runAttack_cfg (st : BossAttackState) (frames : List AttackFrame) :
    (runAttack st frames).1.cfg = st.cfg := by
  induction frames generalizing st with
  | nil => rfl
  | cons f rest ih =>
    rw [runAttack_cons]
    exact (ih _).trans (onUpdate_step st f.dead f.dt).1

theorem aliveTime_cons (f : AttackFrame) (rest : List AttackFrame) :
    aliveTime (f :: rest) = (if f.dead = true then 0 else f.dt) + aliveTime rest := by
  unfold aliveTime
  cases hd : f.dead <;> simp [List.filter_cons, hd]

/-- Over any sequence of calls, the damage check runs at most as often as the state
at the start allows: at most once. -/
theorem runAttack_hits (st : BossAttackState) (frames : List AttackFrame) :
    (runAttack st frames).2.count AttackEvent.applyHitOnce ≤ hitsLeft st := by
  induction frames generalizing st with
  | nil => simp [runAttack]
  | cons f rest ih =>
    rw [runAttack_cons]
    simp only [List.count_append]
    have h1 := ih (st.onUpdate f.dead f.dt).1
    cases hd : f.dead with
    | true =>
      rw [hd] at h1
      rw [(onUpdate_step st true f.dt).2.1 rfl] at h1 ⊢
      simp only [List.count_cons, List.count_nil] at h1 ⊢
      simpa using h1
    | false =>
      rw [hd] at h1
      have h2 := ((onUpdate_step st false f.dt).2.2 rfl).2.2.1
      omega

/-- The stage in which a run of calls starts is left only on a frame on which the
timer, advanced by the frames with a living Boss, has reached the duration of the
stage; the next stage then starts with the timer at 0. -/
theorem runAttack_stage_exit (frames : List AttackFrame) (st : BossAttackState)
    (h : (runAttack st frames).1.stage ≠ st.stage) :
    ∃ k, k < frames.length ∧
      (runAttack st (frames.take k)).1.stage = st.stage ∧
      (runAttack st (frames.take (k + 1))).1.stage ≠ st.stage ∧
      (runAttack st (frames.take (k + 1))).1.timer = 0 ∧
      st.stage.duration st.cfg ≤ st.timer + aliveTime (frames.take (k + 1)) ∧
      ((st.stage = Stage.Windup ∧ 0 < st.cfg.moveTime ∧
          (runAttack st (frames.take (k + 1))).1.stage = Stage.Move) ∨
        (st.stage = Stage.Windup ∧ st.cfg.moveTime ≤ 0 ∧
          (runAttack st (frames.take (k + 1))).1.stage = Stage.Active) ∨
        (st.stage = Stage.Move ∧
          (runAttack st (frames.take (k + 1))).1.stage = Stage.Active) ∨
        (st.stage = Stage.Active ∧
          (runAttack st (frames.take (k + 1))).1.stage = Stage.Recovery)) := by
  induction frames generalizing st with
  | nil => exact absurd rfl h
  | cons f rest ih =>
    by_cases hs : (st.onUpdate f.dead f.dt).1.stage = st.stage
    · have hcfg := (onUpdate_step st f.dead f.dt).1
      have htimer : (st.onUpdate f.dead f.dt).1.timer =
          st.timer + (if f.dead = true then 0 else f.dt) := by
        cases hd : f.dead with
        | true =>
          rw [(onUpdate_step st true f.dt).2.1 rfl]
          simp
        | false =>
          rcases ((onUpdate_step st false f.dt).2.2 rfl).1 with ⟨_, ht⟩ | ⟨_, _, hc⟩
          · simpa using ht
          · rw [hd] at hs
            rcases hc with ⟨a, _, b⟩ | ⟨a, _, b, _⟩ | ⟨a, b, _⟩ | ⟨a, b⟩ <;>
              · rw [a, b] at hs
                cases hs
      rw [runAttack_cons] at h
      simp only at h
      rw [← hs] at h
      obtain ⟨k, hk, e1, e2, e3, e4, e5⟩ := ih (st.onUpdate f.dead f.dt).1 h
      refine ⟨k + 1, by simpa using hk, ?_, ?_, ?_, ?_, ?_⟩
      · rw [List.take_succ_cons, runAttack_cons]
        simp only
        rw [e1, hs]
      · rw [List.take_succ_cons, runAttack_cons]
        simp only
        rw [← hs]
        exact e2
      · rw [List.take_succ_cons, runAttack_cons]
        exact e3
      · rw [List.take_succ_cons, aliveTime_cons]
        rw [hs, hcfg, htimer] at e4
        linarith
      · rw [List.take_succ_cons, runAttack_cons]
        simp only
        rw [hs, hcfg] at e5
        exact e5
    · have hd : f.dead = false := by
        cases hd : f.dead with
        | false => rfl
        | true =>
          rw [hd, (onUpdate_step st true f.dt).2.1 rfl] at hs
          exact absurd rfl hs
      rw [hd] at hs
      rcases ((onUpdate_step st false f.dt).2.2 rfl).1 with ⟨hsame, _⟩ | ⟨ht, hdur, hc⟩
      · exact absurd hsame hs
      · refine ⟨0, by simp, rfl, ?_, ?_, ?_, ?_⟩
        · simp only [zero_add, List.take_succ_cons, List.take_zero, runAttack_cons, runAttack]
          rw [hd]
          exact hs
        · simp only [zero_add, List.take_succ_cons, List.take_zero, runAttack_cons, runAttack]
          rw [hd]
          exact ht
        · simp only [zero_add, List.take_succ_cons, List.take_zero, aliveTime_cons, hd]
          simp only [aliveTime, List.filter_nil, List.map_nil, List.sum_nil, add_zero,
            Bool.false_eq_true, if_false]
          exact hdur
        · simp only [zero_add, List.take_succ_cons, List.take_zero, runAttack_cons, runAttack]
          rw [hd]
          rcases hc with ⟨a, b, c⟩ | ⟨a, b, c, _⟩ | ⟨a, c, _⟩ | ⟨a, c⟩
          · exact Or.inl ⟨a, b, c⟩
          · exact Or.inr (Or.inl ⟨a, b, c⟩)
          · exact Or.inr (Or.inr (Or.inl ⟨a, c⟩))
          · exact Or.inr (Or.inr (Or.inr ⟨a, c⟩))

/-- C28: within one activation of `BossAttackState` (from `onEnter` on, over every
sequence of `onUpdate` calls) the damage check `applyHitOnce` runs at most once, and
only on a call that finds the stage Active with a living Boss; stages only advance, in
the order Windup, Move (when `moveTime > 0`), Active, Recovery, each left only when the
timer, which advances on the frames with a living Boss, has reached the configured
duration, so Active is reached only after Windup, and Move when there is one, has run
for its duration; `Chase` is requested only from Recovery and `Dead` only for a dead
Boss. -/
theorem C28_attack_activation (pendingSkill : String) (frames : List AttackFrame)
    (st : BossAttackState) (dead : Bool) (dt : ℚ) :
    ((BossAttackState.onEnter pendingSkill).1.stage = Stage.Windup ∧
      (BossAttackState.onEnter pendingSkill).1.timer = 0 ∧
      (BossAttackState.onEnter pendingSkill).1.didHit = false) ∧
    (runAttack (BossAttackState.onEnter pendingSkill).1 frames).2.count
      AttackEvent.applyHitOnce ≤ 1 ∧
    (AttackEvent.applyHitOnce ∈ (st.onUpdate dead dt).2 →
      dead = false ∧ st.stage = Stage.Active ∧ st.didHit = false) ∧
    ((st.onUpdate dead dt).1.stage = st.stage ∨
      (dead = false ∧ st.stage.duration st.cfg ≤ st.timer + dt ∧
        (st.onUpdate dead dt).1.timer = 0 ∧
        ((st.stage = Stage.Windup ∧ 0 < st.cfg.moveTime ∧
            (st.onUpdate dead dt).1.stage = Stage.Move) ∨
          (st.stage = Stage.Windup ∧ st.cfg.moveTime ≤ 0 ∧
            (st.onUpdate dead dt).1.stage = Stage.Active) ∨
          (st.stage = Stage.Move ∧ (st.onUpdate dead dt).1.stage = Stage.Active) ∨
          (st.stage = Stage.Active ∧ (st.onUpdate dead dt).1.stage = Stage.Recovery)))) ∧
    (∀ name, AttackEvent.changeState name ∈ (st.onUpdate dead dt).2 →
      (name = "Dead" ∧ dead = true) ∨
      (name = "Chase" ∧ dead = false ∧ st.stage = Stage.Recovery ∧
        st.cfg.recovery ≤ st.timer + dt)) ∧
    ((runAttack (BossAttackState.onEnter pendingSkill).1 frames).1.stage ≠ Stage.Windup →
      ∃ k, k < frames.length ∧
        (runAttack (BossAttackState.onEnter pendingSkill).1 (frames.take k)).1.stage
          = Stage.Windup ∧
        (BossAttackState.onEnter pendingSkill).1.cfg.windup ≤ aliveTime (frames.take (k + 1)) ∧
        (0 < (BossAttackState.onEnter pendingSkill).1.cfg.moveTime →
          (runAttack (BossAttackState.onEnter pendingSkill).1 (frames.take (k + 1))).1.stage
            = Stage.Move ∧
          ((runAttack (BossAttackState.onEnter pendingSkill).1 frames).1.stage ≠ Stage.Move →
            ∃ j, j < (frames.drop (k + 1)).length ∧
              (runAttack (BossAttackState.onEnter pendingSkill).1
                (frames.take (k + 1) ++ (frames.drop (k + 1)).take j)).1.stage = Stage.Move ∧
              (BossAttackState.onEnter pendingSkill).1.cfg.moveTime ≤
                aliveTime ((frames.drop (k + 1)).take (j + 1))))) := by
  refine ⟨⟨rfl, rfl, rfl⟩, ?_, ?_, ?_, ?_, ?_⟩
  · have := runAttack_hits (BossAttackState.onEnter pendingSkill).1 frames
    have h1 : hitsLeft (BossAttackState.onEnter pendingSkill).1 ≤ 1 := by
      unfold hitsLeft
      split_ifs <;> omega
    omega
  · intro hmem
    cases dead with
    | true =>
      rw [(onUpdate_step st true dt).2.1 rfl] at hmem
      simp at hmem
    | false =>
      exact ⟨rfl, (((onUpdate_step st false dt).2.2 rfl).2.1).mp hmem⟩
  · cases dead with
    | true =>
      left
      rw [(onUpdate_step st true dt).2.1 rfl]
    | false =>
      rcases ((onUpdate_step st false dt).2.2 rfl).1 with ⟨hsame, _⟩ | ⟨ht, hdur, hc⟩
      · exact Or.inl hsame
      · right
        refine ⟨rfl, hdur, ht, ?_⟩
        rcases hc with ⟨a, b, c⟩ | ⟨a, b, c, _⟩ | ⟨a, c, _⟩ | ⟨a, c⟩
        · exact Or.inl ⟨a, b, c⟩
        · exact Or.inr (Or.inl ⟨a, b, c⟩)
        · exact Or.inr (Or.inr (Or.inl ⟨a, c⟩))
        · exact Or.inr (Or.inr (Or.inr ⟨a, c⟩))
  · intro name hmem
    cases dead with
    | true =>
      left
      rw [(onUpdate_step st true dt).2.1 rfl] at hmem
      simp only [List.mem_singleton, AttackEvent.changeState.injEq] at hmem
      exact ⟨hmem, rfl⟩
    | false =>
      right
      obtain ⟨h1, h2, h3⟩ := ((onUpdate_step st false dt).2.2 rfl).2.2.2 name hmem
      exact ⟨h1, rfl, h2, h3⟩
  · intro hne
    have hst0 : (BossAttackState.onEnter pendingSkill).1.stage = Stage.Windup := rfl
    have ht0 : (BossAttackState.onEnter pendingSkill).1.timer = 0 := rfl
    obtain ⟨k, hk, e1, e2, e3, e4, e5⟩ :=
      runAttack_stage_exit frames (BossAttackState.onEnter pendingSkill).1
        (by rw [hst0]; exact hne)
    rw [hst0] at e1
    rw [ht0, zero_add, hst0] at e4
    refine ⟨k, hk, e1, e4, ?_⟩
    intro hmove
    have hs1 : (runAttack (BossAttackState.onEnter pendingSkill).1
        (frames.take (k + 1))).1.stage = Stage.Move := by
      rcases e5 with ⟨_, _, c⟩ | ⟨_, b, _⟩ | ⟨a, _⟩ | ⟨a, _⟩
      · exact c
      · linarith
      · rw [hst0] at a
        cases a
      · rw [hst0] at a
        cases a
    refine ⟨hs1, ?_⟩
    intro hnm
    have hsplit : (runAttack (BossAttackState.onEnter pendingSkill).1 frames).1 =
        (runAttack (runAttack (BossAttackState.onEnter pendingSkill).1
          (frames.take (k + 1))).1 (frames.drop (k + 1))).1 := by
      rw [← runAttack_append, List.take_append_drop]
    obtain ⟨j, hj, f1, _, _, f4, _⟩ :=
      runAttack_stage_exit (frames.drop (k + 1))
        (runAttack (BossAttackState.onEnter pendingSkill).1 (frames.take (k + 1))).1
        (by rw [← hsplit, hs1]; exact hnm)
    refine ⟨j, hj, ?_, ?_⟩
    · rw [runAttack_append, f1, hs1]
    · rw [e3, zero_add, hs1, runAttack_cfg] at f4
      exact f4

/-- C28 on `Combo3` (windup 0.35, no move, active 0.5): over six frames of 0.2 s the
damage check runs once. -/
theorem C28_attack_activation_witness :
    (runAttack (BossAttackState.onEnter "Combo3").1
      [⟨false, 1/5⟩, ⟨false, 1/5⟩, ⟨false, 1/5⟩, ⟨false, 1/5⟩, ⟨false, 1/5⟩, ⟨false, 1/5⟩]).2.count
      AttackEvent.applyHitOnce = 1 ∧
    (runAttack (BossAttackState.onEnter "Combo3").1
      [⟨false, 1/5⟩, ⟨false, 1/5⟩, ⟨false, 1/5⟩, ⟨false, 1/5⟩, ⟨false, 1/5⟩, ⟨false, 1/5⟩]).2.count
      AttackEvent.applyHitOnce ≤ 1 :=
  ⟨by decide!,
    (C28_attack_activation "Combo3"
      [⟨false, 1/5⟩, ⟨false, 1/5⟩, ⟨false, 1/5⟩, ⟨false, 1/5⟩, ⟨false, 1/5⟩, ⟨false, 1/5⟩]
      (BossAttackState.onEnter "Combo3").1 false 0).2.1⟩

/-! ### Claims about the enemy states -/

/-- The states registered by `Enemy::initStateMachine`. -/
theorem initStateMachine_states (p : EnemyPercept) :
    (Enemy.initStateMachine p).sm.states =
      [("Idle", 0), ("Patrol", 1), ("Chase", 2), ("Attack", 3), ("Hit", 4), ("Dead", 5),
        ("Return", 6)] ∧
    (Enemy.initStateMachine p).sm.currentState = some EnemyStateId.Idle.id := by
  constructor <;> rfl

theorem EnemyFsm.changeState_states (e : EnemyFsm) (p : EnemyPercept) (name : String) :
    (e.changeState p name).sm.states = e.sm.states := by
  have h : (e.sm.changeState name).states = e.sm.states := by
    unfold StateMachine.changeState StateMachine.changeStatePtr
    cases e.sm.states.lookup name with
    | none => rfl
    | some s =>
      simp only
      split_ifs
      · rfl
      · cases e.sm.currentState <;> rfl
  unfold EnemyFsm.changeState
  simp only
  split_ifs
  · exact h
  · split <;> exact h

/-- With the states of `initStateMachine` registered, `changeState("Dead")` makes the
Dead state current. -/
theorem EnemyFsm.changeState_dead (e : EnemyFsm) (p : EnemyPercept)
    (hreg : e.sm.states = (Enemy.initStateMachine p).sm.states) :
    (e.changeState p "Dead").sm.currentState = some EnemyStateId.Dead.id := by
  have hl : e.sm.states.lookup "Dead" = some 5 := by
    rw [hreg, (initStateMachine_states p).1]
    rfl
  have h : (e.sm.changeState "Dead").currentState = some 5 := by
    unfold StateMachine.changeState StateMachine.changeStatePtr
    rw [hl]
    simp only
    split_ifs with hc
    · exact hc.symm
    · cases e.sm.currentState <;> rfl
  unfold EnemyFsm.changeState
  simp only
  split_ifs
  · exact h
  · split <;> exact h

/-- C29: with the states of `Enemy::initStateMachine` registered, in each of Idle,
Patrol, Chase, Attack, Hit and Return an update on an enemy whose `isDead()` is true
requests `Dead` and nothing else, before any other logic (the data members of the state
are unchanged), and the frame ends with Dead current; `EnemyDeadState::onUpdate`
requests no transition, so once Dead is current it stays current over every sequence
of updates. -/
theorem C29_dead_absorbing (e : EnemyFsm) (p : EnemyPercept) (dt : ℚ)
    (frames : List (EnemyPercept × ℚ))
    (hreg : e.sm.states = (Enemy.initStateMachine p).sm.states) :
    (∀ s : EnemyStateId, s ≠ EnemyStateId.Dead → p.isDead = true →
      enemyOnUpdate s e.vars p dt = (e.vars, ["Dead"]) ∧
      (e.sm.currentState = some s.id →
        (e.update p dt).sm.currentState = some EnemyStateId.Dead.id)) ∧
    (∀ v q t, (enemyOnUpdate EnemyStateId.Dead v q t).2 = []) ∧
    (e.sm.currentState = some EnemyStateId.Dead.id →
      (runEnemy e frames).sm.currentState = some EnemyStateId.Dead.id) := by
  refine ⟨?_, fun _ _ _ => rfl, ?_⟩
  · intro s hs hd
    have hreq : enemyOnUpdate s e.vars p dt = (e.vars, ["Dead"]) := by
      cases s with
      | Dead => exact absurd rfl hs
      | Idle => simp [enemyOnUpdate, idleOnUpdate, hd]
      | Patrol => simp [enemyOnUpdate, patrolOnUpdate, hd]
      | Chase => simp [enemyOnUpdate, chaseOnUpdate, hd]
      | Attack => simp [enemyOnUpdate, attackOnUpdate, hd]
      | Hit => simp [enemyOnUpdate, hitOnUpdate, hd]
      | Return => simp [enemyOnUpdate, returnOnUpdate, hd]
    refine ⟨hreq, ?_⟩
    intro hcur
    have hof : e.sm.currentState.bind EnemyStateId.ofId = some s := by
      rw [hcur]
      cases s <;> rfl
    unfold EnemyFsm.update
    rw [hof]
    simp only [hreq, List.foldl_cons, List.foldl_nil]
    apply EnemyFsm.changeState_dead
    simp only
    rw [← hreg]
    unfold StateMachine.update
    cases e.sm.currentState <;> rfl
  · intro hcur
    unfold runEnemy
    induction frames generalizing e with
    | nil => exact hcur
    | cons f rest ih =>
      rw [List.foldl_cons]
      have hstep : (e.update f.1 f.2).sm.currentState = some EnemyStateId.Dead.id ∧
          (e.update f.1 f.2).sm.states = e.sm.states := by
        unfold EnemyFsm.update
        rw [hcur]
        simp only [EnemyStateId.id, Option.bind, EnemyStateId.ofId, enemyOnUpdate, deadOnUpdate,
          List.foldl_nil, StateMachine.update, hcur]
        exact ⟨trivial, trivial⟩
      exact ih _ (hreg ▸ hstep.2 ▸ rfl) hstep.1

/-- C29 on the machine of `initStateMachine` (state Idle) with a dead enemy: the
frame ends in Dead. -/
theorem C29_dead_absorbing_witness :
    ((Enemy.initStateMachine deadPercept).update deadPercept (1 / 60)).sm.currentState =
      some EnemyStateId.Dead.id :=
  ((C29_dead_absorbing (Enemy.initStateMachine deadPercept) deadPercept (1 / 60) [] rfl).1
    EnemyStateId.Idle (by decide) rfl).2 rfl

/-! ### Claims about `applyMovement` -/

/-- When the ray reports ground height `g` with `g - oldY < 40`, the second half of
`applyMovement` puts the entity at height `g` above the XZ of the new position, and the
on-ground flag is set exactly when it was set or the vertical velocity is `<= 0`. -/
theorem groundStep_snap (tc : TerrainCollider) (hitDist0 : ℚ) (oldPos newPos velocity : Vec3)
    (onGround : Bool) (dt g : ℚ) (hg : groundBelow tc hitDist0 newPos = some g)
    (hstep : g - oldPos.y < 40) :
    (groundStep (some tc) hitDist0 oldPos newPos velocity onGround dt).1 =
      ⟨newPos.x, g, newPos.z⟩ ∧
    (onGround = false → velocity.y ≤ 0 →
      (groundStep (some tc) hitDist0 oldPos newPos velocity onGround dt).2.2 = true ∧
      (groundStep (some tc) hitDist0 oldPos newPos velocity onGround dt).2.1 =
        ⟨velocity.x, 0, velocity.z⟩) ∧
    (onGround = true ∨ 0 < velocity.y →
      (groundStep (some tc) hitDist0 oldPos newPos velocity onGround dt).2.2 = onGround ∧
      (groundStep (some tc) hitDist0 oldPos newPos velocity onGround dt).2.1 = velocity) := by
  unfold groundStep
  simp only [hg, hstep, if_true]
  refine ⟨?_, ?_, ?_⟩
  · split_ifs <;> rfl
  · intro h1 h2
    simp [h1, h2]
  · intro h
    rcases h with h | h
    · simp [h]
    · have : ¬ velocity.y ≤ 0 := not_le.mpr h
      simp [this]

theorem preMove_fields (c : Character) (f : FrameInput) :
    (c.preMove f).position = c.position ∧ (c.preMove f).dead = c.dead ∧
    (c.preMove f).onGround = c.onGround ∧ (c.preMove f).terrainCollider = c.terrainCollider ∧
    (c.preMove f).gravity = c.gravity ∧ (c.preMove f).jumpSpeed = c.jumpSpeed := by
  unfold Character.preMove Character.applyGravity
  simp only
  split_ifs <;> exact ⟨rfl, rfl, rfl, rfl, rfl, rfl⟩

theorem update_fields (c : Character) (worldBoxOf : Vec3 → AABB) (hitDist0 : ℚ)
    (f : FrameInput) :
    (c.update worldBoxOf hitDist0 f).dead = c.dead ∧
    (c.update worldBoxOf hitDist0 f).terrainCollider = c.terrainCollider := by
  obtain ⟨_, h2, _, h4, _, _⟩ := preMove_fields c f
  unfold Character.update Character.applyMovement
  split_ifs <;> exact ⟨h2, h4⟩

/-- One frame of a living character at height `g` on which the ray reports the ground
height `g`: the character stays at height `g`. -/
theorem update_keeps_height (c : Character) (worldBoxOf : Vec3 → AABB) (hitDist0 : ℚ)
    (f : FrameInput) (g : ℚ) (halive : c.dead = false) (hy : c.position.y = g)
    (hrep : c.groundReport worldBoxOf hitDist0 f = some g) :
    (c.update worldBoxOf hitDist0 f).position.y = g ∧
    (c.update worldBoxOf hitDist0 f).position.x = ((c.preMove f).pushedPos worldBoxOf f.dt).x ∧
    (c.update worldBoxOf hitDist0 f).position.z = ((c.preMove f).pushedPos worldBoxOf f.dt).z ∧
    ((c.preMove f).onGround = false → (c.preMove f).velocity.y ≤ 0 →
      (c.update worldBoxOf hitDist0 f).onGround = true ∧
      (c.update worldBoxOf hitDist0 f).velocity.y = 0) ∧
    ((c.preMove f).onGround = false → 0 < (c.preMove f).velocity.y →
      (c.update worldBoxOf hitDist0 f).onGround = false ∧
      (c.update worldBoxOf hitDist0 f).velocity.y = (c.preMove f).velocity.y) := by
  obtain ⟨p1, p2, _, _, _, _⟩ := preMove_fields c f
  have hd : (c.preMove f).isDead = false := by
    unfold Character.isDead
    rw [p2, halive]
  unfold Character.groundReport at hrep
  cases htc : (c.preMove f).terrainCollider with
  | none =>
    rw [htc] at hrep
    cases hrep
  | some tc =>
    rw [htc] at hrep
    simp only at hrep
    have hs := groundStep_snap tc hitDist0 (c.preMove f).position
      ((c.preMove f).pushedPos worldBoxOf f.dt) (c.preMove f).velocity (c.preMove f).onGround
      f.dt g hrep (by rw [p1, hy]; norm_num)
    unfold Character.update
    rw [hd]
    simp only [Bool.false_eq_true, if_false, Character.applyMovement, htc]
    refine ⟨by rw [hs.1], by rw [hs.1], by rw [hs.1], ?_, ?_⟩
    · intro h1 h2
      obtain ⟨a, b⟩ := hs.2.1 h1 h2
      exact ⟨a, by rw [b]⟩
    · intro h1 h2
      obtain ⟨a, b⟩ := hs.2.2 (Or.inr h2)
      exact ⟨by rw [a, h1], by rw [b]⟩

/-- Over a sequence of frames on each of which the ray reports the ground height `g`,
a living character that starts at height `g` is at height `g` after every frame. -/
theorem runFrames_keeps_height (frames : List FrameInput) (c : Character)
    (worldBoxOf : Vec3 → AABB) (hitDist0 : ℚ) (g : ℚ) (halive : c.dead = false)
    (hy : c.position.y = g)
    (hrep : ∀ k (hk : k < frames.length),
      (runFrames c worldBoxOf hitDist0 (frames.take k)).groundReport worldBoxOf hitDist0
        (frames.get ⟨k, hk⟩) = some g) :
    ∀ k, k ≤ frames.length →
      (runFrames c worldBoxOf hitDist0 (frames.take k)).position.y = g := by
  induction frames generalizing c with
  | nil =>
    intro k _
    simpa [runFrames] using hy
  | cons f rest ih =>
    intro k hk
    cases k with
    | zero => simpa [runFrames] using hy
    | succ j =>
      have h0 := hrep 0 (by simp)
      simp only [List.take_zero, runFrames, List.foldl_nil] at h0
      have hstep := update_keeps_height c worldBoxOf hitDist0 f g halive hy h0
      have hd := (update_fields c worldBoxOf hitDist0 f).1
      have := ih (c.update worldBoxOf hitDist0 f) (by rw [hd, halive]) hstep.1
        (fun i hi => by
          have := hrep (i + 1) (by simpa using hi)
          simpa [runFrames] using this)
        j (by simpa using hk)
      simpa [runFrames] using this

/-- C26 (as amended): in `Character::applyMovement`, and in `Enemy::applyMovement`,
with a terrain collider, whenever the downward ray from 500 units above the new
position reports the ground height `g` with `g - oldY < 40`, the Y of the entity after
the call is `g`, whatever the vertical velocity; `jump()` of a living character on the
ground changes the on-ground flag, the vertical velocity and the state machine only,
not the position; and over every sequence of updates of a living character at height
`g` on each of which the ray reports `g` the character's Y stays `g`, the on-ground flag
being restored on the first such update whose vertical velocity, after gravity, is
`<= 0`. -/
theorem C26_ground_snap (c : Character) (e : EnemyMover) (tc : TerrainCollider)
    (worldBoxOf : Vec3 → AABB) (hitDist0 dt g : ℚ) (f : FrameInput)
    (frames : List FrameInput) :
    (c.terrainCollider = some tc →
      groundBelow tc hitDist0 (c.pushedPos worldBoxOf dt) = some g →
      g - c.position.y < 40 →
      (c.applyMovement worldBoxOf hitDist0 dt).position.y = g) ∧
    (e.terrainCollider = some tc →
      groundBelow tc hitDist0 (Vec3.add e.position (Vec3.smul dt e.velocity)) = some g →
      g - e.position.y < 40 →
      (e.applyMovement hitDist0 dt).position.y = g) ∧
    (c.onGround = true → c.dead = false →
      c.jump.position = c.position ∧ c.jump.onGround = false ∧
      c.jump.velocity = ⟨c.velocity.x, c.jumpSpeed, c.velocity.z⟩ ∧
      c.jump.dead = false ∧ c.jump.terrainCollider = c.terrainCollider) ∧
    (c.dead = false → c.position.y = g →
      c.groundReport worldBoxOf hitDist0 f = some g →
      (c.update worldBoxOf hitDist0 f).position.y = g ∧
      ((c.preMove f).onGround = false → (c.preMove f).velocity.y ≤ 0 →
        (c.update worldBoxOf hitDist0 f).onGround = true ∧
        (c.update worldBoxOf hitDist0 f).velocity.y = 0) ∧
      ((c.preMove f).onGround = false → 0 < (c.preMove f).velocity.y →
        (c.update worldBoxOf hitDist0 f).onGround = false)) ∧
    (c.dead = false → c.position.y = g →
      (∀ k (hk : k < frames.length),
        (runFrames c worldBoxOf hitDist0 (frames.take k)).groundReport worldBoxOf hitDist0
          (frames.get ⟨k, hk⟩) = some g) →
      ∀ k, k ≤ frames.length →
        (runFrames c worldBoxOf hitDist0 (frames.take k)).position.y = g) := by
  refine ⟨?_, ?_, ?_, ?_, ?_⟩
  · intro htc hg hstep
    unfold Character.applyMovement
    simp only [htc]
    rw [(groundStep_snap tc hitDist0 c.position (c.pushedPos worldBoxOf dt) c.velocity
      c.onGround dt g hg hstep).1]
  · intro htc hg hstep
    unfold EnemyMover.applyMovement
    simp only [htc]
    rw [(groundStep_snap tc hitDist0 e.position _ e.velocity e.onGround dt g hg hstep).1]
  · intro hgr hal
    unfold Character.jump Character.isDead
    simp [hgr, hal]
  · intro hal hy hrep
    obtain ⟨h1, _, _, h4, h5⟩ := update_keeps_height c worldBoxOf hitDist0 f g hal hy hrep
    exact ⟨h1, h4, fun a b => (h5 a b).1⟩
  · intro hal hy hrep
    exact runFrames_keeps_height frames c worldBoxOf hitDist0 g hal hy hrep

/-- C26, as amended, on `sampleCharacter` (ground height 0): after `jump()`, an update of 1/60 s
with the vertical velocity still positive leaves the character at height 0. -/
theorem C26_ground_snap_witness :
    (sampleCharacter.jump.update (fun _ => defaultBox) 0 ⟨1 / 60, none, []⟩).position.y = 0 ∧
    sampleCharacter.jump.velocity.y = 520 ∧
    (sampleCharacter.jump.update (fun _ => defaultBox) 0 ⟨1 / 60, none, []⟩).onGround = false :=
  have h := (C26_ground_snap sampleCharacter.jump ⟨⟨0, 0, 0⟩, ⟨0, 0, 0⟩, true, none⟩
    unitCollider (fun _ => defaultBox) 0 (1 / 60) 0 ⟨1 / 60, none, []⟩ []).2.2.2.1
    (by decide!) (by decide!) (by decide!)
  ⟨h.1, by decide!, h.2.2 (by decide!) (by decide!)⟩

/-- C26 as stated fails: `sampleCharacter` stands on the flat `unitCollider` at the
ground height 0; after `jump()`, an update with a frame time of 1 s moves the new
position 880 units below the ground, the ray from 500 above it starts under the ground
and reports nothing, and the character is left at height -880, off the ground. -/
theorem C26_counterexample :
    sampleCharacter.terrainCollider = some unitCollider ∧
    (∀ tri ∈ unitCollider.triangles, tri.v0.y = 0 ∧ tri.v1.y = 0 ∧ tri.v2.y = 0) ∧
    groundBelow unitCollider 0 sampleCharacter.position = some 0 ∧
    sampleCharacter.position.y = 0 ∧
    sampleCharacter.jump.position.y = 0 ∧
    sampleCharacter.jump.groundReport (fun _ => defaultBox) 0 ⟨1, none, []⟩ = none ∧
    (sampleCharacter.jump.update (fun _ => defaultBox) 0 ⟨1, none, []⟩).position.y = -880 ∧
    (sampleCharacter.jump.update (fun _ => defaultBox) 0 ⟨1, none, []⟩).onGround = false :=
  ⟨rfl, by decide!, by decide!, by decide!, by decide!, by decide!, by decide!, by decide!⟩

end Wukong
